import Mathlib

/-!
# Killerbeez fork server: embedding and verified properties

Shallow embedding of `instrumentation/forkserver.c` (the stub that lives in
the target process) and of the fork-server part of
`instrumentation/instrumentation.c` (the driver that lives in the fuzzer).

System calls are modelled by an explicit world: a kernel that answers each
call, and the chronological trace of the calls made so far together with
the answers they got.  C `int`s are `Int`s; the code performs no arithmetic
on them, so no wrap-around is involved.
-/

namespace Killerbeez

/-! ## Protocol constants -/

/-- The constants of `forkserver.h` and `forkserver_internal.h`.  Those headers
are not among the sources, so the values are a parameter of every definition
that uses them. -/
structure Consts where
  EXIT : Int
  FORK : Int
  FORK_RUN : Int
  RUN : Int
  GET_STATUS : Int
  FUZZER_TO_FORKSRV : Int
  FORKSRV_TO_FUZZER : Int
  FORKSERVER_ERROR : Int
  FORKSERVER_NO_RESULTS_READY : Int
  deriving DecidableEq, Repr

/-- The five command bytes are pairwise different.  The C compiler enforces this:
they are the `case` labels of one `switch`. -/
def Consts.distinct_commands (c : Consts) : Prop :=
  c.EXIT ≠ c.FORK ∧ c.EXIT ≠ c.FORK_RUN ∧ c.EXIT ≠ c.RUN ∧ c.EXIT ≠ c.GET_STATUS ∧
  c.FORK ≠ c.FORK_RUN ∧ c.FORK ≠ c.RUN ∧ c.FORK ≠ c.GET_STATUS ∧
  c.FORK_RUN ≠ c.RUN ∧ c.FORK_RUN ≠ c.GET_STATUS ∧ c.RUN ≠ c.GET_STATUS

instance (c : Consts) : Decidable c.distinct_commands := by
  unfold Consts.distinct_commands; infer_instance

/-- Modelled from the spec: the numeric values of the constants of the missing
header `forkserver_internal.h`.  The spec leaves the command values
implementation-defined and only asks that the two descriptors lie outside
0/1/2; this is one admissible choice, used to evaluate the code on concrete
inputs. -/
def sample_consts : Consts where
  EXIT := 0
  FORK := 1
  FORK_RUN := 2
  RUN := 3
  GET_STATUS := 4
  FUZZER_TO_FORKSRV := 198
  FORKSRV_TO_FUZZER := 199
  FORKSERVER_ERROR := -1
  FORKSERVER_NO_RESULTS_READY := -2

/-! ## System calls -/

/-- A system call with the arguments the code passes.  A buffer of one `char` or
one `int` is represented by the value it holds. -/
inductive Call where
  /-- Call `write(fd, &val, count)`. -/
  | write (fd : Int) (val : Int) (count : Nat)
  /-- Call `read(fd, &buf, count)`. -/
  | read (fd : Int) (count : Nat)
  /-- Call `ioctl(fd, FIONREAD, &n)`. -/
  | ioctl_FIONREAD (fd : Int)
  /-- Call `close(fd)`. -/
  | close (fd : Int)
  /-- Call `fork()`. -/
  | fork
  /-- Call `pipe(fds)`. -/
  | pipe
  /-- Call `waitpid(pid, &status, 0)`. -/
  | waitpid (pid : Int)
  /-- Call `kill(pid, sig)`. -/
  | kill (pid : Int) (sig : Int)
  /-- Call `open("/dev/null", O_RDWR)`. -/
  | open_dev_null
  /-- Call `mkstemp(stdin_filename)`. -/
  | mkstemp
  /-- Call `usleep(usec)`. -/
  | usleep (usec : Nat)
  deriving DecidableEq, Repr

/-- The kernel's answer to a call: the return value and what it stored through
the pointer argument (`val`: the byte or `int` read, the byte count of
FIONREAD, the wait status, the read end of a new pipe; `val2`: the write end
of a new pipe). -/
structure Reply where
  ret : Int
  val : Int
  val2 : Int
  deriving DecidableEq, Repr

/-- A call together with the answer it got. -/
structure Event where
  call : Call
  reply : Reply
  deriving DecidableEq, Repr

/-- The kernel answers a call of the process, given the history of the calls it
has answered so far; every behaviour of the outside world is one such
function. -/
abbrev Kernel := List Event → Call → Reply

/-- The world of one process: the kernel and the trace of calls so far, oldest
first. -/
structure World where
  kernel : Kernel
  trace : List Event

/-- Perform one system call: ask the kernel and append the event to the trace. -/
def sys (w : World) (c : Call) : Reply × World :=
  (w.kernel w.trace c, { w with trace := w.trace ++ [⟨c, w.kernel w.trace c⟩] })

/-! ## forkserver.c: the stub inside the target -/

/-- How a run of `forkserver_init` ends. -/
inductive Outcome where
  /-- The function returned to its caller (user code follows). -/
  | returned
  /-- The process called `_exit(code)`. -/
  | exited (code : Int)
  /-- The loop is still running after the given number of iterations. -/
  | running
  deriving DecidableEq, Repr

/-- Where control is after the `switch` of one loop iteration. -/
inductive Switch where
  /-- The process left `forkserver_init` inside the switch. -/
  | leave (o : Outcome) (w : World)
  /-- Control reached the statement after the switch with these values of
  `response` and `child_pid`. -/
  | fallout (response : Int) (child_pid : Int) (w : World)

/-- The `switch(command)` of `forkserver_init` (forkserver.c lines 162-203). -/
def switch_command (c : Consts) (target_pipe0 target_pipe1 : Int) (command : Int)
    (response child_pid : Int) (w : World) : Switch :=
  if command = c.EXIT then
    .leave (.exited 0) w
  else if command = c.FORK ∨ command = c.FORK_RUN then
    let fk := sys w .fork
    let child_pid := fk.1.ret
    if child_pid < 0 then
      .leave (.exited 1) fk.2
    else if child_pid = 0 then
      let w1 := (sys fk.2 (.close c.FUZZER_TO_FORKSRV)).2
      let w2 := (sys w1 (.close c.FORKSRV_TO_FUZZER)).2
      let w3 := (sys w2 (.close target_pipe1)).2
      if command = c.FORK then
        let g := sys w3 (.read target_pipe0 4)
        if g.1.ret ≠ 4 then
          .leave (.exited 1) g.2
        else
          .leave .returned (sys g.2 (.close target_pipe0)).2
      else
        .leave .returned (sys w3 (.close target_pipe0)).2
    else
      .fallout child_pid child_pid fk.2
  else if command = c.RUN then
    let wr := sys w (.write target_pipe1 0 4)
    if wr.1.ret ≠ 4 then
      .leave (.exited 1) wr.2
    else
      .fallout 0 child_pid wr.2
  else if command = c.GET_STATUS then
    let wt := sys w (.waitpid child_pid)
    if wt.1.ret < 0 then
      .leave (.exited 1) wt.2
    else
      .fallout wt.1.val child_pid wt.2
  else
    .fallout response child_pid w

/-- The `while (1)` loop of `forkserver_init` (forkserver.c lines 156-207), run for
at most `fuel` iterations. -/
def server_loop (c : Consts) (target_pipe0 target_pipe1 : Int) :
    Nat → Int → Int → World → Outcome × World
  | 0, _, _, w => (.running, w)
  | fuel + 1, response, child_pid, w =>
    let rd := sys w (.read c.FUZZER_TO_FORKSRV 1)
    if rd.1.ret ≠ 1 then
      (.exited 1, rd.2)
    else
      match switch_command c target_pipe0 target_pipe1 rd.1.val response child_pid rd.2 with
      | .leave o w1 => (o, w1)
      | .fallout response1 child_pid1 w1 =>
        let wr := sys w1 (.write c.FORKSRV_TO_FUZZER response1 4)
        if wr.1.ret ≠ 4 then
          (.exited 1, wr.2)
        else
          server_loop c target_pipe0 target_pipe1 fuel response1 child_pid1 wr.2

/-- What `forkserver_init` leaves behind: how it ended, the global `init_done`,
and the world. -/
structure ServerResult where
  outcome : Outcome
  init_done : Int
  world : World

/-- The function `forkserver_init` (forkserver.c lines 138-208).  `uninit` is the
indeterminate value of the uninitialised local `child_pid`. -/
def forkserver_init (c : Consts) (uninit : Int) (fuel : Nat) (w : World) : ServerResult :=
  let response : Int := 0x41414141
  let init_done : Int := 1
  let hello := sys w (.write c.FORKSRV_TO_FUZZER response 4)
  if hello.1.ret ≠ 4 then
    ⟨.returned, init_done, hello.2⟩
  else
    let p := sys hello.2 .pipe
    if p.1.ret ≠ 0 then
      ⟨.exited 1, init_done, p.2⟩
    else
      let r := server_loop c p.1.val p.1.val2 fuel response uninit p.2
      ⟨r.1, init_done, r.2⟩

/-- The type `orig_function_type`: a function of eight pointer arguments that
returns a pointer; as code it also acts on the world. -/
abbrev orig_function_type :=
  Int → Int → Int → Int → Int → Int → Int → Int → World → Int × World

/-- What a call of `fake_main` amounts to. -/
inductive MainResult where
  /-- The call returned `ret`; `init_done` and the world are as given. -/
  | returned (ret : Int) (init_done : Int) (w : World)
  /-- The process ended inside `forkserver_init`. -/
  | ended (o : Outcome) (init_done : Int) (w : World)

/-- The function `fake_main` (forkserver.c lines 102-106). -/
def fake_main (c : Consts) (orig_main : orig_function_type) (uninit : Int) (fuel : Nat)
    (a0 a1 a2 a3 a4 a5 a6 a7 : Int) (w : World) : MainResult :=
  let r := forkserver_init c uninit fuel w
  match r.outcome with
  | .returned =>
    let m := orig_main a0 a1 a2 a3 a4 a5 a6 a7 r.world
    .returned m.1 r.init_done m.2
  | o => .ended o r.init_done r.world

/-! ## instrumentation.c: the driver inside the fuzzer -/

/-- The handle `forkserver_t` of `forkserver_internal.h`. -/
structure forkserver_t where
  fuzzer_to_forksrv : Int
  forksrv_to_fuzzer : Int
  target_stdin : Int
  pid : Int
  sent_get_status : Int
  last_status : Int
  deriving DecidableEq, Repr

/-- The function `send_command` (instrumentation.c lines 456-461). -/
def send_command (c : Consts) (fs : forkserver_t) (command : Int) (w : World) : Int × World :=
  let wr := sys w (.write fs.fuzzer_to_forksrv command 1)
  if wr.1.ret ≠ 1 then (c.FORKSERVER_ERROR, wr.2) else (0, wr.2)

/-- The function `read_response` (instrumentation.c lines 468-474). -/
def read_response (c : Consts) (fs : forkserver_t) (w : World) : Int × World :=
  let rd := sys w (.read fs.forksrv_to_fuzzer 4)
  if rd.1.ret ≠ 4 then (c.FORKSERVER_ERROR, rd.2) else (rd.1.val, rd.2)

/-- The function `fork_server_exit` (instrumentation.c lines 481-490). -/
def fork_server_exit (c : Consts) (fs : forkserver_t) (w : World) : Int × World :=
  let s := send_command c fs c.EXIT w
  if s.1 = 0 then
    let w1 := (sys s.2 (.close fs.fuzzer_to_forksrv)).2
    let w2 := (sys w1 (.close fs.forksrv_to_fuzzer)).2
    let w3 := (sys w2 (.close fs.target_stdin)).2
    (s.1, w3)
  else
    (s.1, s.2)

/-- The function `send_fork` (instrumentation.c lines 498-504). -/
def send_fork (c : Consts) (fs : forkserver_t) (command : Int) (w : World) :
    Int × forkserver_t × World :=
  let s := send_command c fs command w
  if s.1 ≠ 0 then
    (c.FORKSERVER_ERROR, fs, s.2)
  else
    let r := read_response c fs s.2
    (r.1, { fs with sent_get_status := 0 }, r.2)

/-- The function `fork_server_fork` (instrumentation.c lines 511-514). -/
def fork_server_fork (c : Consts) (fs : forkserver_t) (w : World) :
    Int × forkserver_t × World :=
  send_fork c fs c.FORK w

/-- The function `fork_server_fork_run` (instrumentation.c lines 521-524). -/
def fork_server_fork_run (c : Consts) (fs : forkserver_t) (w : World) :
    Int × forkserver_t × World :=
  send_fork c fs c.FORK_RUN w

/-- The function `fork_server_run` (instrumentation.c lines 531-538). -/
def fork_server_run (c : Consts) (fs : forkserver_t) (w : World) : Int × World :=
  let s := send_command c fs c.RUN w
  if s.1 ≠ 0 then
    (c.FORKSERVER_ERROR, s.2)
  else
    let r := read_response c fs s.2
    if r.1 ≠ 0 then (c.FORKSERVER_ERROR, r.2) else (0, r.2)

/-- The function `fork_server_get_pending_status` (instrumentation.c lines
547-565). -/
def fork_server_get_pending_status (c : Consts) (fs : forkserver_t) (wait : Int) (w : World) :
    Int × forkserver_t × World :=
  if fs.sent_get_status ≠ 0 ∧ fs.last_status ≠ -1 then
    (fs.last_status, fs, w)
  else if wait ≠ 0 then
    let r := read_response c fs w
    (r.1, fs, r.2)
  else
    let io := sys w (.ioctl_FIONREAD fs.forksrv_to_fuzzer)
    if io.1.ret = 0 ∧ io.1.val = 4 then
      let r := read_response c fs io.2
      (r.1, { fs with last_status := r.1 }, r.2)
    else
      (c.FORKSERVER_NO_RESULTS_READY, fs, io.2)

/-- The function `fork_server_get_status` (instrumentation.c lines 574-583). -/
def fork_server_get_status (c : Consts) (fs : forkserver_t) (wait : Int) (w : World) :
    Int × forkserver_t × World :=
  if fs.sent_get_status = 0 then
    let s := send_command c fs c.GET_STATUS w
    if s.1 ≠ 0 then
      (c.FORKSERVER_ERROR, fs, s.2)
    else
      fork_server_get_pending_status c
        { fs with sent_get_status := 1, last_status := -1 } wait s.2
  else
    fork_server_get_pending_status c fs wait w

/-! ## Reading traces -/

/-- In the server process every call succeeds: reads and writes transfer the
whole count, `fork` returns a pid to the parent, `pipe` succeeds with a
descriptor that is not the (open) status descriptor, `waitpid` succeeds. -/
def Kernel.succeeds_in_server (c : Consts) (k : Kernel) : Prop :=
  (∀ h fd v n, (k h (.write fd v n)).ret = n) ∧
  (∀ h fd n, (k h (.read fd n)).ret = n) ∧
  (∀ h, 0 < (k h .fork).ret) ∧
  (∀ h, (k h .pipe).ret = 0 ∧ (k h .pipe).val2 ≠ c.FORKSRV_TO_FUZZER) ∧
  (∀ h p, 0 ≤ (k h (.waitpid p)).ret)

/-- The event is a read of one command byte from `FUZZER_TO_FORKSRV`. -/
def Event.is_command_read (c : Consts) (e : Event) : Bool :=
  match e.call with
  | .read fd n => fd = c.FUZZER_TO_FORKSRV ∧ n = 1
  | _ => false

/-- The event is a write to the descriptor `fd`. -/
def Event.writes_to (fd : Int) (e : Event) : Bool :=
  match e.call with
  | .write fd1 _ _ => fd1 = fd
  | _ => false

/-- The event is a write. -/
def Event.is_write (e : Event) : Bool :=
  match e.call with
  | .write _ _ _ => true
  | _ => false

/-- The byte count of a write (0 for any other call). -/
def Event.write_count (e : Event) : Nat :=
  match e.call with
  | .write _ _ n => n
  | _ => 0

/-- Command/response parity of a trace, as the spec words it.  `owed` tells
whether a response to the last command read is still due.  A command read
other than `EXIT` must be followed by one 4-byte write to `FORKSRV_TO_FUZZER`
before the next command read; with no response due no such write may occur;
after an `EXIT` read there is no write at all. -/
def parity (c : Consts) : Bool → List Event → Bool
  | owed, [] => !owed
  | false, e :: rest =>
    if e.is_command_read c then
      if e.reply.val = c.EXIT then rest.all (fun x => !x.is_write)
      else parity c true rest
    else if e.writes_to c.FORKSRV_TO_FUZZER then false
    else parity c false rest
  | true, e :: rest =>
    if e.is_command_read c then false
    else if e.writes_to c.FORKSRV_TO_FUZZER then
      decide (e.write_count = 4) && parity c false rest
    else parity c true rest

/-- What the response check remembers while it walks a trace. -/
structure Scan where
  /-- The last command byte read. -/
  command : Option Int
  /-- The pid returned by a `fork()` made since that read. -/
  forked : Option Int
  /-- The pid passed to and the status stored by a `waitpid` made since that read. -/
  waited : Option (Int × Int)
  /-- The pid returned by the most recent `fork()` of the whole run. -/
  last_child : Option Int
  deriving DecidableEq, Repr

/-- The status `v` was stored by a `waitpid` made since the last command read, and
that `waitpid` was called on the pid of the most recently forked child (when
a child has been forked at all). -/
def waited_ok (s : Scan) (v : Int) : Bool :=
  match s.waited with
  | some (p, st) =>
    decide (st = v) && (decide (s.last_child = none) || decide (s.last_child = some p))
  | none => false

/-- The response value `v` is the one the spec prescribes for the command being
handled: the pid returned by `fork()` for `FORK` and `FORK_RUN`, 0 for `RUN`,
and for `GET_STATUS` the status stored by a `waitpid` on the pid of the most
recently forked child. -/
def response_ok (c : Consts) (s : Scan) (v : Int) : Bool :=
  (if s.command = some c.FORK ∨ s.command = some c.FORK_RUN
    then decide (s.forked = some v) else true) &&
  (if s.command = some c.RUN then decide (v = 0) else true) &&
  (if s.command = some c.GET_STATUS then waited_ok s v else true)

/-- Every write to `FORKSRV_TO_FUZZER` in the trace carries the response value the
spec prescribes for the command read before it. -/
def responses (c : Consts) : Scan → List Event → Bool
  | _, [] => true
  | s, e :: rest =>
    match e.call with
    | .read fd _ =>
      if fd = c.FUZZER_TO_FORKSRV then
        responses c ⟨some e.reply.val, none, none, s.last_child⟩ rest
      else responses c s rest
    | .fork =>
      responses c { s with forked := some e.reply.ret, last_child := some e.reply.ret } rest
    | .waitpid p => responses c { s with waited := some (p, e.reply.val) } rest
    | .write fd v _ =>
      if fd = c.FORKSRV_TO_FUZZER then response_ok c s v && responses c s rest
      else responses c s rest
    | _ => responses c s rest

/-- A kernel for evaluating the server: it feeds the command bytes `cmds` in
order (then `EXIT`), every call succeeds, `fork` returns the pids 1000, 1001,
..., `pipe` returns the descriptors 3 and 4, `waitpid` stores the status 0. -/
def scripted_kernel (c : Consts) (cmds : List Int) : Kernel := fun h call =>
  match call with
  | .write _ _ n => ⟨n, 0, 0⟩
  | .read fd n =>
    if fd = c.FUZZER_TO_FORKSRV then
      ⟨n, (cmds.drop (h.countP (Event.is_command_read c))).headD c.EXIT, 0⟩
    else ⟨n, 0, 0⟩
  | .fork => ⟨1000 + h.countP (fun e => decide (e.call = .fork)), 0, 0⟩
  | .pipe => ⟨0, 3, 4⟩
  | .waitpid p => ⟨p.natAbs, 0, 0⟩
  | _ => ⟨0, 0, 0⟩

/-! ## instrumentation.c: starting the fork server -/

/-- The static global `mem_limit` of instrumentation.c; it is never assigned. -/
def mem_limit : Int := 0

/-- The static global `uses_asan` of instrumentation.c; it is never assigned. -/
def uses_asan : Int := 0

/-- The signal number `SIGKILL` of `<signal.h>`. -/
def SIGKILL : Int := 9

/-- The macro `WTERMSIG` of `<sys/wait.h>`: the low seven bits of the status. -/
def WTERMSIG (status : Int) : Int := status % 128

/-- The macro `WIFSIGNALED` of `<sys/wait.h>`:
`((signed char) ((status & 0x7f) + 1) >> 1) > 0`. -/
def WIFSIGNALED (status : Int) : Bool :=
  decide (1 ≤ status % 128 ∧ status % 128 ≤ 126)

/-- Which of the three advice texts `ERROR_MSG` prints before a fatal handshake
error; the choice is the same in both places of `fork_server_init`. -/
inductive Advice where
  /-- Case `mem_limit && mem_limit < 500 && uses_asan`. -/
  | asan_and_memory_limit
  /-- Case `!mem_limit`. -/
  | no_memory_limit
  /-- The remaining case: the memory limit is too low. -/
  | memory_limit_too_low
  deriving DecidableEq, Repr

/-- The three-way choice of instrumentation.c lines 338-398 and 404-441. -/
def advice : Advice :=
  if mem_limit ≠ 0 ∧ mem_limit < 500 ∧ uses_asan ≠ 0 then .asan_and_memory_limit
  else if mem_limit = 0 then .no_memory_limit
  else .memory_limit_too_low

/-- Modelled from the spec: the macro `FATAL_MSG` of the missing `utils.h` reports
its message and ends the process (spawn and handshake errors are fatal at the
driver level).  How `fork_server_init` ends: it returns, or the process ends
in one of its `FATAL_MSG` calls, or this is the forked child that goes on to
`execv` the target. -/
inductive InitOutcome where
  /-- The function returned: the fork server is up. -/
  | up
  /-- Message "Unable to open /dev/null". -/
  | fatal_open_dev_null
  /-- Message "Couldn't make temp file". -/
  | fatal_mkstemp
  /-- Message "pipe() failed". -/
  | fatal_pipe
  /-- Message "fork() failed". -/
  | fatal_fork
  /-- Message "Timeout while initializing fork server". -/
  | fatal_timeout
  /-- Message "waitpid() failed". -/
  | fatal_waitpid
  /-- Message "Fork server crashed with signal %d", after the advice. -/
  | fatal_crashed (a : Advice) (sig : Int)
  /-- Message "Fork server handshake failed", after the advice. -/
  | fatal_handshake_failed (a : Advice)
  /-- The child side of the `fork()` in `run_target`. -/
  | target_child
  deriving DecidableEq, Repr

/-- What `fork_server_init` leaves behind. -/
structure InitResult where
  outcome : InitOutcome
  fs : forkserver_t
  dev_null_fd : Int
  world : World

/-- The polling loop of `fork_server_init` (instrumentation.c lines 312-320).  The
clock is abstracted: `window` is the number of times the loop condition
`time(NULL) - start_time < FORK_SERVER_STARTUP_TIME` holds before the window
has elapsed.  A FIONREAD that fails leaves `rlen` as it was.  The result is
the final `rlen`, the final `timed_out`, and the world. -/
def poll_hello (fd : Int) : Nat → Int → World → Int × Int × World
  | 0, rlen, w => (rlen, 1, w)
  | window + 1, rlen, w =>
    let io := sys w (.ioctl_FIONREAD fd)
    let err := io.1.ret
    let rlen := if err = 0 then io.1.val else rlen
    if err = 0 ∧ rlen = 4 then
      let rd := sys io.2 (.read fd 4)
      (rd.1.ret, 0, rd.2)
    else
      poll_hello fd window rlen (sys io.2 (.usleep 5)).2

/-- The part of `fork_server_init` after the spawn (instrumentation.c lines 311-443):
wait for the hello, and classify what went wrong when it does not come. -/
def handshake (fs : forkserver_t) (forksrv_pid : Int) (window : Nat) (w : World) :
    InitOutcome × World :=
  let p := poll_hello fs.forksrv_to_fuzzer window (-1) w
  let rlen := p.1
  let timed_out := p.2.1
  if rlen = 4 then
    (.up, p.2.2)
  else
    let k := sys p.2.2 (.kill forksrv_pid SIGKILL)
    if timed_out ≠ 0 then
      (.fatal_timeout, k.2)
    else
      let wt := sys k.2 (.waitpid forksrv_pid)
      if wt.1.ret ≤ 0 then
        (.fatal_waitpid, wt.2)
      else if WIFSIGNALED wt.1.val then
        (.fatal_crashed advice (WTERMSIG wt.1.val), wt.2)
      else
        (.fatal_handshake_failed advice, wt.2)

/-- The function `fork_server_init` (instrumentation.c lines 243-444), seen from the
fuzzer process.  `dev_null_fd` is the static global of that name.  The
arguments `target_path`, `argv`, `use_forkserver_library` and
`persistence_max_cnt` are used on the child side of `run_target` only. -/
def fork_server_init (fs : forkserver_t) (needs_stdin_fd : Int) (dev_null_fd : Int)
    (window : Nat) (w : World) : InitResult :=
  let o := if dev_null_fd < 0 then sys w .open_dev_null else (⟨dev_null_fd, 0, 0⟩, w)
  let dev_null_fd := if dev_null_fd < 0 then o.1.ret else dev_null_fd
  if dev_null_fd < 0 then
    ⟨.fatal_open_dev_null, fs, dev_null_fd, o.2⟩
  else
    let fs := { fs with sent_get_status := 0, last_status := -1 }
    let m := if needs_stdin_fd ≠ 0 then sys o.2 .mkstemp else (⟨-1, 0, 0⟩, o.2)
    let fs := { fs with target_stdin := m.1.ret }
    if needs_stdin_fd ≠ 0 ∧ fs.target_stdin < 0 then
      ⟨.fatal_mkstemp, fs, dev_null_fd, m.2⟩
    else
      let st_pipe := sys m.2 .pipe
      if st_pipe.1.ret ≠ 0 then
        ⟨.fatal_pipe, fs, dev_null_fd, st_pipe.2⟩
      else
        let ctl_pipe := sys st_pipe.2 .pipe
        if ctl_pipe.1.ret ≠ 0 then
          ⟨.fatal_pipe, fs, dev_null_fd, ctl_pipe.2⟩
        else
          let fk := sys ctl_pipe.2 .fork
          let forksrv_pid := fk.1.ret
          if forksrv_pid < 0 then
            ⟨.fatal_fork, fs, dev_null_fd, fk.2⟩
          else if forksrv_pid = 0 then
            ⟨.target_child, fs, dev_null_fd, fk.2⟩
          else
            let w1 := (sys fk.2 (.close ctl_pipe.1.val)).2
            let w2 := (sys w1 (.close st_pipe.1.val2)).2
            let fs := { fs with
              fuzzer_to_forksrv := ctl_pipe.1.val2
              forksrv_to_fuzzer := st_pipe.1.val
              pid := forksrv_pid }
            let h := handshake fs forksrv_pid window w2
            ⟨h.1, fs, dev_null_fd, h.2⟩

/-- The 4-byte messages the server has put into the status pipe, oldest first: the
values of its complete 4-byte writes to `FORKSRV_TO_FUZZER`. -/
def status_pipe (c : Consts) (trace : List Event) : List Int :=
  trace.filterMap (fun e =>
    match e.call with
    | .write fd v 4 => if fd = c.FORKSRV_TO_FUZZER ∧ e.reply.ret = 4 then some v else none
    | _ => none)

/-- The event is a complete 4-byte read. -/
def Event.is_full_read (e : Event) : Bool :=
  match e.call with
  | .read _ 4 => decide (e.reply.ret = 4)
  | _ => false

/-- The driver's kernel is fed by a pipe that carries exactly the messages `msgs`:
a 4-byte read that completes delivers the first message not yet read. -/
def Kernel.reads_from (k : Kernel) (msgs : List Int) : Prop :=
  ∀ (h : List Event) (fd : Int), (k h (.read fd 4)).ret = 4 →
    msgs[h.countP Event.is_full_read]? = some (k h (.read fd 4)).val

/-- A driver kernel fed by the pipe contents `msgs`: FIONREAD reports the number of
unread bytes, a read delivers the next message (or 0 bytes when there is
none), `pipe` returns fresh descriptors, `fork` returns the pid 500 and every
other call succeeds. -/
def pipe_fed_kernel (msgs : List Int) : Kernel := fun h call =>
  match call with
  | .write _ _ n => ⟨n, 0, 0⟩
  | .read _ n =>
    match msgs[h.countP Event.is_full_read]? with
    | some m => ⟨n, m, 0⟩
    | none => ⟨0, 0, 0⟩
  | .ioctl_FIONREAD _ => ⟨0, 4 * ((msgs.length : Int) - h.countP Event.is_full_read), 0⟩
  | .pipe => ⟨0, 3 + 2 * h.length, 4 + 2 * h.length⟩
  | .fork => ⟨500, 0, 0⟩
  | .waitpid p => ⟨p, 0, 0⟩
  | .open_dev_null => ⟨3 + 2 * h.length, 0, 0⟩
  | .mkstemp => ⟨3 + 2 * h.length, 0, 0⟩
  | _ => ⟨0, 0, 0⟩

/-- The world `w1` is a later state of the process whose world was `w`: the same
kernel, and the trace of `w` continued. -/
def World.evolves_to (w w1 : World) : Prop :=
  w1.kernel = w.kernel ∧ ∃ new, w1.trace = w.trace ++ new

/-- The event is a `read`. -/
def Event.is_read (e : Event) : Bool :=
  match e.call with
  | .read _ _ => true
  | _ => false

/-- The event is a `kill`. -/
def Event.is_kill (e : Event) : Bool :=
  match e.call with
  | .kill _ _ => true
  | _ => false

/-- The event is a FIONREAD poll. -/
def Event.is_poll (e : Event) : Bool :=
  match e.call with
  | .ioctl_FIONREAD _ => true
  | _ => false

/-- The event is a FIONREAD poll that succeeded and reported `n` bytes available. -/
def Event.polled (e : Event) (n : Int) : Bool :=
  e.is_poll && decide (e.reply.ret = 0) && decide (e.reply.val = n)

/-- The event is `close(fd)`. -/
def Event.closes (fd : Int) (e : Event) : Bool :=
  decide (e.call = .close fd)

/-- The events a call added to the trace: those of `after` beyond `before`. -/
def new_events (before after : World) : List Event :=
  after.trace.drop before.trace.length

/-- A run of `n` successive calls `fork_server_get_status(fs, 0)` on one handle,
with nothing in between; the result lists what the calls returned. -/
def get_status_polls (c : Consts) : Nat → forkserver_t → World → List Int × forkserver_t × World
  | 0, fs, w => ([], fs, w)
  | n + 1, fs, w =>
    let r := fork_server_get_status c fs 0 w
    let rest := get_status_polls c n r.2.1 r.2.2
    (r.1 :: rest.1, rest.2)

/-- An operation of the driver on a handle. -/
inductive Op where
  /-- Call `fork_server_fork(fs)`. -/
  | fork
  /-- Call `fork_server_fork_run(fs)`. -/
  | fork_run
  /-- Call `fork_server_run(fs)`. -/
  | run
  /-- Call `fork_server_get_pending_status(fs, wait)`. -/
  | get_pending_status (wait : Int)
  /-- Call `fork_server_get_status(fs, wait)`. -/
  | get_status (wait : Int)
  /-- Call `fork_server_exit(fs)`. -/
  | exit
  deriving DecidableEq, Repr

/-- One driver operation: the handle and the world after it. -/
def driver_step (c : Consts) (fs : forkserver_t) (w : World) : Op → forkserver_t × World
  | .fork => (fork_server_fork c fs w).2
  | .fork_run => (fork_server_fork_run c fs w).2
  | .run => (fs, (fork_server_run c fs w).2)
  | .get_pending_status wait => (fork_server_get_pending_status c fs wait w).2
  | .get_status wait => (fork_server_get_status c fs wait w).2
  | .exit => (fs, (fork_server_exit c fs w).2)

/-- A sequence of driver operations on one handle. -/
def driver_run (c : Consts) : List Op → forkserver_t → World → forkserver_t × World
  | [], fs, w => (fs, w)
  | op :: ops, fs, w => driver_run c ops (driver_step c fs w op).1 (driver_step c fs w op).2

/-- One step of the in-flight count: `s.1` is the number of `GET_STATUS` bytes
successfully written since the last successful `FORK` or `FORK_RUN` send,
`s.2` tells whether that number has always been at most one. -/
def in_flight_scan (c : Consts) (s : Nat × Bool) (e : Event) : Nat × Bool :=
  match e.call with
  | .write _ v 1 =>
    if e.reply.ret = 1 then
      if v = c.FORK ∨ v = c.FORK_RUN then (0, s.2)
      else if v = c.GET_STATUS then (s.1 + 1, s.2 && decide (s.1 + 1 ≤ 1))
      else s
    else s
  | _ => s

/-- Between two consecutive successful fork sends of the trace the `GET_STATUS`
byte is successfully written at most once. -/
def at_most_one_in_flight (c : Consts) (trace : List Event) : Bool :=
  (trace.foldl (in_flight_scan c) (0, true)).2

/-- A kernel in which every call fails with -1. -/
def failing_kernel : Kernel := fun _ _ => ⟨-1, 0, 0⟩

/-- A handle as `fork_server_init` leaves it: command pipe 10, status pipe 7, no
stdin file, server pid 500, nothing sent, nothing cached. -/
def sample_handle : forkserver_t where
  fuzzer_to_forksrv := 10
  forksrv_to_fuzzer := 7
  target_stdin := -1
  pid := 500
  sent_get_status := 0
  last_status := -1

/-- The event is one of the calls `fork_server_init` makes while it spawns the
server: `open`, `mkstemp`, `pipe`, `fork` or `close`. -/
def Event.is_setup (e : Event) : Bool :=
  match e.call with
  | .open_dev_null => true
  | .mkstemp => true
  | .pipe => true
  | .fork => true
  | .close _ => true
  | _ => false

/-- A driver kernel whose status pipe becomes readable late: the first `delay`
FIONREAD polls report 0 bytes, the later ones 4; a read delivers the 4-byte
value `v`; writes succeed. -/
def slow_pipe_kernel (delay : Nat) (v : Int) : Kernel := fun h call =>
  match call with
  | .ioctl_FIONREAD _ => ⟨0, if h.countP Event.is_poll < delay then 0 else 4, 0⟩
  | .read _ n => ⟨n, v, 0⟩
  | .write _ _ n => ⟨n, 0, 0⟩
  | _ => ⟨0, 0, 0⟩

/-- The invariant behind the in-flight count: the count has always been at most
one, it is at most one now, and it is zero whenever the handle says that no
`GET_STATUS` has been sent. -/
def in_flight_inv (c : Consts) (fs : forkserver_t) (trace : List Event) : Prop :=
  (trace.foldl (in_flight_scan c) (0, true)).2 = true ∧
  (trace.foldl (in_flight_scan c) (0, true)).1 ≤ 1 ∧
  (fs.sent_get_status = 0 → (trace.foldl (in_flight_scan c) (0, true)).1 = 0)

/-- The messages a live fork server has put into the status pipe once the driver
has made the calls of the history `h`: the hello, then one response for each
command byte written other than `EXIT` (pid 1000 for `FORK` and `FORK_RUN`,
0 for `RUN` and as wait status). -/
def live_server_messages (c : Consts) (h : List Event) : List Int :=
  0x41414141 :: h.filterMap (fun e =>
    match e.call with
    | .write _ v 1 =>
      if v = c.EXIT then none
      else if v = c.FORK ∨ v = c.FORK_RUN then some 1000
      else some 0
    | _ => none)

/-- A driver kernel connected to a live fork server: a read delivers the first
message of `live_server_messages` not yet read, FIONREAD reports the unread
bytes, and every other call succeeds as in `pipe_fed_kernel`. -/
def live_server_kernel (c : Consts) : Kernel := fun h call =>
  match call with
  | .read _ _ => pipe_fed_kernel (live_server_messages c h) h call
  | .ioctl_FIONREAD _ => pipe_fed_kernel (live_server_messages c h) h call
  | _ => pipe_fed_kernel [] h call

/-! ## The gate pipe shared by the server and its children -/

/-- A child the server has forked, as far as the gate is concerned.  The last two
fields are book-keeping of the model, not program state. -/
structure Child where
  /-- The pid `fork()` returned to the server. -/
  pid : Int
  /-- The command byte the server was handling when it forked: the value of
  `command` in the child. -/
  command : Int
  /-- The number of `RUN` commands the server had processed before this fork. -/
  forked_at : Nat
  /-- The number of messages that were in the gate pipe at this fork. -/
  gate_at_fork : Nat
  deriving DecidableEq, Repr

/-- The server and its children around the gate pipe `target_pipe`, modelled as one
FIFO buffer of 4-byte messages shared by all of them. -/
structure GateSystem where
  /-- The descriptor `target_pipe[0]`. -/
  t0 : Int
  /-- The descriptor `target_pipe[1]`. -/
  t1 : Int
  /-- Whether the server process is still in its loop. -/
  alive : Bool
  /-- The server's local `response`. -/
  response : Int
  /-- The server's local `child_pid`. -/
  child_pid : Int
  /-- The messages in the gate pipe, oldest first. -/
  gate : List Int
  /-- The number of `RUN` commands the server has processed. -/
  runs : Nat
  /-- The forked children that have not yet left `forkserver_init`. -/
  pending : List Child
  /-- The children that have returned from `forkserver_init` to user code, each
  with the number of `RUN` commands the server had processed by then. -/
  released : List (Child × Nat)
  deriving DecidableEq, Repr

/-- The system when the server enters its loop: the gate pipe is new and empty,
no child exists. -/
def gate_start (t0 t1 uninit : Int) : GateSystem where
  t0 := t0
  t1 := t1
  alive := true
  response := 0x41414141
  child_pid := uninit
  gate := []
  runs := 0
  pending := []
  released := []

/-- One step of the system, chosen by the scheduler. -/
inductive Action where
  /-- The server reads the command byte `command` and handles it; `fork()`, if
  called, returns `pid` to it. -/
  | server (command : Int) (pid : Int)
  /-- The `i`-th pending child runs from the return of `fork()` until it leaves
  `forkserver_init`. -/
  | child (i : Nat)
  deriving DecidableEq, Repr

/-- The kernel as the server sees it while it handles one command: every call
succeeds and `fork()` returns `pid`. -/
def server_side_kernel (pid : Int) : Kernel := fun _ call =>
  match call with
  | .write _ _ n => ⟨n, 0, 0⟩
  | .read _ n => ⟨n, 0, 0⟩
  | .fork => ⟨pid, 0, 0⟩
  | .waitpid p => ⟨p, 0, 0⟩
  | _ => ⟨0, 0, 0⟩

/-- The kernel as a child sees it: `fork()` has returned 0, and a read of the gate
delivers the oldest message of the gate pipe, or 0 bytes (end of file) when
the pipe is empty. -/
def child_side_kernel (t0 : Int) (gate : List Int) : Kernel := fun _ call =>
  match call with
  | .read fd n =>
    if fd = t0 ∧ n = 4 then
      match gate with
      | m :: _ => ⟨4, m, 0⟩
      | [] => ⟨0, 0, 0⟩
    else ⟨0, 0, 0⟩
  | _ => ⟨0, 0, 0⟩

/-- The messages a run of the server put into the gate pipe: the values of its
complete 4-byte writes to `target_pipe[1]`. -/
def gate_messages (t1 : Int) (trace : List Event) : List Int :=
  trace.filterMap (fun e =>
    match e.call with
    | .write fd v 4 => if fd = t1 ∧ e.reply.ret = 4 then some v else none
    | _ => none)

/-- The children a run of the server created: one for each `fork()` it made. -/
def forked_children (command : Int) (runs gate : Nat) (trace : List Event) : List Child :=
  trace.filterMap (fun e =>
    match e.call with
    | .fork => some ⟨e.reply.ret, command, runs, gate⟩
    | _ => none)

/-- One step of the system.  The server's step is its `switch` on the command
(with the kernel succeeding); a child's step is the same `switch` continued
on the child side of `fork()`.  A child created by `FORK` cannot take its
step while the gate pipe is empty and the server, which holds the write end,
is alive: its `read` blocks.  The result is `none` when the step is not
possible. -/
def gate_step (c : Consts) (s : GateSystem) : Action → Option GateSystem
  | .server command pid =>
    if s.alive = false ∨ pid ≤ 0 then none
    else
      match switch_command c s.t0 s.t1 command s.response s.child_pid
          ⟨server_side_kernel pid, []⟩ with
      | .leave _ _ => some { s with alive := false }
      | .fallout response child_pid w =>
        some { s with
          response := response
          child_pid := child_pid
          gate := s.gate ++ gate_messages s.t1 w.trace
          runs := s.runs + (gate_messages s.t1 w.trace).length
          pending := s.pending ++ forked_children command s.runs s.gate.length w.trace }
  | .child i =>
    match s.pending[i]? with
    | none => none
    | some ch =>
      if ch.command = c.FORK ∧ s.gate = [] ∧ s.alive = true then none
      else
        match switch_command c s.t0 s.t1 ch.command 0 0 ⟨child_side_kernel s.t0 s.gate, []⟩ with
        | .leave .returned w =>
          some { s with
            gate := s.gate.drop (w.trace.countP Event.is_full_read)
            pending := s.pending.eraseIdx i
            released := s.released ++ [(ch, s.runs)] }
        | .leave _ w =>
          some { s with
            gate := s.gate.drop (w.trace.countP Event.is_full_read)
            pending := s.pending.eraseIdx i }
        | .fallout _ _ _ => none

/-- A schedule of steps, from the first to the last. -/
def gate_run (c : Consts) : GateSystem → List Action → Option GateSystem
  | s, [] => some s
  | s, a :: rest =>
    match gate_step c s a with
    | none => none
    | some s1 => gate_run c s1 rest

/-- The number of released children that were created by `FORK`. -/
def released_by_gate (c : Consts) (s : GateSystem) : Nat :=
  (s.released.filter (fun r => decide (r.1.command = c.FORK))).length

/-- The invariant of the gate: every message a `RUN` wrote is either still in the
pipe or was consumed by exactly one released `FORK` child; a pending child
forked at an empty gate was forked after no more `RUN`s than children have
been released since; a released `FORK` child that was forked at an empty gate
was released after a later `RUN`. -/
def gate_inv (c : Consts) (s : GateSystem) : Prop :=
  s.gate.length + released_by_gate c s = s.runs ∧
  (∀ ch ∈ s.pending, ch.gate_at_fork = 0 → ch.forked_at ≤ released_by_gate c s) ∧
  (∀ r ∈ s.released, r.1.command = c.FORK → r.1.gate_at_fork = 0 → r.1.forked_at < r.2)

/-! ## Reading server traces: termination and unrecognised commands -/

/-- The event is a complete read of the command byte `EXIT` from
`FUZZER_TO_FORKSRV`. -/
def Event.is_exit_read (c : Consts) (e : Event) : Bool :=
  e.is_command_read c && decide (e.reply.ret = 1) && decide (e.reply.val = c.EXIT)

/-- The event is one of the failures after which the server exits with code 1:
`pipe` not returning 0, a read of the command byte not returning 1, `fork`
returning a negative value, a 4-byte write to the status pipe or of the value
0 to the gate `t1` not returning 4, `waitpid` returning a negative value. -/
def Event.is_server_failure (c : Consts) (t1 : Int) (e : Event) : Bool :=
  match e.call with
  | .pipe => decide (e.reply.ret ≠ 0)
  | .read fd n => decide (fd = c.FUZZER_TO_FORKSRV ∧ n = 1 ∧ e.reply.ret ≠ 1)
  | .fork => decide (e.reply.ret < 0)
  | .write fd v n =>
    decide (n = 4 ∧ e.reply.ret ≠ 4 ∧ (fd = c.FORKSRV_TO_FUZZER ∨ (fd = t1 ∧ v = 0)))
  | .waitpid _ => decide (e.reply.ret < 0)
  | _ => false

/-- The event neither ends the server with code 0 nor with code 1. -/
def Event.is_quiet (c : Consts) (t1 : Int) (e : Event) : Bool :=
  !e.is_exit_read c && !e.is_server_failure c t1

/-- How the outcome of the server relates to the events `new` of its run: while it
is running every event is quiet; it has exited with code 0 after quiet
events and a final `EXIT` read; it has exited with code 1 after quiet events
and a final failure; no other outcome occurs. -/
def ends_as (c : Consts) (t1 : Int) (o : Outcome) (new : List Event) : Prop :=
  (o = .running ∧ ∀ e ∈ new, e.is_quiet c t1 = true) ∨
  (o = .exited 0 ∧ ∃ pre e, new = pre ++ [e] ∧ (∀ x ∈ pre, x.is_quiet c t1 = true) ∧
    e.is_exit_read c = true ∧ e.is_server_failure c t1 = false) ∨
  (o = .exited 1 ∧ ∃ pre e, new = pre ++ [e] ∧ (∀ x ∈ pre, x.is_quiet c t1 = true) ∧
    e.is_server_failure c t1 = true ∧ e.is_exit_read c = false)

/-- The command byte is none of `EXIT`, `FORK`, `FORK_RUN`, `RUN`, `GET_STATUS`. -/
def unrecognised (c : Consts) (v : Int) : Bool :=
  decide (v ≠ c.EXIT ∧ v ≠ c.FORK ∧ v ≠ c.FORK_RUN ∧ v ≠ c.RUN ∧ v ≠ c.GET_STATUS)

/-- The treatment of unrecognised command bytes, read off a trace and the outcome
`o` of the run.  `last` is the value of the latest write to
`FORKSRV_TO_FUZZER`; `owed` tells that an unrecognised command byte has just
been read, and then the very next event must be a 4-byte write of `last` to
`FORKSRV_TO_FUZZER` (so no fork, gate write or waitpid comes in between);
`must_read` tells that such a write has just succeeded, and then the loop
must go on: the next event must be the read of the next command byte, and
if the trace ends there the outcome must be `running`, the loop cut short by
the fuel, and neither an exit nor a return. -/
def echoes (c : Consts) (o : Outcome) : Option Int → Bool → Bool → List Event → Bool
  | _, owed, must_read, [] => !owed && (!must_read || decide (o = .running))
  | last, true, _, e :: rest =>
    match e.call with
    | .write fd v 4 =>
      decide (fd = c.FORKSRV_TO_FUZZER) && decide (last = some v) &&
        echoes c o last false (decide (e.reply.ret = 4)) rest
    | _ => false
  | last, false, must_read, e :: rest =>
    match e.call with
    | .read fd n =>
      if fd = c.FUZZER_TO_FORKSRV ∧ n = 1 then
        if e.reply.ret = 1 ∧ unrecognised c e.reply.val = true then
          echoes c o last true false rest
        else echoes c o last false false rest
      else !must_read && echoes c o last false false rest
    | .write fd v _ =>
      !must_read &&
        echoes c o (if fd = c.FORKSRV_TO_FUZZER then some v else last) false false rest
    | _ => !must_read && echoes c o last false false rest

/-- The event is one of the calls a forked child makes before it leaves
`forkserver_init`: a `close`, or the 4-byte read of the gate. -/
def Event.is_child_call (e : Event) : Bool :=
  match e.call with
  | .close _ => true
  | .read _ n => decide (n = 4)
  | _ => false

/-! ## A fork server that terminates before its hello -/

/-- The event is a `waitpid`. -/
def Event.is_waitpid (e : Event) : Bool :=
  match e.call with
  | .waitpid _ => true
  | _ => false

/-- A driver kernel whose fork server has terminated with the wait status `status`
before writing anything: FIONREAD succeeds and reports 0 bytes, a read is at
end of file, `waitpid` delivers `status`, and every other call succeeds as
in `pipe_fed_kernel`. -/
def silent_death_kernel (status : Int) : Kernel := fun h call =>
  match call with
  | .ioctl_FIONREAD _ => ⟨0, 0, 0⟩
  | .read _ _ => ⟨0, 0, 0⟩
  | .waitpid p => ⟨p, status, 0⟩
  | _ => pipe_fed_kernel [] h call

/-! ## instrumentation.c: the environment of the target -/

/-- The environment of a process: what `getenv` returns for each name (`none` for
the null pointer). -/
abbrev Env := String → Option String

/-- The libc function `getenv`. -/
def getenv (env : Env) (name : String) : Option String := env name

/-- The libc function `setenv(name, value, overwrite)`, for a well-formed name: the
variable is set unless it already exists and `overwrite` is zero. -/
def setenv (env : Env) (name value : String) (overwrite : Int) : Env :=
  if overwrite ≠ 0 ∨ env name = none then
    fun n => if n = name then some value else env n
  else env

/-- The macro `MSAN_ERROR` of instrumentation.c. -/
def MSAN_ERROR : Nat := 86

/-- The environment part of the child side of `run_target` (instrumentation.c lines
180-222), from the environment the child inherits to the one `execv` gets.
`fs` tells whether the handle is non-NULL, `apple` whether `__APPLE__` is
defined, `PERSIST_MAX_VAR` is the macro of the missing header, and `library`
is the path `find_fork_server_library` puts into its buffer, `none` when it
ends the process in `FATAL_MSG`; the result is `none` in that case. -/
def run_target_setenv (PERSIST_MAX_VAR : String) (apple fs : Bool)
    (use_forkserver_library persistence_max_cnt : Int) (library : Option String)
    (env : Env) : Option Env :=
  let linked : Option Env :=
    if fs then
      let preloaded : Option Env :=
        if use_forkserver_library ≠ 0 then
          match library with
          | none => none
          | some fork_server_library_path =>
            if apple then some (setenv env "DYLD_INSERT_LIBRARIES" fork_server_library_path 1)
            else some (setenv env "LD_PRELOAD" fork_server_library_path 1)
        else some env
      preloaded.map (fun env1 =>
        let env2 :=
          if persistence_max_cnt ≠ 0 then
            setenv env1 PERSIST_MAX_VAR (toString persistence_max_cnt) 1
          else env1
        if getenv env2 "LD_BIND_LAZY" = none then setenv env2 "LD_BIND_NOW" "1" 0 else env2)
    else some env
  linked.map (fun env3 =>
    let env4 := setenv env3 "ASAN_OPTIONS"
      ("abort_on_error=1:" ++ "detect_leaks=0:" ++ "symbolize=0:" ++
        "allocator_may_return_null=1") 0
    if fs then
      setenv env4 "MSAN_OPTIONS"
        ("exit_code=" ++ toString MSAN_ERROR ++ ":" ++ "symbolize=0:" ++
          "abort_on_error=1:" ++ "allocator_may_return_null=1:" ++ "msan_track_origins=0") 0
    else
      setenv env4 "MSAN_OPTIONS"
        ("exit_code=" ++ toString MSAN_ERROR ++ ":" ++ "symbolize=0:" ++
          "msan_track_origins=0") 0)

/-- The colon-separated options of a sanitizer option string. -/
def split_options : List Char → List (List Char)
  | [] => [[]]
  | ch :: rest =>
    if ch = ':' then [] :: split_options rest
    else
      match split_options rest with
      | [] => [[ch]]
      | first :: others => (ch :: first) :: others

/-- The sanitizer option string `value` contains the option `opt`. -/
def has_option (value opt : String) : Bool :=
  (split_options value.toList).contains opt.toList

/-! ## Theorems -/

theorem sys_reply (w : World) (c : Call) : (sys w c).1 = w.kernel w.trace c := rfl

@[simp]
theorem sys_kernel (w : World) (c : Call) : (sys w c).2.kernel = w.kernel := rfl

@[simp]
theorem sys_trace (w : World) (c : Call) :
    (sys w c).2.trace = w.trace ++ [⟨c, (sys w c).1⟩] := rfl

theorem switch_command_parent (c : Consts) (t0 t1 cmd r p : Int) (w : World)
    (hk : Kernel.succeeds_in_server c w.kernel) :
    switch_command c t0 t1 cmd r p w =
      if cmd = c.EXIT then .leave (.exited 0) w
      else if cmd = c.FORK ∨ cmd = c.FORK_RUN then
        .fallout (sys w .fork).1.ret (sys w .fork).1.ret (sys w .fork).2
      else if cmd = c.RUN then .fallout 0 p (sys w (.write t1 0 4)).2
      else if cmd = c.GET_STATUS then
        .fallout (sys w (.waitpid p)).1.val p (sys w (.waitpid p)).2
      else .fallout r p w := by
  obtain ⟨hw, hr, hf, hp, hwt⟩ := hk
  have h1 : ¬ (sys w .fork).1.ret < 0 := not_lt.mpr (le_of_lt (hf _))
  have h2 : ¬ (sys w .fork).1.ret = 0 := ne_of_gt (hf _)
  have h3 : (sys w (.write t1 0 4)).1.ret = 4 := hw _ _ _ _
  have h4 : ¬ (sys w (.waitpid p)).1.ret < 0 := not_lt.mpr (hwt _ _)
  unfold switch_command
  simp only [h1, h2, h3, h4, if_false, ne_eq, not_true_eq_false, Nat.cast_ofNat]

theorem server_loop_parity (c : Consts) (t0 t1 : Int) (ht : t1 ≠ c.FORKSRV_TO_FUZZER) :
    ∀ (fuel : Nat) (response child_pid : Int) (w : World),
      Kernel.succeeds_in_server c w.kernel →
      ∃ new, (server_loop c t0 t1 fuel response child_pid w).2.trace = w.trace ++ new ∧
        parity c false new = true := by
  intro fuel
  induction fuel with
  | zero => intro r p w _; exact ⟨[], by simp [server_loop], by simp [parity]⟩
  | succ n ih =>
    intro r p w hk
    have hrd : (sys w (.read c.FUZZER_TO_FORKSRV 1)).1.ret = 1 := hk.2.1 _ _ _
    have hk1 : Kernel.succeeds_in_server c (sys w (.read c.FUZZER_TO_FORKSRV 1)).2.kernel := hk
    have hwr : ∀ (w1 : World) (v : Int), Kernel.succeeds_in_server c w1.kernel →
        (sys w1 (.write c.FORKSRV_TO_FUZZER v 4)).1.ret = 4 := fun w1 v h => h.1 _ _ _ _
    rw [server_loop]
    simp only [hrd, ne_eq, not_true_eq_false, if_false]
    rw [switch_command_parent c t0 t1 _ r p _ hk1]
    generalize hrdw : sys w (.read c.FUZZER_TO_FORKSRV 1) = rd at *
    have hrt : rd.2.trace = w.trace ++ [⟨.read c.FUZZER_TO_FORKSRV 1, rd.1⟩] := by
      rw [← hrdw]; rfl
    by_cases hE : rd.1.val = c.EXIT
    · rw [if_pos hE]
      dsimp only
      exact ⟨[⟨.read c.FUZZER_TO_FORKSRV 1, rd.1⟩], hrt, by
        simp [parity, Event.is_command_read, hE]⟩
    · by_cases hF : rd.1.val = c.FORK ∨ rd.1.val = c.FORK_RUN
      · rw [if_neg hE, if_pos hF]
        dsimp only
        generalize hfk : sys rd.2 .fork = fk at *
        have hft : fk.2.trace = rd.2.trace ++ [⟨.fork, fk.1⟩] := by rw [← hfk]; rfl
        have hfk2 : fk.2.kernel = rd.2.kernel := by rw [← hfk]; rfl
        have hk2 : Kernel.succeeds_in_server c fk.2.kernel := hfk2 ▸ hk1
        simp only [hwr fk.2 fk.1.ret hk2, ne_eq, not_true_eq_false, if_false]
        generalize hwv : sys fk.2 (.write c.FORKSRV_TO_FUZZER fk.1.ret 4) = wr at *
        have hwt : wr.2.trace = fk.2.trace ++ [⟨.write c.FORKSRV_TO_FUZZER fk.1.ret 4, wr.1⟩] := by
          rw [← hwv]; rfl
        have hwk : wr.2.kernel = fk.2.kernel := by rw [← hwv]; rfl
        obtain ⟨new, h1, h2⟩ := ih fk.1.ret fk.1.ret wr.2 (hwk ▸ hk2)
        refine ⟨[⟨.read c.FUZZER_TO_FORKSRV 1, rd.1⟩, ⟨.fork, fk.1⟩,
          ⟨.write c.FORKSRV_TO_FUZZER fk.1.ret 4, wr.1⟩] ++ new, ?_, ?_⟩
        · rw [h1, hwt, hft, hrt]; simp
        · simp [parity, Event.is_command_read, Event.writes_to, Event.write_count, hE, h2]
      · by_cases hR : rd.1.val = c.RUN
        · rw [if_neg hE, if_neg hF, if_pos hR]
          dsimp only
          generalize hgv : sys rd.2 (.write t1 0 4) = gw at *
          have hgt : gw.2.trace = rd.2.trace ++ [⟨.write t1 0 4, gw.1⟩] := by rw [← hgv]; rfl
          have hgk : gw.2.kernel = rd.2.kernel := by rw [← hgv]; rfl
          have hk2 : Kernel.succeeds_in_server c gw.2.kernel := hgk ▸ hk1
          simp only [hwr gw.2 0 hk2, ne_eq, not_true_eq_false, if_false]
          generalize hwv : sys gw.2 (.write c.FORKSRV_TO_FUZZER 0 4) = wr at *
          have hwt : wr.2.trace = gw.2.trace ++ [⟨.write c.FORKSRV_TO_FUZZER 0 4, wr.1⟩] := by
            rw [← hwv]; rfl
          have hwk : wr.2.kernel = gw.2.kernel := by rw [← hwv]; rfl
          obtain ⟨new, h1, h2⟩ := ih 0 p wr.2 (hwk ▸ hk2)
          refine ⟨[⟨.read c.FUZZER_TO_FORKSRV 1, rd.1⟩, ⟨.write t1 0 4, gw.1⟩,
            ⟨.write c.FORKSRV_TO_FUZZER 0 4, wr.1⟩] ++ new, ?_, ?_⟩
          · rw [h1, hwt, hgt, hrt]; simp
          · simp [parity, Event.is_command_read, Event.writes_to, Event.write_count, hE, h2, ht]
        · by_cases hG : rd.1.val = c.GET_STATUS
          · rw [if_neg hE, if_neg hF, if_neg hR, if_pos hG]
            dsimp only
            generalize hgv : sys rd.2 (.waitpid p) = wp at *
            have hgt : wp.2.trace = rd.2.trace ++ [⟨.waitpid p, wp.1⟩] := by rw [← hgv]; rfl
            have hgk : wp.2.kernel = rd.2.kernel := by rw [← hgv]; rfl
            have hk2 : Kernel.succeeds_in_server c wp.2.kernel := hgk ▸ hk1
            simp only [hwr wp.2 wp.1.val hk2, ne_eq, not_true_eq_false, if_false]
            generalize hwv : sys wp.2 (.write c.FORKSRV_TO_FUZZER wp.1.val 4) = wr at *
            have hwt : wr.2.trace =
                wp.2.trace ++ [⟨.write c.FORKSRV_TO_FUZZER wp.1.val 4, wr.1⟩] := by
              rw [← hwv]; rfl
            have hwk : wr.2.kernel = wp.2.kernel := by rw [← hwv]; rfl
            obtain ⟨new, h1, h2⟩ := ih wp.1.val p wr.2 (hwk ▸ hk2)
            refine ⟨[⟨.read c.FUZZER_TO_FORKSRV 1, rd.1⟩, ⟨.waitpid p, wp.1⟩,
              ⟨.write c.FORKSRV_TO_FUZZER wp.1.val 4, wr.1⟩] ++ new, ?_, ?_⟩
            · rw [h1, hwt, hgt, hrt]; simp
            · simp [parity, Event.is_command_read, Event.writes_to, Event.write_count, hE, h2]
          · rw [if_neg hE, if_neg hF, if_neg hR, if_neg hG]
            dsimp only
            simp only [hwr rd.2 r hk1, ne_eq, not_true_eq_false, if_false]
            generalize hwv : sys rd.2 (.write c.FORKSRV_TO_FUZZER r 4) = wr at *
            have hwt : wr.2.trace = rd.2.trace ++ [⟨.write c.FORKSRV_TO_FUZZER r 4, wr.1⟩] := by
              rw [← hwv]; rfl
            have hwk : wr.2.kernel = rd.2.kernel := by rw [← hwv]; rfl
            obtain ⟨new, h1, h2⟩ := ih r p wr.2 (hwk ▸ hk1)
            refine ⟨[⟨.read c.FUZZER_TO_FORKSRV 1, rd.1⟩,
              ⟨.write c.FORKSRV_TO_FUZZER r 4, wr.1⟩] ++ new, ?_, ?_⟩
            · rw [h1, hwt, hrt]; simp
            · simp [parity, Event.is_command_read, Event.writes_to, Event.write_count, hE, h2]

theorem scripted_kernel_succeeds (cmds : List Int) :
    Kernel.succeeds_in_server sample_consts (scripted_kernel sample_consts cmds) := by
  refine ⟨fun _ _ _ _ => rfl, ?_, ?_, ?_, ?_⟩
  · intro h fd n
    simp only [scripted_kernel]
    split <;> rfl
  · intro h
    simp only [scripted_kernel]
    positivity
  · intro h
    exact ⟨rfl, by simp [scripted_kernel, sample_consts]⟩
  · intro h p
    simp [scripted_kernel]
/-- Claim C1: with every system call succeeding, the trace of `forkserver_init` in
the server process starts with the hello, and after it each read of a command
byte other than `EXIT` is followed by exactly one 4-byte write to
`FORKSRV_TO_FUZZER` before the next command read, with no such write
otherwise, and an `EXIT` read is followed by no write at all. -/
theorem server_command_response_parity (c : Consts) (k : Kernel) (uninit : Int) (fuel : Nat)
    (hk : Kernel.succeeds_in_server c k) :
    ∃ hello rest,
      (forkserver_init c uninit fuel ⟨k, []⟩).world.trace = hello :: rest ∧
      hello.call = .write c.FORKSRV_TO_FUZZER 0x41414141 4 ∧
      parity c false rest = true := by
  have h1 : (sys ⟨k, []⟩ (.write c.FORKSRV_TO_FUZZER 0x41414141 4)).1.ret = 4 := hk.1 _ _ _ _
  have h2 : (sys (sys ⟨k, []⟩ (.write c.FORKSRV_TO_FUZZER 0x41414141 4)).2 .pipe).1.ret = 0 :=
    (hk.2.2.2.1 _).1
  have h3 : (sys (sys ⟨k, []⟩ (.write c.FORKSRV_TO_FUZZER 0x41414141 4)).2 .pipe).1.val2
      ≠ c.FORKSRV_TO_FUZZER := (hk.2.2.2.1 _).2
  unfold forkserver_init
  simp only [h1, h2, ne_eq, not_true_eq_false, if_false]
  obtain ⟨new, e1, e2⟩ := server_loop_parity c
    (sys (sys ⟨k, []⟩ (.write c.FORKSRV_TO_FUZZER 0x41414141 4)).2 .pipe).1.val _ h3 fuel
    0x41414141 uninit (sys (sys ⟨k, []⟩ (.write c.FORKSRV_TO_FUZZER 0x41414141 4)).2 .pipe).2 hk
  refine ⟨⟨.write c.FORKSRV_TO_FUZZER 0x41414141 4,
      (sys ⟨k, []⟩ (.write c.FORKSRV_TO_FUZZER 0x41414141 4)).1⟩,
    ⟨.pipe, (sys (sys ⟨k, []⟩ (.write c.FORKSRV_TO_FUZZER 0x41414141 4)).2 .pipe).1⟩ :: new,
    ?_, ?_, ?_⟩
  · rw [e1]; simp
  · rfl
  · simpa [parity, Event.is_command_read, Event.writes_to] using e2

theorem response_ok_fork (c : Consts) (hd : c.distinct_commands) (cmd v : Int)
    (wt : Option (Int × Int)) (lc : Option Int) (h : cmd = c.FORK ∨ cmd = c.FORK_RUN) :
    response_ok c ⟨some cmd, some v, wt, lc⟩ v = true := by
  obtain ⟨h1, h2, h3, h4, h5, h6, h7, h8, h9, h10⟩ := hd
  rcases h with h | h <;> subst h <;> simp [response_ok, h6, h7, h8, h9]

theorem response_ok_run (c : Consts) (hd : c.distinct_commands)
    (f : Option Int) (wt : Option (Int × Int)) (lc : Option Int) :
    response_ok c ⟨some c.RUN, f, wt, lc⟩ 0 = true := by
  obtain ⟨h1, h2, h3, h4, h5, h6, h7, h8, h9, h10⟩ := hd
  simp [response_ok, h6.symm, h8.symm, h10]

theorem response_ok_get_status (c : Consts) (hd : c.distinct_commands)
    (f : Option Int) (p v : Int) (lc : Option Int) (hl : lc = none ∨ lc = some p) :
    response_ok c ⟨some c.GET_STATUS, f, some (p, v), lc⟩ v = true := by
  obtain ⟨h1, h2, h3, h4, h5, h6, h7, h8, h9, h10⟩ := hd
  rcases hl with hl | hl <;> subst hl <;>
    simp [response_ok, waited_ok, h7.symm, h9.symm, h10.symm]

theorem response_ok_other (c : Consts) (cmd v : Int)
    (f : Option Int) (wt : Option (Int × Int)) (lc : Option Int)
    (hF : ¬ (cmd = c.FORK ∨ cmd = c.FORK_RUN)) (hR : cmd ≠ c.RUN) (hG : cmd ≠ c.GET_STATUS) :
    response_ok c ⟨some cmd, f, wt, lc⟩ v = true := by
  simp only [not_or] at hF
  simp [response_ok, hF.1, hF.2, hR, hG]

theorem server_loop_responses (c : Consts) (hd : c.distinct_commands) (t0 t1 : Int) :
    ∀ (fuel : Nat) (response child_pid : Int) (w : World) (s : Scan),
      Kernel.succeeds_in_server c w.kernel →
      (s.last_child = none ∨ s.last_child = some child_pid) →
      ∃ new, (server_loop c t0 t1 fuel response child_pid w).2.trace = w.trace ++ new ∧
        responses c s new = true := by
  intro fuel
  induction fuel with
  | zero => intro r p w s _ _; exact ⟨[], by simp [server_loop], by simp [responses]⟩
  | succ n ih =>
    intro r p w s hk hs
    have hrd : (sys w (.read c.FUZZER_TO_FORKSRV 1)).1.ret = 1 := hk.2.1 _ _ _
    have hk1 : Kernel.succeeds_in_server c (sys w (.read c.FUZZER_TO_FORKSRV 1)).2.kernel := hk
    have hwr : ∀ (w1 : World) (v : Int), Kernel.succeeds_in_server c w1.kernel →
        (sys w1 (.write c.FORKSRV_TO_FUZZER v 4)).1.ret = 4 := fun w1 v h => h.1 _ _ _ _
    rw [server_loop]
    simp only [hrd, ne_eq, not_true_eq_false, if_false]
    rw [switch_command_parent c t0 t1 _ r p _ hk1]
    generalize hrdw : sys w (.read c.FUZZER_TO_FORKSRV 1) = rd at *
    have hrt : rd.2.trace = w.trace ++ [⟨.read c.FUZZER_TO_FORKSRV 1, rd.1⟩] := by
      rw [← hrdw]; rfl
    by_cases hE : rd.1.val = c.EXIT
    · rw [if_pos hE]
      dsimp only
      exact ⟨[⟨.read c.FUZZER_TO_FORKSRV 1, rd.1⟩], hrt, by simp [responses]⟩
    · by_cases hF : rd.1.val = c.FORK ∨ rd.1.val = c.FORK_RUN
      · rw [if_neg hE, if_pos hF]
        dsimp only
        generalize hfk : sys rd.2 .fork = fk at *
        have hft : fk.2.trace = rd.2.trace ++ [⟨.fork, fk.1⟩] := by rw [← hfk]; rfl
        have hfk2 : fk.2.kernel = rd.2.kernel := by rw [← hfk]; rfl
        have hk2 : Kernel.succeeds_in_server c fk.2.kernel := hfk2 ▸ hk1
        simp only [hwr fk.2 fk.1.ret hk2, ne_eq, not_true_eq_false, if_false]
        generalize hwv : sys fk.2 (.write c.FORKSRV_TO_FUZZER fk.1.ret 4) = wr at *
        have hwt : wr.2.trace = fk.2.trace ++ [⟨.write c.FORKSRV_TO_FUZZER fk.1.ret 4, wr.1⟩] := by
          rw [← hwv]; rfl
        have hwk : wr.2.kernel = fk.2.kernel := by rw [← hwv]; rfl
        obtain ⟨new, h1, h2⟩ := ih fk.1.ret fk.1.ret wr.2
          ⟨some rd.1.val, some fk.1.ret, none, some fk.1.ret⟩ (hwk ▸ hk2) (Or.inr rfl)
        refine ⟨[⟨.read c.FUZZER_TO_FORKSRV 1, rd.1⟩, ⟨.fork, fk.1⟩,
          ⟨.write c.FORKSRV_TO_FUZZER fk.1.ret 4, wr.1⟩] ++ new, ?_, ?_⟩
        · rw [h1, hwt, hft, hrt]; simp
        · simp [responses, h2, response_ok_fork c hd _ _ _ _ hF]
      · by_cases hR : rd.1.val = c.RUN
        · rw [if_neg hE, if_neg hF, if_pos hR]
          dsimp only
          generalize hgv : sys rd.2 (.write t1 0 4) = gw at *
          have hgt : gw.2.trace = rd.2.trace ++ [⟨.write t1 0 4, gw.1⟩] := by rw [← hgv]; rfl
          have hgk : gw.2.kernel = rd.2.kernel := by rw [← hgv]; rfl
          have hk2 : Kernel.succeeds_in_server c gw.2.kernel := hgk ▸ hk1
          simp only [hwr gw.2 0 hk2, ne_eq, not_true_eq_false, if_false]
          generalize hwv : sys gw.2 (.write c.FORKSRV_TO_FUZZER 0 4) = wr at *
          have hwt : wr.2.trace = gw.2.trace ++ [⟨.write c.FORKSRV_TO_FUZZER 0 4, wr.1⟩] := by
            rw [← hwv]; rfl
          have hwk : wr.2.kernel = gw.2.kernel := by rw [← hwv]; rfl
          obtain ⟨new, h1, h2⟩ := ih 0 p wr.2 ⟨some rd.1.val, none, none, s.last_child⟩
            (hwk ▸ hk2) hs
          refine ⟨[⟨.read c.FUZZER_TO_FORKSRV 1, rd.1⟩, ⟨.write t1 0 4, gw.1⟩,
            ⟨.write c.FORKSRV_TO_FUZZER 0 4, wr.1⟩] ++ new, ?_, ?_⟩
          · rw [h1, hwt, hgt, hrt]; simp
          · have hok := response_ok_run c hd none none s.last_child
            rw [← hR] at hok
            by_cases ht : t1 = c.FORKSRV_TO_FUZZER <;> simp [responses, h2, hok, ht]
        · by_cases hG : rd.1.val = c.GET_STATUS
          · rw [if_neg hE, if_neg hF, if_neg hR, if_pos hG]
            dsimp only
            generalize hgv : sys rd.2 (.waitpid p) = wp at *
            have hgt : wp.2.trace = rd.2.trace ++ [⟨.waitpid p, wp.1⟩] := by rw [← hgv]; rfl
            have hgk : wp.2.kernel = rd.2.kernel := by rw [← hgv]; rfl
            have hk2 : Kernel.succeeds_in_server c wp.2.kernel := hgk ▸ hk1
            simp only [hwr wp.2 wp.1.val hk2, ne_eq, not_true_eq_false, if_false]
            generalize hwv : sys wp.2 (.write c.FORKSRV_TO_FUZZER wp.1.val 4) = wr at *
            have hwt : wr.2.trace =
                wp.2.trace ++ [⟨.write c.FORKSRV_TO_FUZZER wp.1.val 4, wr.1⟩] := by
              rw [← hwv]; rfl
            have hwk : wr.2.kernel = wp.2.kernel := by rw [← hwv]; rfl
            obtain ⟨new, h1, h2⟩ := ih wp.1.val p wr.2
              ⟨some rd.1.val, none, some (p, wp.1.val), s.last_child⟩ (hwk ▸ hk2) hs
            refine ⟨[⟨.read c.FUZZER_TO_FORKSRV 1, rd.1⟩, ⟨.waitpid p, wp.1⟩,
              ⟨.write c.FORKSRV_TO_FUZZER wp.1.val 4, wr.1⟩] ++ new, ?_, ?_⟩
            · rw [h1, hwt, hgt, hrt]; simp
            · have hok := response_ok_get_status c hd none p wp.1.val s.last_child hs
              rw [← hG] at hok
              simp [responses, h2, hok]
          · rw [if_neg hE, if_neg hF, if_neg hR, if_neg hG]
            dsimp only
            simp only [hwr rd.2 r hk1, ne_eq, not_true_eq_false, if_false]
            generalize hwv : sys rd.2 (.write c.FORKSRV_TO_FUZZER r 4) = wr at *
            have hwt : wr.2.trace = rd.2.trace ++ [⟨.write c.FORKSRV_TO_FUZZER r 4, wr.1⟩] := by
              rw [← hwv]; rfl
            have hwk : wr.2.kernel = rd.2.kernel := by rw [← hwv]; rfl
            obtain ⟨new, h1, h2⟩ := ih r p wr.2 ⟨some rd.1.val, none, none, s.last_child⟩
              (hwk ▸ hk1) hs
            refine ⟨[⟨.read c.FUZZER_TO_FORKSRV 1, rd.1⟩,
              ⟨.write c.FORKSRV_TO_FUZZER r 4, wr.1⟩] ++ new, ?_, ?_⟩
            · rw [h1, hwt, hrt]; simp
            · simp [responses, h2, response_ok_other c _ r none none s.last_child hF hR hG]

/-- A run of the server on the commands FORK, RUN, GET_STATUS, FORK_RUN, an
unrecognised byte and EXIT, with every call succeeding. -/
theorem server_command_response_parity_witness :
    Kernel.succeeds_in_server sample_consts (scripted_kernel sample_consts [1, 3, 4, 2, 9]) ∧
    (forkserver_init sample_consts 0 6
      ⟨scripted_kernel sample_consts [1, 3, 4, 2, 9], []⟩).outcome = .exited 0 ∧
    ∃ hello rest,
      (forkserver_init sample_consts 0 6
        ⟨scripted_kernel sample_consts [1, 3, 4, 2, 9], []⟩).world.trace = hello :: rest ∧
      hello.call = .write sample_consts.FORKSRV_TO_FUZZER 0x41414141 4 ∧
      parity sample_consts false rest = true :=
  ⟨scripted_kernel_succeeds _, by decide,
    server_command_response_parity sample_consts _ 0 6 (scripted_kernel_succeeds _)⟩

/-- Claim C2: with every system call succeeding, every 4-byte response the server
writes to `FORKSRV_TO_FUZZER` after the hello is the pid just returned by
`fork()` when the command is `FORK` or `FORK_RUN`, 0 when it is `RUN`, and
when it is `GET_STATUS` the status stored by a `waitpid` that was called on
the pid of the most recently forked child. -/
theorem server_response_values (c : Consts) (k : Kernel) (uninit : Int) (fuel : Nat)
    (hd : c.distinct_commands) (hk : Kernel.succeeds_in_server c k) :
    ∃ hello rest,
      (forkserver_init c uninit fuel ⟨k, []⟩).world.trace = hello :: rest ∧
      hello.call = .write c.FORKSRV_TO_FUZZER 0x41414141 4 ∧
      responses c ⟨none, none, none, none⟩ rest = true := by
  have h1 : (sys ⟨k, []⟩ (.write c.FORKSRV_TO_FUZZER 0x41414141 4)).1.ret = 4 := hk.1 _ _ _ _
  have h2 : (sys (sys ⟨k, []⟩ (.write c.FORKSRV_TO_FUZZER 0x41414141 4)).2 .pipe).1.ret = 0 :=
    (hk.2.2.2.1 _).1
  unfold forkserver_init
  simp only [h1, h2, ne_eq, not_true_eq_false, if_false]
  obtain ⟨new, e1, e2⟩ := server_loop_responses c hd
    (sys (sys ⟨k, []⟩ (.write c.FORKSRV_TO_FUZZER 0x41414141 4)).2 .pipe).1.val
    (sys (sys ⟨k, []⟩ (.write c.FORKSRV_TO_FUZZER 0x41414141 4)).2 .pipe).1.val2 fuel
    0x41414141 uninit (sys (sys ⟨k, []⟩ (.write c.FORKSRV_TO_FUZZER 0x41414141 4)).2 .pipe).2
    ⟨none, none, none, none⟩ hk (Or.inl rfl)
  refine ⟨⟨.write c.FORKSRV_TO_FUZZER 0x41414141 4,
      (sys ⟨k, []⟩ (.write c.FORKSRV_TO_FUZZER 0x41414141 4)).1⟩,
    ⟨.pipe, (sys (sys ⟨k, []⟩ (.write c.FORKSRV_TO_FUZZER 0x41414141 4)).2 .pipe).1⟩ :: new,
    ?_, ?_, ?_⟩
  · rw [e1]; simp
  · rfl
  · simpa [responses] using e2

/-- A run of the server on the commands FORK_RUN, GET_STATUS, FORK, RUN,
GET_STATUS and EXIT, with every call succeeding. -/
theorem server_response_values_witness :
    sample_consts.distinct_commands ∧
    Kernel.succeeds_in_server sample_consts (scripted_kernel sample_consts [2, 4, 1, 3, 4]) ∧
    (forkserver_init sample_consts 0 6
      ⟨scripted_kernel sample_consts [2, 4, 1, 3, 4], []⟩).outcome = .exited 0 ∧
    ∃ hello rest,
      (forkserver_init sample_consts 0 6
        ⟨scripted_kernel sample_consts [2, 4, 1, 3, 4], []⟩).world.trace = hello :: rest ∧
      hello.call = .write sample_consts.FORKSRV_TO_FUZZER 0x41414141 4 ∧
      responses sample_consts ⟨none, none, none, none⟩ rest = true :=
  ⟨by decide, scripted_kernel_succeeds _, by decide,
    server_response_values sample_consts _ 0 6 (by decide) (scripted_kernel_succeeds _)⟩

theorem evolves_refl (w : World) : w.evolves_to w := ⟨rfl, [], by simp⟩

theorem evolves_sys {w w1 : World} (h : w.evolves_to w1) (c : Call) :
    w.evolves_to (sys w1 c).2 := by
  obtain ⟨hk, new, hn⟩ := h
  exact ⟨hk, new ++ [⟨c, (sys w1 c).1⟩], by simp [hn]⟩

theorem evolves_trans {w w1 w2 : World} (h1 : w.evolves_to w1) (h2 : w1.evolves_to w2) :
    w.evolves_to w2 := by
  obtain ⟨hk1, n1, hn1⟩ := h1
  obtain ⟨hk2, n2, hn2⟩ := h2
  exact ⟨hk2.trans hk1, n1 ++ n2, by simp [hn2, hn1]⟩

theorem switch_command_evolves (c : Consts) (t0 t1 cmd r p : Int) (w : World) :
    (∀ o w1, switch_command c t0 t1 cmd r p w = .leave o w1 → w.evolves_to w1) ∧
    (∀ r1 p1 w1, switch_command c t0 t1 cmd r p w = .fallout r1 p1 w1 → w.evolves_to w1) := by
  refine ⟨?_, ?_⟩
  · intro o w1 h
    simp only [switch_command] at h
    split_ifs at h <;> cases h <;>
      repeat (first | exact evolves_refl _ | apply evolves_sys)
  · intro r1 p1 w1 h
    simp only [switch_command] at h
    split_ifs at h <;> cases h <;>
      repeat (first | exact evolves_refl _ | apply evolves_sys)

theorem server_loop_evolves (c : Consts) (t0 t1 : Int) :
    ∀ (fuel : Nat) (r p : Int) (w : World),
      w.evolves_to (server_loop c t0 t1 fuel r p w).2 := by
  intro fuel
  induction fuel with
  | zero => intro r p w; exact evolves_refl _
  | succ n ih =>
    intro r p w
    rw [server_loop]
    dsimp only
    split
    · exact evolves_sys (evolves_refl _) _
    · split
      · rename_i o w1 heq
        exact evolves_trans (evolves_sys (evolves_refl _) _)
          ((switch_command_evolves c t0 t1 _ r p _).1 o w1 heq)
      · rename_i r1 p1 w1 heq
        have h1 := evolves_trans (evolves_sys (evolves_refl w) _)
          ((switch_command_evolves c t0 t1 _ r p _).2 r1 p1 w1 heq)
        split
        · exact evolves_sys h1 _
        · exact evolves_trans (evolves_sys h1 _) (ih _ _ _)

theorem forkserver_init_hello (c : Consts) (uninit : Int) (fuel : Nat) (w : World) :
    ∃ rest, (forkserver_init c uninit fuel w).world.trace =
      w.trace ++ ⟨.write c.FORKSRV_TO_FUZZER 0x41414141 4,
        w.kernel w.trace (.write c.FORKSRV_TO_FUZZER 0x41414141 4)⟩ :: rest ∧
      ((w.kernel w.trace (.write c.FORKSRV_TO_FUZZER 0x41414141 4)).ret ≠ 4 → rest = []) := by
  unfold forkserver_init
  dsimp only
  split
  · rename_i h
    exact ⟨[], rfl, fun _ => rfl⟩
  · rename_i h
    split
    · exact ⟨[_], by simp; exact ⟨rfl, rfl⟩, fun h' => absurd h' h⟩
    · obtain ⟨_, new, hn⟩ := server_loop_evolves c
        (sys (sys w (.write c.FORKSRV_TO_FUZZER 0x41414141 4)).2 .pipe).1.val
        (sys (sys w (.write c.FORKSRV_TO_FUZZER 0x41414141 4)).2 .pipe).1.val2 fuel
        0x41414141 uninit (sys (sys w (.write c.FORKSRV_TO_FUZZER 0x41414141 4)).2 .pipe).2
      exact ⟨_ :: new, by rw [hn]; simp; exact ⟨rfl, rfl⟩, fun h' => absurd h' h⟩
/-- Claim C4: when the hello write does not return 4, `forkserver_init` returns to
its caller with `init_done = 1` after that single system call (no pipe, no
read, no fork, no exit), and `fake_main` returns what the saved original main
returns on the unchanged eight arguments. -/
theorem not_under_fuzzer_fallthrough (c : Consts) (orig_main : orig_function_type)
    (uninit : Int) (fuel : Nat) (a0 a1 a2 a3 a4 a5 a6 a7 : Int) (w : World)
    (h : (w.kernel w.trace (.write c.FORKSRV_TO_FUZZER 0x41414141 4)).ret ≠ 4) :
    (forkserver_init c uninit fuel w).outcome = .returned ∧
    (forkserver_init c uninit fuel w).init_done = 1 ∧
    (forkserver_init c uninit fuel w).world.trace =
      w.trace ++ [⟨.write c.FORKSRV_TO_FUZZER 0x41414141 4,
        w.kernel w.trace (.write c.FORKSRV_TO_FUZZER 0x41414141 4)⟩] ∧
    fake_main c orig_main uninit fuel a0 a1 a2 a3 a4 a5 a6 a7 w =
      .returned
        (orig_main a0 a1 a2 a3 a4 a5 a6 a7 (forkserver_init c uninit fuel w).world).1 1
        (orig_main a0 a1 a2 a3 a4 a5 a6 a7 (forkserver_init c uninit fuel w).world).2 := by
  have h1 : (sys w (.write c.FORKSRV_TO_FUZZER 0x41414141 4)).1.ret ≠ 4 := h
  have e : forkserver_init c uninit fuel w =
      ⟨.returned, 1, (sys w (.write c.FORKSRV_TO_FUZZER 0x41414141 4)).2⟩ := by
    unfold forkserver_init
    simp only [h1, ne_eq, not_false_eq_true, if_true]
  refine ⟨by rw [e], by rw [e], by rw [e]; rfl, ?_⟩
  unfold fake_main
  rw [e]

/-- A run of `fake_main` in a process whose status descriptor is closed: the hello
write fails, and the original main, here one that returns its first
argument, runs on the eight arguments. -/
theorem not_under_fuzzer_fallthrough_witness :
    (failing_kernel [] (.write sample_consts.FORKSRV_TO_FUZZER 0x41414141 4)).ret ≠ 4 ∧
    (forkserver_init sample_consts 0 3 ⟨failing_kernel, []⟩).world.trace =
      [⟨.write 199 0x41414141 4, ⟨-1, 0, 0⟩⟩] ∧
    fake_main sample_consts (fun a0 _ _ _ _ _ _ _ w => (a0, w)) 0 3 11 12 13 14 15 16 17 18
      ⟨failing_kernel, []⟩ =
      .returned 11 1 (forkserver_init sample_consts 0 3 ⟨failing_kernel, []⟩).world :=
  have h := not_under_fuzzer_fallthrough sample_consts (fun a0 _ _ _ _ _ _ _ w => (a0, w))
    0 3 11 12 13 14 15 16 17 18 ⟨failing_kernel, []⟩ (by decide)
  ⟨by decide, h.2.2.1, h.2.2.2⟩

theorem status_pipe_head (c : Consts) (uninit : Int) (fuel : Nat) (k : Kernel) (v : Int)
    (h : (status_pipe c (forkserver_init c uninit fuel ⟨k, []⟩).world.trace)[0]? = some v) :
    v = 0x41414141 := by
  obtain ⟨rest, ht, hr⟩ := forkserver_init_hello c uninit fuel ⟨k, []⟩
  rw [ht] at h
  by_cases h4 : (k [] (.write c.FORKSRV_TO_FUZZER 0x41414141 4)).ret = 4
  · simp [status_pipe, List.filterMap_cons, h4] at h
    exact h.symm
  · have := hr h4
    subst this
    simp [status_pipe, List.filterMap_cons, h4] at h

theorem sys_no_full_read (w : World) (call : Call) (hc : ∀ fd n, call ≠ .read fd n)
    (h : w.trace.countP Event.is_full_read = 0) :
    (sys w call).2.trace.countP Event.is_full_read = 0 := by
  rw [sys_trace, List.countP_append, h]
  cases call <;> simp_all [Event.is_full_read]

theorem sys_read_delivers (w : World) (msgs : List Int) (fd : Int) (hv : Int)
    (hk : w.kernel.reads_from msgs) (hm : ∀ v, msgs[0]? = some v → v = hv)
    (h : w.trace.countP Event.is_full_read = 0) :
    ∀ e ∈ (sys w (.read fd 4)).2.trace, e.is_full_read = true → e.reply.val = hv := by
  intro e he hf
  rw [sys_trace, List.mem_append] at he
  rcases he with he | he
  · have := List.countP_eq_zero.mp h e he
    exact absurd hf this
  · simp only [List.mem_singleton] at he
    subst he
    simp only [Event.is_full_read, decide_eq_true_eq] at hf
    have h2 := hk w.trace fd hf
    rw [h] at h2
    exact hm _ h2

theorem sys_keeps_delivered (w : World) (call : Call) (hv : Int)
    (hc : ∀ fd n, call ≠ .read fd n)
    (h : ∀ e ∈ w.trace, e.is_full_read = true → e.reply.val = hv) :
    ∀ e ∈ (sys w call).2.trace, e.is_full_read = true → e.reply.val = hv := by
  intro e he hf
  rw [sys_trace, List.mem_append] at he
  rcases he with he | he
  · exact h e he hf
  · simp only [List.mem_singleton] at he
    subst he
    cases call <;> simp_all [Event.is_full_read]

theorem poll_hello_succ (fd : Int) (n : Nat) (rlen : Int) (w : World) :
    poll_hello fd (n + 1) rlen w =
      if (sys w (.ioctl_FIONREAD fd)).1.ret = 0 ∧ (sys w (.ioctl_FIONREAD fd)).1.val = 4 then
        ((sys (sys w (.ioctl_FIONREAD fd)).2 (.read fd 4)).1.ret, 0,
          (sys (sys w (.ioctl_FIONREAD fd)).2 (.read fd 4)).2)
      else
        poll_hello fd n
          (if (sys w (.ioctl_FIONREAD fd)).1.ret = 0 then (sys w (.ioctl_FIONREAD fd)).1.val
            else rlen)
          (sys (sys w (.ioctl_FIONREAD fd)).2 (.usleep 5)).2 := by
  rw [poll_hello]
  dsimp only
  by_cases h0 : (sys w (.ioctl_FIONREAD fd)).1.ret = 0
  · simp only [h0, if_true, true_and]
  · simp only [h0, if_false, false_and]

theorem poll_hello_delivers (fd : Int) (msgs : List Int) (hv : Int)
    (hm : ∀ v, msgs[0]? = some v → v = hv) :
    ∀ (window : Nat) (rlen : Int) (w : World), w.kernel.reads_from msgs →
      w.trace.countP Event.is_full_read = 0 →
      ∀ e ∈ (poll_hello fd window rlen w).2.2.trace, e.is_full_read = true → e.reply.val = hv := by
  intro window
  induction window with
  | zero =>
    intro rlen w _ h e he hf
    exact absurd hf (List.countP_eq_zero.mp h e he)
  | succ n ih =>
    intro rlen w hk h
    rw [poll_hello_succ]
    have h1 := sys_no_full_read w (.ioctl_FIONREAD fd) (by intro _ _ hh; cases hh) h
    split
    · exact sys_read_delivers _ msgs fd hv hk hm h1
    · exact ih _ _ hk (sys_no_full_read _ (.usleep 5) (by intro _ _ hh; cases hh) h1)

theorem handshake_delivers (fs : forkserver_t) (pid : Int) (window : Nat) (w : World)
    (msgs : List Int) (hv : Int) (hm : ∀ v, msgs[0]? = some v → v = hv)
    (hk : w.kernel.reads_from msgs) (h : w.trace.countP Event.is_full_read = 0) :
    ∀ e ∈ (handshake fs pid window w).2.trace, e.is_full_read = true → e.reply.val = hv := by
  have hp := poll_hello_delivers fs.forksrv_to_fuzzer msgs hv hm window (-1) w hk h
  unfold handshake
  dsimp only
  split_ifs <;>
    first
    | exact hp
    | exact sys_keeps_delivered _ _ hv (by intro _ _ hh; cases hh) hp
    | exact sys_keeps_delivered _ _ hv (by intro _ _ hh; cases hh)
        (sys_keeps_delivered _ _ hv (by intro _ _ hh; cases hh) hp)

theorem setup_sys (w : World) (call : Call)
    (hc : Event.is_setup ⟨call, (sys w call).1⟩ = true)
    (h : w.trace.all Event.is_setup = true) :
    (sys w call).2.trace.all Event.is_setup = true := by
  rw [sys_trace, List.all_append, h]
  simp [hc]

theorem fork_server_init_cases (fs : forkserver_t) (needs dev : Int) (window : Nat)
    (k : Kernel) :
    ((fork_server_init fs needs dev window ⟨k, []⟩).world.kernel = k ∧
      (fork_server_init fs needs dev window ⟨k, []⟩).world.trace.all Event.is_setup = true ∧
      (fork_server_init fs needs dev window ⟨k, []⟩).outcome ≠ .up) ∨
    (∃ w2 pid, w2.kernel = k ∧ w2.trace.all Event.is_setup = true ∧
      (fork_server_init fs needs dev window ⟨k, []⟩).outcome =
        (handshake (fork_server_init fs needs dev window ⟨k, []⟩).fs pid window w2).1 ∧
      (fork_server_init fs needs dev window ⟨k, []⟩).world =
        (handshake (fork_server_init fs needs dev window ⟨k, []⟩).fs pid window w2).2 ∧
      (fork_server_init fs needs dev window ⟨k, []⟩).fs.sent_get_status = 0 ∧
      (fork_server_init fs needs dev window ⟨k, []⟩).fs.last_status = -1) := by
  have h0 : (⟨k, []⟩ : World).trace.all Event.is_setup = true := rfl
  unfold fork_server_init
  by_cases hd : dev < 0 <;> by_cases hn : needs ≠ 0 <;>
    simp only [hd, hn, if_true, if_false, true_and, false_and] <;>
    split_ifs <;>
    first
    | (left
       refine ⟨rfl, ?_, by simp⟩
       repeat (first | exact h0 | (apply setup_sys _ _ rfl)))
    | (right
       refine ⟨_, _, ?_, ?_, rfl, rfl, rfl, rfl⟩
       · rfl
       · repeat (first | exact h0 | (apply setup_sys _ _ rfl)))
theorem setup_no_full_read (tr : List Event) (h : tr.all Event.is_setup = true) :
    tr.countP Event.is_full_read = 0 := by
  rw [List.countP_eq_zero]
  intro e he
  have := List.all_eq_true.mp h e he
  cases e with
  | mk call reply => cases call <;> simp_all [Event.is_setup, Event.is_full_read]

theorem fork_server_init_delivers (fs : forkserver_t) (needs dev : Int) (window : Nat)
    (k : Kernel) (msgs : List Int) (hv : Int) (hm : ∀ v, msgs[0]? = some v → v = hv)
    (hk : k.reads_from msgs) :
    ∀ e ∈ (fork_server_init fs needs dev window ⟨k, []⟩).world.trace,
      e.is_full_read = true → e.reply.val = hv := by
  rcases fork_server_init_cases fs needs dev window k with ⟨_, hs, _⟩ | ⟨w2, pid, hk2, hs, _, hw, _⟩
  · intro e he hf
    exact absurd hf (List.countP_eq_zero.mp (setup_no_full_read _ hs) e he)
  · rw [hw]
    exact handshake_delivers _ pid window w2 msgs hv hm (hk2 ▸ hk) (setup_no_full_read _ hs)

theorem pipe_fed_kernel_reads_from (msgs : List Int) :
    (pipe_fed_kernel msgs).reads_from msgs := by
  intro h fd hr
  simp only [pipe_fed_kernel] at hr ⊢
  split at hr
  · rename_i m hm
    simp [hm]
  · simp at hr

theorem poll_hello_spec (fd : Int) :
    ∀ (window : Nat) (rlen : Int) (w : World),
      ∃ new, (poll_hello fd window rlen w).2.2.trace = w.trace ++ new ∧
        (((poll_hello fd window rlen w).2.1 = 1 ∧
            (rlen ≠ 4 → (poll_hello fd window rlen w).1 ≠ 4) ∧
            ∀ e ∈ new, e.polled 4 = false ∧ e.is_read = false ∧ e.is_kill = false) ∨
          ((poll_hello fd window rlen w).2.1 = 0 ∧
            ∃ pre rd, new = pre ++ [rd] ∧ rd.call = .read fd 4 ∧
              (poll_hello fd window rlen w).1 = rd.reply.ret ∧
              ∀ e ∈ pre, e.is_read = false ∧ e.is_kill = false)) := by
  intro window
  induction window with
  | zero =>
    intro rlen w
    exact ⟨[], by simp [poll_hello], Or.inl ⟨rfl, fun h => h, by simp⟩⟩
  | succ n ih =>
    intro rlen w
    rw [poll_hello_succ]
    generalize hio : sys w (.ioctl_FIONREAD fd) = io
    have hiot : io.2.trace = w.trace ++ [⟨.ioctl_FIONREAD fd, io.1⟩] := by rw [← hio]; rfl
    split
    · refine ⟨[⟨.ioctl_FIONREAD fd, io.1⟩, ⟨.read fd 4, (sys io.2 (.read fd 4)).1⟩],
        by simp [hiot], Or.inr ⟨rfl, [⟨.ioctl_FIONREAD fd, io.1⟩], _, rfl, rfl, rfl, ?_⟩⟩
      simp [Event.is_read, Event.is_kill]
    · rename_i hnot
      generalize hus : sys io.2 (.usleep 5) = us
      have hust : us.2.trace = io.2.trace ++ [⟨.usleep 5, us.1⟩] := by rw [← hus]; rfl
      obtain ⟨new, hn, hcase⟩ := ih (if io.1.ret = 0 then io.1.val else rlen) us.2
      refine ⟨⟨.ioctl_FIONREAD fd, io.1⟩ :: ⟨.usleep 5, us.1⟩ :: new,
        by rw [hn, hust, hiot]; simp, ?_⟩
      have hio_idle : Event.polled ⟨.ioctl_FIONREAD fd, io.1⟩ 4 = false := by
        simp only [Event.polled, Event.is_poll, Bool.true_and, Bool.and_eq_false_imp,
          decide_eq_true_eq, decide_eq_false_iff_not]
        intro h1 h2
        exact hnot ⟨h1, h2⟩
      rcases hcase with ⟨ht, hkeep, hall⟩ | ⟨ht, pre, rd, hnew, hrd, hlen, hpre⟩
      · left
        refine ⟨ht, ?_, ?_⟩
        · intro hr4
          apply hkeep
          split_ifs with h0
          · exact fun h4 => hnot ⟨h0, h4⟩
          · exact hr4
        · intro e he
          simp only [List.mem_cons] at he
          rcases he with he | he | he
          · subst he; exact ⟨hio_idle, rfl, rfl⟩
          · subst he; exact ⟨rfl, rfl, rfl⟩
          · exact hall e he
      · right
        refine ⟨ht, ⟨.ioctl_FIONREAD fd, io.1⟩ :: ⟨.usleep 5, us.1⟩ :: pre, rd,
          by simp [hnew], hrd, hlen, ?_⟩
        intro e he
        simp only [List.mem_cons] at he
        rcases he with he | he | he
        · subst he; exact ⟨rfl, rfl⟩
        · subst he; exact ⟨rfl, rfl⟩
        · exact hpre e he

theorem setup_event_facts (e : Event) (h : e.is_setup = true) :
    e.polled 4 = false ∧ e.is_read = false ∧ e.is_kill = false := by
  cases e with
  | mk call reply =>
    cases call <;> simp_all [Event.is_setup, Event.polled, Event.is_poll, Event.is_read,
      Event.is_kill]

theorem fork_server_init_up (fs : forkserver_t) (needs dev : Int) (window : Nat) (k : Kernel)
    (hup : (fork_server_init fs needs dev window ⟨k, []⟩).outcome = .up) :
    ∃ pre rd,
      (fork_server_init fs needs dev window ⟨k, []⟩).world.trace = pre ++ [rd] ∧
      rd.call = .read (fork_server_init fs needs dev window ⟨k, []⟩).fs.forksrv_to_fuzzer 4 ∧
      rd.reply.ret = 4 ∧
      ∀ e ∈ pre, e.is_read = false ∧ e.is_kill = false := by
  rcases fork_server_init_cases fs needs dev window k with
    ⟨_, _, hne⟩ | ⟨w2, pid, hk2, hs, ho, hw, _⟩
  · exact absurd hup hne
  · generalize fork_server_init fs needs dev window ⟨k, []⟩ = R at *
    rw [hw]
    rw [ho] at hup
    clear ho hw
    obtain ⟨new, hn, hcase⟩ := poll_hello_spec R.fs.forksrv_to_fuzzer window (-1) w2
    unfold handshake at hup ⊢
    dsimp only at hup ⊢
    generalize poll_hello R.fs.forksrv_to_fuzzer window (-1) w2 = p at *
    have hsetup : ∀ e ∈ w2.trace, e.polled 4 = false ∧ e.is_read = false ∧ e.is_kill = false :=
      fun e he => setup_event_facts e (List.all_eq_true.mp hs e he)
    by_cases h4 : p.1 = 4
    · simp only [h4, if_true] at hup ⊢
      rcases hcase with ⟨_, hkeep, _⟩ | ⟨_, pre, rd, hnew, hrd, hlen, hpre⟩
      · exact absurd h4 (hkeep (by decide))
      · refine ⟨w2.trace ++ pre, rd, by rw [hn, hnew]; simp, hrd, hlen ▸ h4, ?_⟩
        intro e he
        rw [List.mem_append] at he
        rcases he with he | he
        · exact (hsetup e he).2
        · exact hpre e he
    · exfalso
      simp only [h4, if_false] at hup
      split_ifs at hup

/-- Claim C3: the first system call of every run of `forkserver_init` is the write
of the 4-byte hello 0x41414141 to `FORKSRV_TO_FUZZER`, so nothing is written
to that pipe before it; and when the status pipe carries only the server's
writes, every complete 4-byte read that `fork_server_init` makes delivers
0x41414141, and a successful `fork_server_init` has ended with one such read
from its status descriptor. -/
theorem hello_first (c : Consts) (ks kd : Kernel) (uninit : Int) (fuel : Nat)
    (fs : forkserver_t) (needs_stdin_fd dev_null_fd : Int) (window : Nat)
    (hfed : kd.reads_from (status_pipe c (forkserver_init c uninit fuel ⟨ks, []⟩).world.trace)) :
    (∃ rest, (forkserver_init c uninit fuel ⟨ks, []⟩).world.trace =
      ⟨.write c.FORKSRV_TO_FUZZER 0x41414141 4,
        ks [] (.write c.FORKSRV_TO_FUZZER 0x41414141 4)⟩ :: rest) ∧
    (∀ e ∈ (fork_server_init fs needs_stdin_fd dev_null_fd window ⟨kd, []⟩).world.trace,
      e.is_full_read = true → e.reply.val = 0x41414141) ∧
    ((fork_server_init fs needs_stdin_fd dev_null_fd window ⟨kd, []⟩).outcome = .up →
      ∃ pre rd,
        (fork_server_init fs needs_stdin_fd dev_null_fd window ⟨kd, []⟩).world.trace
          = pre ++ [rd] ∧
        rd.call = .read
          (fork_server_init fs needs_stdin_fd dev_null_fd window ⟨kd, []⟩).fs.forksrv_to_fuzzer
          4 ∧
        rd.reply.ret = 4 ∧ rd.reply.val = 0x41414141 ∧
        ∀ e ∈ pre, e.is_read = false) := by
  have hall := fork_server_init_delivers fs needs_stdin_fd dev_null_fd window kd _ 0x41414141
    (fun v hv => status_pipe_head c uninit fuel ks v hv) hfed
  refine ⟨?_, hall, ?_⟩
  · obtain ⟨rest, h, _⟩ := forkserver_init_hello c uninit fuel ⟨ks, []⟩
    exact ⟨rest, by simpa using h⟩
  · intro hup
    obtain ⟨pre, rd, htr, hcall, hret, hpre⟩ :=
      fork_server_init_up fs needs_stdin_fd dev_null_fd window kd hup
    refine ⟨pre, rd, htr, hcall, hret, ?_, fun e he => (hpre e he).1⟩
    apply hall rd (by rw [htr]; simp)
    cases rd with
    | mk call reply =>
      simp only at hcall hret
      subst hcall
      simp [Event.is_full_read, hret]

/-- A driver whose status pipe holds what a server blocked on its first command
read has written: the handshake succeeds and reads the hello. -/
theorem hello_first_witness :
    (pipe_fed_kernel (status_pipe sample_consts
      (forkserver_init sample_consts 0 0 ⟨scripted_kernel sample_consts [], []⟩).world.trace)).reads_from
      (status_pipe sample_consts
        (forkserver_init sample_consts 0 0 ⟨scripted_kernel sample_consts [], []⟩).world.trace) ∧
    (fork_server_init sample_handle 0 (-1) 3 ⟨pipe_fed_kernel (status_pipe sample_consts
      (forkserver_init sample_consts 0 0
        ⟨scripted_kernel sample_consts [], []⟩).world.trace), []⟩).outcome = .up ∧
    (∀ e ∈ (fork_server_init sample_handle 0 (-1) 3 ⟨pipe_fed_kernel (status_pipe sample_consts
      (forkserver_init sample_consts 0 0
        ⟨scripted_kernel sample_consts [], []⟩).world.trace), []⟩).world.trace,
      e.is_full_read = true → e.reply.val = 0x41414141) :=
  ⟨pipe_fed_kernel_reads_from _, by decide,
    (hello_first sample_consts (scripted_kernel sample_consts []) _ 0 0 sample_handle 0 (-1) 3
      (pipe_fed_kernel_reads_from _)).2.1⟩

/-- Claim C10, as amended: if some FIONREAD poll of the run succeeded and reported
exactly 4 bytes, and the read of the run delivered its 4 bytes, then
`fork_server_init` returns successfully; its last system call is that read of
4 bytes from the status pipe, and it makes no other read and no `kill`. -/
theorem handshake_success (fs : forkserver_t) (needs_stdin_fd dev_null_fd : Int)
    (window : Nat) (k : Kernel)
    (hpoll : ∃ e ∈ (fork_server_init fs needs_stdin_fd dev_null_fd window ⟨k, []⟩).world.trace,
      e.polled 4 = true)
    (hread : ∀ e ∈ (fork_server_init fs needs_stdin_fd dev_null_fd window ⟨k, []⟩).world.trace,
      e.is_read = true → e.reply.ret = 4) :
    (fork_server_init fs needs_stdin_fd dev_null_fd window ⟨k, []⟩).outcome = .up ∧
    ∃ pre rd,
      (fork_server_init fs needs_stdin_fd dev_null_fd window ⟨k, []⟩).world.trace = pre ++ [rd] ∧
      rd.call = .read
        (fork_server_init fs needs_stdin_fd dev_null_fd window ⟨k, []⟩).fs.forksrv_to_fuzzer 4 ∧
      rd.reply.ret = 4 ∧
      ∀ e ∈ pre, e.is_read = false ∧ e.is_kill = false := by
  rcases fork_server_init_cases fs needs_stdin_fd dev_null_fd window k with
    ⟨_, hs, _⟩ | ⟨w2, pid, hk2, hs, ho, hw, _⟩
  · obtain ⟨e, he, hp⟩ := hpoll
    have := (setup_event_facts e (List.all_eq_true.mp hs e he)).1
    rw [this] at hp
    exact absurd hp (by simp)
  · generalize fork_server_init fs needs_stdin_fd dev_null_fd window ⟨k, []⟩ = R at *
    rw [hw] at hpoll hread ⊢
    rw [ho]
    clear ho hw
    obtain ⟨new, hn, hcase⟩ := poll_hello_spec R.fs.forksrv_to_fuzzer window (-1) w2
    unfold handshake at hpoll hread ⊢
    dsimp only at hpoll hread ⊢
    generalize poll_hello R.fs.forksrv_to_fuzzer window (-1) w2 = p at *
    have hsetup : ∀ e ∈ w2.trace, e.polled 4 = false ∧ e.is_read = false ∧ e.is_kill = false :=
      fun e he => setup_event_facts e (List.all_eq_true.mp hs e he)
    rcases hcase with ⟨ht, _, hall⟩ | ⟨ht, pre, rd, hnew, hrd, hlen, hpre⟩
    · exfalso
      have ht' : p.2.1 ≠ 0 := by rw [ht]; decide
      simp only [ht', ne_eq, not_false_eq_true, if_true] at hpoll
      obtain ⟨e, he, hp⟩ := hpoll
      split_ifs at he
      · rw [hn, List.mem_append] at he
        rcases he with he | he
        · rw [(hsetup e he).1] at hp; exact absurd hp (by simp)
        · rw [(hall e he).1] at hp; exact absurd hp (by simp)
      · rw [sys_trace, hn, List.mem_append, List.mem_append] at he
        rcases he with (he | he) | he
        · rw [(hsetup e he).1] at hp; exact absurd hp (by simp)
        · rw [(hall e he).1] at hp; exact absurd hp (by simp)
        · simp only [List.mem_singleton] at he
          subst he
          simp [Event.polled, Event.is_poll] at hp
    · have hrd_in : rd ∈ p.2.2.trace := by rw [hn, hnew]; simp
      have hrd_read : rd.is_read = true := by
        cases rd with
        | mk call reply => simp only at hrd; subst hrd; rfl
      by_cases h4 : p.1 = 4
      · simp only [h4, if_true] at hread ⊢
        refine ⟨trivial, w2.trace ++ pre, rd, by rw [hn, hnew]; simp, hrd, ?_, ?_⟩
        · rw [← hlen]; exact h4
        · intro e he
          rw [List.mem_append] at he
          rcases he with he | he
          · exact (hsetup e he).2
          · exact hpre e he
      · exfalso
        simp only [h4, if_false, ht, ne_eq, not_true_eq_false] at hread
        have hin : rd ∈ (sys (sys p.2.2 (.kill pid SIGKILL)).2 (.waitpid pid)).2.trace := by
          simp [hrd_in]
        have hr4 : rd.reply.ret = 4 := by
          split_ifs at hread <;> exact hread rd hin hrd_read
        exact h4 (hlen.trans hr4)
/-- A handshake in which the status pipe holds exactly the 4-byte hello. -/
theorem handshake_success_witness :
    (∃ e ∈ (fork_server_init sample_handle 1 (-1) 3
        ⟨pipe_fed_kernel [0x41414141], []⟩).world.trace, e.polled 4 = true) ∧
    (fork_server_init sample_handle 1 (-1) 3 ⟨pipe_fed_kernel [0x41414141], []⟩).outcome = .up :=
  ⟨by decide,
    (handshake_success sample_handle 1 (-1) 3 (pipe_fed_kernel [0x41414141])
      (by decide) (by decide)).1⟩

/-- Claim C10, as stated, fails: with 8 bytes in the status pipe every poll in the
window succeeds and reports 8 >= 4 bytes, yet `fork_server_init` never reads,
kills the server and ends in the fatal error "Timeout while initializing fork
server". -/
theorem handshake_needs_exactly_four_bytes :
    (fork_server_init sample_handle 0 (-1) 3
      ⟨pipe_fed_kernel [0x41414141, 0], []⟩).world.trace.any (fun e => e.polled 8) = true ∧
    (fork_server_init sample_handle 0 (-1) 3
      ⟨pipe_fed_kernel [0x41414141, 0], []⟩).outcome = .fatal_timeout ∧
    (fork_server_init sample_handle 0 (-1) 3
      ⟨pipe_fed_kernel [0x41414141, 0], []⟩).world.trace.any Event.is_read = false ∧
    (fork_server_init sample_handle 0 (-1) 3
      ⟨pipe_fed_kernel [0x41414141, 0], []⟩).world.trace.any Event.is_kill = true := by
  decide

/-- Claim C9, as amended: when the write of the `EXIT` command byte succeeds,
`fork_server_exit` returns 0 after calling `close` on `fuzzer_to_forksrv`,
`forksrv_to_fuzzer` and `target_stdin`, in this order and whether or not a
stdin file is present. -/
theorem fork_server_exit_closes (c : Consts) (fs : forkserver_t) (w : World)
    (h : (w.kernel w.trace (.write fs.fuzzer_to_forksrv c.EXIT 1)).ret = 1) :
    (fork_server_exit c fs w).1 = 0 ∧
    ∃ r0 r1 r2 r3, new_events w (fork_server_exit c fs w).2 =
      [⟨.write fs.fuzzer_to_forksrv c.EXIT 1, r0⟩, ⟨.close fs.fuzzer_to_forksrv, r1⟩,
       ⟨.close fs.forksrv_to_fuzzer, r2⟩, ⟨.close fs.target_stdin, r3⟩] := by
  have h1 : (sys w (.write fs.fuzzer_to_forksrv c.EXIT 1)).1.ret = 1 := h
  unfold fork_server_exit send_command
  simp only [h1, ne_eq, not_true_eq_false, if_false, if_true, true_and]
  exact ⟨_, _, _, _, by simp [new_events]; exact ⟨rfl, rfl, rfl, rfl⟩⟩

/-- A call of `fork_server_exit` in which the write of `EXIT` succeeds. -/
theorem fork_server_exit_closes_witness :
    (pipe_fed_kernel [] [] (.write sample_handle.fuzzer_to_forksrv sample_consts.EXIT 1)).ret = 1 ∧
    (fork_server_exit sample_consts sample_handle ⟨pipe_fed_kernel [], []⟩).1 = 0 :=
  ⟨by decide,
    (fork_server_exit_closes sample_consts sample_handle ⟨pipe_fed_kernel [], []⟩ (by decide)).1⟩

/-- Claim C9, as stated, fails: when the write of the `EXIT` command byte fails,
`fork_server_exit` returns `FORKSERVER_ERROR` and has closed neither pipe
descriptor of the handle. -/
theorem fork_server_exit_keeps_descriptors_on_failed_write :
    (fork_server_exit sample_consts sample_handle ⟨failing_kernel, []⟩).1 =
      sample_consts.FORKSERVER_ERROR ∧
    (fork_server_exit sample_consts sample_handle ⟨failing_kernel, []⟩).2.trace.any
      (Event.closes sample_handle.fuzzer_to_forksrv) = false ∧
    (fork_server_exit sample_consts sample_handle ⟨failing_kernel, []⟩).2.trace.any
      (Event.closes sample_handle.forksrv_to_fuzzer) = false := by
  decide
theorem get_status_cached (c : Consts) (fs : forkserver_t) (wait : Int) (w : World)
    (h1 : fs.sent_get_status ≠ 0) (h2 : fs.last_status ≠ -1) :
    fork_server_get_status c fs wait w = (fs.last_status, fs, w) := by
  unfold fork_server_get_status fork_server_get_pending_status
  simp [h1, h2]

theorem get_status_polls_cached (c : Consts) :
    ∀ (n : Nat) (fs : forkserver_t) (w : World), fs.sent_get_status ≠ 0 → fs.last_status ≠ -1 →
      get_status_polls c n fs w = (List.replicate n fs.last_status, fs, w) := by
  intro n
  induction n with
  | zero => intro fs w _ _; rfl
  | succ n ih =>
    intro fs w h1 h2
    rw [get_status_polls, get_status_cached c fs 0 w h1 h2]
    dsimp only
    rw [ih fs w h1 h2]
    rfl

theorem get_status_polls_pending (c : Consts) (k : Kernel)
    (hr : ∀ h fd, (k h (.read fd 4)).ret = 4 ∧ (k h (.read fd 4)).val ≠ -1) :
    ∀ (n : Nat) (fs : forkserver_t) (w : World), w.kernel = k →
      fs.sent_get_status ≠ 0 → fs.last_status = -1 →
      ∃ j v new, j ≤ n ∧
        (get_status_polls c n fs w).1 =
          List.replicate j c.FORKSERVER_NO_RESULTS_READY ++ List.replicate (n - j) v ∧
        (get_status_polls c n fs w).2.2.trace = w.trace ++ new ∧
        new.countP Event.is_read = (if j < n then 1 else 0) ∧
        (j < n → ∃ e ∈ new, e.is_read = true ∧ e.reply.val = v) := by
  intro n
  induction n with
  | zero =>
    intro fs w _ _ _
    exact ⟨0, 0, [], le_refl _, rfl, by simp [get_status_polls], rfl, by simp⟩
  | succ n ih =>
    intro fs w hk h1 h2
    rw [get_status_polls]
    have hcall : fork_server_get_status c fs 0 w =
        fork_server_get_pending_status c fs 0 w := by
      unfold fork_server_get_status
      simp [h1]
    rw [hcall]
    unfold fork_server_get_pending_status read_response
    simp only [h2, ne_eq, not_true_eq_false, and_false, if_false]
    generalize hio : sys w (.ioctl_FIONREAD fs.forksrv_to_fuzzer) = io
    have hiot : io.2.trace = w.trace ++ [⟨.ioctl_FIONREAD fs.forksrv_to_fuzzer, io.1⟩] := by
      rw [← hio]; rfl
    have hiok : io.2.kernel = k := by rw [← hio]; exact hk
    by_cases hready : io.1.ret = 0 ∧ io.1.val = 4
    · simp only [hready, and_self, if_true]
      generalize hrd : sys io.2 (.read fs.forksrv_to_fuzzer 4) = rd
      have hrdt : rd.2.trace = io.2.trace ++ [⟨.read fs.forksrv_to_fuzzer 4, rd.1⟩] := by
        rw [← hrd]; rfl
      have hrd1 : rd.1 = k io.2.trace (.read fs.forksrv_to_fuzzer 4) := by
        rw [← hrd, sys_reply, hiok]
      have hret : rd.1.ret = 4 := by rw [hrd1]; exact (hr _ _).1
      have hval : rd.1.val ≠ -1 := by rw [hrd1]; exact (hr _ _).2
      simp only [hret, if_false, ne_eq, not_true_eq_false]
      have hc := get_status_polls_cached c n { fs with last_status := rd.1.val } rd.2 h1 hval
      rw [hc]
      refine ⟨0, rd.1.val, [⟨.ioctl_FIONREAD fs.forksrv_to_fuzzer, io.1⟩,
        ⟨.read fs.forksrv_to_fuzzer 4, rd.1⟩], Nat.zero_le _, ?_, ?_, ?_, ?_⟩
      · simp [List.replicate_succ]
      · simp [hrdt, hiot]
      · simp [List.countP_cons, Event.is_read]
      · intro _
        exact ⟨⟨.read fs.forksrv_to_fuzzer 4, rd.1⟩, by simp, rfl, rfl⟩
    · simp only [hready, if_false]
      obtain ⟨j, v, new, hj, hrets, htr, hcnt, hex⟩ := ih fs io.2 hiok h1 h2
      refine ⟨j + 1, v, ⟨.ioctl_FIONREAD fs.forksrv_to_fuzzer, io.1⟩ :: new,
        Nat.succ_le_succ hj, ?_, ?_, ?_, ?_⟩
      · simp [hrets, List.replicate_succ]
      · simp [htr, hiot]
      · simp [List.countP_cons, Event.is_read, hcnt]
      · intro hlt
        obtain ⟨e, he, h3⟩ := hex (by omega)
        exact ⟨e, List.mem_cons_of_mem _ he, h3⟩

/-- Claim C6, as amended: on a handle with `sent_get_status = 0`, when the write of
the `GET_STATUS` byte succeeds and every read of the status pipe delivers 4
bytes whose value is not -1 (the value the cache uses for "unset"), a run of
`n` calls `fork_server_get_status(fs, 0)` returns
`FORKSERVER_NO_RESULTS_READY` in its first `j` calls and one value `v` in all
later ones, where `v` is the status read from the pipe by call `j + 1`; the
whole run reads the pipe once (not at all when `j = n`). -/
theorem get_status_cache_idempotent (c : Consts) (n : Nat) (fs : forkserver_t) (w : World)
    (h0 : fs.sent_get_status = 0)
    (hw : ∀ h fd v, (w.kernel h (.write fd v 1)).ret = 1)
    (hr : ∀ h fd, (w.kernel h (.read fd 4)).ret = 4 ∧ (w.kernel h (.read fd 4)).val ≠ -1) :
    ∃ j v, j ≤ n ∧
      (get_status_polls c n fs w).1 =
        List.replicate j c.FORKSERVER_NO_RESULTS_READY ++ List.replicate (n - j) v ∧
      (new_events w (get_status_polls c n fs w).2.2).countP Event.is_read =
        (if j < n then 1 else 0) ∧
      (j < n → ∃ e ∈ new_events w (get_status_polls c n fs w).2.2,
        e.is_read = true ∧ e.reply.val = v) := by
  cases n with
  | zero =>
    exact ⟨0, 0, le_refl _, rfl, by simp [get_status_polls, new_events], by simp⟩
  | succ n =>
    generalize hs : sys w (.write fs.fuzzer_to_forksrv c.GET_STATUS 1) = s
    have hst : s.2.trace = w.trace ++ [⟨.write fs.fuzzer_to_forksrv c.GET_STATUS 1, s.1⟩] := by
      rw [← hs]; rfl
    have hsk : s.2.kernel = w.kernel := by rw [← hs]; rfl
    have hsr : s.1.ret = 1 := by rw [← hs]; exact hw _ _ _
    have hfirst : fork_server_get_status c fs 0 w =
        fork_server_get_status c { fs with sent_get_status := 1, last_status := -1 } 0 s.2 := by
      unfold fork_server_get_status send_command
      simp [h0, hs, hsr]
    have hrun : get_status_polls c (n + 1) fs w =
        get_status_polls c (n + 1) { fs with sent_get_status := 1, last_status := -1 } s.2 := by
      rw [get_status_polls, get_status_polls, hfirst]
    obtain ⟨j, v, new, hj, hrets, htr, hcnt, hex⟩ :=
      get_status_polls_pending c w.kernel hr (n + 1)
        { fs with sent_get_status := 1, last_status := -1 } s.2 hsk (by simp) rfl
    have hnew : new_events w (get_status_polls c (n + 1) fs w).2.2 =
        ⟨.write fs.fuzzer_to_forksrv c.GET_STATUS 1, s.1⟩ :: new := by
      rw [hrun, new_events, htr, hst]
      simp
    refine ⟨j, v, hj, by rw [hrun]; exact hrets, ?_, ?_⟩
    · rw [hnew]
      simp [List.countP_cons, Event.is_read, hcnt]
    · intro hlt
      obtain ⟨e, he, h3⟩ := hex hlt
      exact ⟨e, by rw [hnew]; exact List.mem_cons_of_mem _ he, h3⟩

/-- Four polls on a status pipe that becomes readable at the third poll and
delivers the status 7. -/
theorem get_status_cache_idempotent_witness :
    sample_handle.sent_get_status = 0 ∧
    (get_status_polls sample_consts 4 sample_handle ⟨slow_pipe_kernel 2 7, []⟩).1 =
      [-2, -2, 7, 7] ∧
    ∃ j v, j ≤ 4 ∧
      (get_status_polls sample_consts 4 sample_handle ⟨slow_pipe_kernel 2 7, []⟩).1 =
        List.replicate j sample_consts.FORKSERVER_NO_RESULTS_READY ++ List.replicate (4 - j) v :=
  have h := get_status_cache_idempotent sample_consts 4 sample_handle
    ⟨slow_pipe_kernel 2 7, []⟩ rfl (fun _ _ _ => rfl) (fun _ _ => ⟨rfl, by simp [slow_pipe_kernel]⟩)
  ⟨rfl, by decide, h.choose, h.choose_spec.choose, h.choose_spec.choose_spec.1,
    h.choose_spec.choose_spec.2.1⟩

/-- Claim C6, as stated, fails for the status value -1: the first poll reads the
complete 4-byte status -1 from the pipe and returns it, but the value is not
kept, and the next call polls the pipe again and returns
`FORKSERVER_NO_RESULTS_READY`. -/
theorem get_status_forgets_minus_one :
    (get_status_polls sample_consts 2 sample_handle ⟨pipe_fed_kernel [-1], []⟩).1 =
      [-1, sample_consts.FORKSERVER_NO_RESULTS_READY] ∧
    (get_status_polls sample_consts 2 sample_handle ⟨pipe_fed_kernel [-1], []⟩).2.2.trace =
      [⟨.write 10 4 1, ⟨1, 0, 0⟩⟩, ⟨.ioctl_FIONREAD 7, ⟨0, 4, 0⟩⟩, ⟨.read 7 4, ⟨4, -1, 0⟩⟩,
       ⟨.ioctl_FIONREAD 7, ⟨0, 0, 0⟩⟩] := by
  decide

/-- Claim C7 on the code: a blocking `fork_server_get_status(fs, 1)` reads the
status 7 and returns it without storing it in `last_status`; the next
`fork_server_get_status(fs, 1)` on the same handle, with no fork in between,
reads the status pipe a second time and does not return 7. -/
theorem blocking_get_status_is_not_cached :
    (fork_server_get_status sample_consts sample_handle 1 ⟨pipe_fed_kernel [7], []⟩).1 = 7 ∧
    (fork_server_get_status sample_consts sample_handle 1
      ⟨pipe_fed_kernel [7], []⟩).2.1.last_status = -1 ∧
    (fork_server_get_status sample_consts
      (fork_server_get_status sample_consts sample_handle 1 ⟨pipe_fed_kernel [7], []⟩).2.1 1
      (fork_server_get_status sample_consts sample_handle 1 ⟨pipe_fed_kernel [7], []⟩).2.2).1
      = sample_consts.FORKSERVER_ERROR ∧
    (fork_server_get_status sample_consts
      (fork_server_get_status sample_consts sample_handle 1 ⟨pipe_fed_kernel [7], []⟩).2.1 1
      (fork_server_get_status sample_consts sample_handle 1
        ⟨pipe_fed_kernel [7], []⟩).2.2).2.2.trace =
      [⟨.write 10 4 1, ⟨1, 0, 0⟩⟩, ⟨.read 7 4, ⟨4, 7, 0⟩⟩, ⟨.read 7 4, ⟨0, 0, 0⟩⟩] := by
  decide
theorem scan_sys (c : Consts) (w : World) (call : Call) :
    (sys w call).2.trace.foldl (in_flight_scan c) (0, true) =
      in_flight_scan c (w.trace.foldl (in_flight_scan c) (0, true)) ⟨call, (sys w call).1⟩ := by
  rw [sys_trace, List.foldl_append]
  rfl

theorem inv_sys_other (c : Consts) (fs fs1 : forkserver_t) (w : World) (call : Call)
    (hc : ∀ fd v n, call ≠ .write fd v n)
    (hs : fs1.sent_get_status = fs.sent_get_status)
    (h : in_flight_inv c fs w.trace) : in_flight_inv c fs1 (sys w call).2.trace := by
  unfold in_flight_inv at h ⊢
  rw [scan_sys, hs]
  have : in_flight_scan c (w.trace.foldl (in_flight_scan c) (0, true)) ⟨call, (sys w call).1⟩ =
      w.trace.foldl (in_flight_scan c) (0, true) := by
    cases call <;> simp_all [in_flight_scan]
  rw [this]
  exact h

theorem send_command_world (c : Consts) (fs : forkserver_t) (cmd : Int) (w : World) :
    (send_command c fs cmd w).2 = (sys w (.write fs.fuzzer_to_forksrv cmd 1)).2 := by
  unfold send_command
  dsimp only
  split_ifs <;> rfl

theorem send_command_ok (c : Consts) (he : c.FORKSERVER_ERROR ≠ 0) (fs : forkserver_t)
    (cmd : Int) (w : World) :
    (send_command c fs cmd w).1 = 0 ↔ (sys w (.write fs.fuzzer_to_forksrv cmd 1)).1.ret = 1 := by
  unfold send_command
  dsimp only
  split_ifs with h
  · simp only [he, false_iff]
    exact h
  · simp only [true_iff]
    exact not_not.mp h

theorem read_response_world (c : Consts) (fs : forkserver_t) (w : World) :
    (read_response c fs w).2 = (sys w (.read fs.forksrv_to_fuzzer 4)).2 := by
  unfold read_response
  dsimp only
  split_ifs <;> rfl

theorem inv_send_plain (c : Consts) (fs : forkserver_t) (w : World) (cmd : Int)
    (h1 : ¬ (cmd = c.FORK ∨ cmd = c.FORK_RUN)) (h2 : cmd ≠ c.GET_STATUS)
    (h : in_flight_inv c fs w.trace) :
    in_flight_inv c fs (send_command c fs cmd w).2.trace := by
  rw [send_command_world]
  unfold in_flight_inv at h ⊢
  rw [scan_sys]
  have : in_flight_scan c (w.trace.foldl (in_flight_scan c) (0, true))
      ⟨.write fs.fuzzer_to_forksrv cmd 1, (sys w (.write fs.fuzzer_to_forksrv cmd 1)).1⟩ =
      w.trace.foldl (in_flight_scan c) (0, true) := by
    simp [in_flight_scan, h1, h2]
  rw [this]
  exact h

theorem inv_read_response (c : Consts) (fs fs1 : forkserver_t) (w : World)
    (hs : fs1.sent_get_status = fs.sent_get_status)
    (h : in_flight_inv c fs w.trace) :
    in_flight_inv c fs1 (read_response c fs w).2.trace := by
  rw [read_response_world]
  exact inv_sys_other c fs fs1 w _ (by intro _ _ _ hh; cases hh) hs h

theorem inv_send_fork (c : Consts) (he : c.FORKSERVER_ERROR ≠ 0) (fs : forkserver_t)
    (w : World) (cmd : Int) (hcmd : cmd = c.FORK ∨ cmd = c.FORK_RUN)
    (h : in_flight_inv c fs w.trace) :
    in_flight_inv c (send_fork c fs cmd w).2.1 (send_fork c fs cmd w).2.2.trace := by
  unfold send_fork
  dsimp only
  by_cases hs : (send_command c fs cmd w).1 = 0
  · simp only [hs, ne_eq, not_true_eq_false, if_false]
    have hr := (send_command_ok c he fs cmd w).mp hs
    have hsent : in_flight_inv c { fs with sent_get_status := 0 }
        (send_command c fs cmd w).2.trace := by
      rw [send_command_world]
      unfold in_flight_inv at h ⊢
      rw [scan_sys]
      simp only [in_flight_scan, hcmd, if_true, hr]
      exact ⟨h.1, Nat.zero_le _, fun _ => trivial⟩
    rw [read_response_world]
    exact inv_sys_other c _ _ _ _ (by intro _ _ _ hh; cases hh) rfl hsent
  · simp only [hs, ne_eq, not_false_eq_true, if_true]
    have hr : ¬ (sys w (.write fs.fuzzer_to_forksrv cmd 1)).1.ret = 1 :=
      fun hh => hs ((send_command_ok c he fs cmd w).mpr hh)
    rw [send_command_world]
    unfold in_flight_inv at h ⊢
    rw [scan_sys]
    simp only [in_flight_scan, hr, if_false]
    exact h

theorem inv_get_pending_status (c : Consts) (fs : forkserver_t) (wait : Int) (w : World)
    (h : in_flight_inv c fs w.trace) :
    in_flight_inv c (fork_server_get_pending_status c fs wait w).2.1
      (fork_server_get_pending_status c fs wait w).2.2.trace := by
  unfold fork_server_get_pending_status
  dsimp only
  split_ifs
  · exact h
  · exact inv_read_response c fs fs w rfl h
  · rw [read_response_world]
    exact inv_sys_other c fs _ _ _ (by intro _ _ _ hh; cases hh) rfl
      (inv_sys_other c fs fs w _ (by intro _ _ _ hh; cases hh) rfl h)
  · exact inv_sys_other c fs fs w _ (by intro _ _ _ hh; cases hh) rfl h

theorem inv_get_status (c : Consts) (hd : c.distinct_commands) (he : c.FORKSERVER_ERROR ≠ 0)
    (fs : forkserver_t) (wait : Int) (w : World) (h : in_flight_inv c fs w.trace) :
    in_flight_inv c (fork_server_get_status c fs wait w).2.1
      (fork_server_get_status c fs wait w).2.2.trace := by
  obtain ⟨h1, h2, h3, h4, h5, h6, h7, h8, h9, h10⟩ := hd
  unfold fork_server_get_status
  dsimp only
  by_cases h0 : fs.sent_get_status = 0
  · simp only [h0, if_true]
    by_cases hs : (send_command c fs c.GET_STATUS w).1 = 0
    · simp only [hs, ne_eq, not_true_eq_false, if_false]
      apply inv_get_pending_status
      have hr := (send_command_ok c he fs c.GET_STATUS w).mp hs
      rw [send_command_world]
      unfold in_flight_inv at h ⊢
      rw [scan_sys]
      have hz := h.2.2 h0
      simp only [in_flight_scan, hr, if_true, h7.symm, h9.symm, or_self, if_false, hz]
      exact ⟨by simp [h.1], le_refl _, fun hh => absurd hh (by simp)⟩
    · simp only [hs, ne_eq, not_false_eq_true, if_true]
      have hr : ¬ (sys w (.write fs.fuzzer_to_forksrv c.GET_STATUS 1)).1.ret = 1 :=
        fun hh => hs ((send_command_ok c he fs c.GET_STATUS w).mpr hh)
      rw [send_command_world]
      unfold in_flight_inv at h ⊢
      rw [scan_sys]
      simp only [in_flight_scan, hr, if_false]
      exact h
  · simp only [h0, if_false]
    exact inv_get_pending_status c fs wait w h

theorem inv_run (c : Consts) (hd : c.distinct_commands) (fs : forkserver_t) (w : World)
    (h : in_flight_inv c fs w.trace) :
    in_flight_inv c fs (fork_server_run c fs w).2.trace := by
  obtain ⟨h1, h2, h3, h4, h5, h6, h7, h8, h9, h10⟩ := hd
  have hs := inv_send_plain c fs w c.RUN (by simp [h6.symm, h8.symm]) h10 h
  unfold fork_server_run
  dsimp only
  split_ifs
  · exact hs
  · exact inv_read_response c fs fs _ rfl hs
  · exact inv_read_response c fs fs _ rfl hs

theorem inv_exit (c : Consts) (hd : c.distinct_commands) (fs : forkserver_t) (w : World)
    (h : in_flight_inv c fs w.trace) :
    in_flight_inv c fs (fork_server_exit c fs w).2.trace := by
  obtain ⟨h1, h2, h3, h4, h5, h6, h7, h8, h9, h10⟩ := hd
  have hs := inv_send_plain c fs w c.EXIT (by simp [h1, h2]) h4 h
  unfold fork_server_exit
  dsimp only
  split_ifs
  · exact inv_sys_other c fs fs _ _ (by intro _ _ _ hh; cases hh) rfl
      (inv_sys_other c fs fs _ _ (by intro _ _ _ hh; cases hh) rfl
        (inv_sys_other c fs fs _ _ (by intro _ _ _ hh; cases hh) rfl hs))
  · exact hs

theorem inv_driver_step (c : Consts) (hd : c.distinct_commands) (he : c.FORKSERVER_ERROR ≠ 0)
    (fs : forkserver_t) (w : World) (op : Op) (h : in_flight_inv c fs w.trace) :
    in_flight_inv c (driver_step c fs w op).1 (driver_step c fs w op).2.trace := by
  cases op with
  | fork => exact inv_send_fork c he fs w c.FORK (Or.inl rfl) h
  | fork_run => exact inv_send_fork c he fs w c.FORK_RUN (Or.inr rfl) h
  | run => exact inv_run c hd fs w h
  | get_pending_status wait => exact inv_get_pending_status c fs wait w h
  | get_status wait => exact inv_get_status c hd he fs wait w h
  | exit => exact inv_exit c hd fs w h

theorem inv_driver_run (c : Consts) (hd : c.distinct_commands) (he : c.FORKSERVER_ERROR ≠ 0) :
    ∀ (ops : List Op) (fs : forkserver_t) (w : World), in_flight_inv c fs w.trace →
      in_flight_inv c (driver_run c ops fs w).1 (driver_run c ops fs w).2.trace := by
  intro ops
  induction ops with
  | nil => intro fs w h; exact h
  | cons op ops ih =>
    intro fs w h
    rw [driver_run]
    exact ih _ _ (inv_driver_step c hd he fs w op h)
theorem inv_poll_hello (c : Consts) (fs : forkserver_t) (fd : Int) :
    ∀ (window : Nat) (rlen : Int) (w : World), in_flight_inv c fs w.trace →
      in_flight_inv c fs (poll_hello fd window rlen w).2.2.trace := by
  intro window
  induction window with
  | zero => intro rlen w h; exact h
  | succ n ih =>
    intro rlen w h
    rw [poll_hello_succ]
    have h1 := inv_sys_other c fs fs w (.ioctl_FIONREAD fd) (by intro _ _ _ hh; cases hh) rfl h
    split
    · exact inv_sys_other c fs fs _ _ (by intro _ _ _ hh; cases hh) rfl h1
    · exact ih _ _ (inv_sys_other c fs fs _ _ (by intro _ _ _ hh; cases hh) rfl h1)

theorem inv_handshake (c : Consts) (fs fs1 : forkserver_t) (pid : Int) (window : Nat)
    (w : World) (h : in_flight_inv c fs w.trace) :
    in_flight_inv c fs (handshake fs1 pid window w).2.trace := by
  have hp := inv_poll_hello c fs fs1.forksrv_to_fuzzer window (-1) w h
  unfold handshake
  dsimp only
  split_ifs <;>
    first
    | exact hp
    | exact inv_sys_other c fs fs _ _ (by intro _ _ _ hh; cases hh) rfl hp
    | exact inv_sys_other c fs fs _ _ (by intro _ _ _ hh; cases hh) rfl
        (inv_sys_other c fs fs _ _ (by intro _ _ _ hh; cases hh) rfl hp)

theorem inv_setup (c : Consts) :
    ∀ (tr : List Event) (s : Nat × Bool), tr.all Event.is_setup = true →
      tr.foldl (in_flight_scan c) s = s := by
  intro tr
  induction tr with
  | nil => intro s _; rfl
  | cons e es ih =>
    intro s h
    simp only [List.all_cons, Bool.and_eq_true] at h
    rw [List.foldl_cons]
    have : in_flight_scan c s e = s := by
      cases e with
      | mk call reply => cases call <;> simp_all [in_flight_scan, Event.is_setup]
    rw [this]
    exact ih s h.2

theorem inv_fork_server_init (c : Consts) (fs : forkserver_t) (needs dev : Int) (window : Nat)
    (k : Kernel) :
    in_flight_inv c (fork_server_init fs needs dev window ⟨k, []⟩).fs
      (fork_server_init fs needs dev window ⟨k, []⟩).world.trace := by
  rcases fork_server_init_cases fs needs dev window k with
    ⟨_, hs, _⟩ | ⟨w2, pid, _, hs, _, hw, _, _⟩
  · unfold in_flight_inv
    rw [inv_setup c _ _ hs]
    exact ⟨rfl, Nat.zero_le _, fun _ => rfl⟩
  · rw [hw]
    apply inv_handshake
    unfold in_flight_inv
    rw [inv_setup c _ _ hs]
    exact ⟨rfl, Nat.zero_le _, fun _ => rfl⟩

theorem get_pending_status_new (c : Consts) (fs : forkserver_t) (wait : Int) (w : World) :
    ∃ new, (fork_server_get_pending_status c fs wait w).2.2.trace = w.trace ++ new ∧
      ∀ e ∈ new, e.is_write = false := by
  unfold fork_server_get_pending_status
  dsimp only
  split_ifs
  · exact ⟨[], by simp, by simp⟩
  · rw [read_response_world]
    exact ⟨[_], rfl, by simp [Event.is_write]⟩
  · rw [read_response_world]
    exact ⟨[_, _], by simp; exact ⟨rfl, rfl⟩, by simp [Event.is_write]⟩
  · exact ⟨[_], rfl, by simp [Event.is_write]⟩

/-- Claim C8: `fork_server_get_status` writes the `GET_STATUS` command byte exactly
when `sent_get_status` is 0; and for every sequence of driver operations on a
handle that `fork_server_init` has initialised, the `GET_STATUS` byte is
successfully written at most once between two consecutive successful `FORK`
or `FORK_RUN` sends. -/
theorem at_most_one_get_status_in_flight (c : Consts) (hd : c.distinct_commands)
    (he : c.FORKSERVER_ERROR ≠ 0)
    (fs0 : forkserver_t) (needs_stdin_fd dev_null_fd : Int) (window : Nat) (k : Kernel)
    (ops : List Op) (fs : forkserver_t) (wait : Int) (w : World) :
    ((∃ r, ⟨.write fs.fuzzer_to_forksrv c.GET_STATUS 1, r⟩ ∈
        new_events w (fork_server_get_status c fs wait w).2.2) ↔ fs.sent_get_status = 0) ∧
    at_most_one_in_flight c
      (driver_run c ops (fork_server_init fs0 needs_stdin_fd dev_null_fd window ⟨k, []⟩).fs
        (fork_server_init fs0 needs_stdin_fd dev_null_fd window ⟨k, []⟩).world).2.trace = true := by
  refine ⟨⟨?_, ?_⟩, ?_⟩
  · rintro ⟨r, hr⟩
    by_contra h0
    have hcall : fork_server_get_status c fs wait w =
        fork_server_get_pending_status c fs wait w := by
      unfold fork_server_get_status
      simp [h0]
    rw [hcall] at hr
    obtain ⟨new, hn, hall⟩ := get_pending_status_new c fs wait w
    rw [new_events, hn, List.drop_left] at hr
    have := hall _ hr
    simp [Event.is_write] at this
  · intro h0
    refine ⟨(sys w (.write fs.fuzzer_to_forksrv c.GET_STATUS 1)).1, ?_⟩
    unfold fork_server_get_status
    simp only [h0, if_true]
    split_ifs
    · rw [send_command_world, new_events, sys_trace, List.drop_left]
      simp
    · obtain ⟨new, hn, _⟩ := get_pending_status_new c
        { fs with sent_get_status := 1, last_status := -1 } wait
        (send_command c fs c.GET_STATUS w).2
      rw [new_events, hn, send_command_world, sys_trace, List.append_assoc, List.drop_left]
      simp
  · exact (inv_driver_run c hd he ops _ _
      (inv_fork_server_init c fs0 needs_stdin_fd dev_null_fd window k)).1

/-- A driver session against a live server: two iterations with repeated status
queries of both kinds. -/
theorem at_most_one_get_status_in_flight_witness :
    sample_consts.distinct_commands ∧ sample_consts.FORKSERVER_ERROR ≠ 0 ∧
    (fork_server_init sample_handle 0 (-1) 3 ⟨live_server_kernel sample_consts, []⟩).outcome
      = .up ∧
    at_most_one_in_flight sample_consts
      (driver_run sample_consts
        [.fork, .get_status 0, .run, .get_status 0, .get_status 1, .fork_run, .get_status 1]
        (fork_server_init sample_handle 0 (-1) 3 ⟨live_server_kernel sample_consts, []⟩).fs
        (fork_server_init sample_handle 0 (-1) 3
          ⟨live_server_kernel sample_consts, []⟩).world).2.trace = true :=
  ⟨by decide, by decide, by decide,
    (at_most_one_get_status_in_flight sample_consts (by decide) (by decide) sample_handle 0 (-1) 3
      (live_server_kernel sample_consts)
      [.fork, .get_status 0, .run, .get_status 0, .get_status 1, .fork_run, .get_status 1]
      sample_handle 0 ⟨failing_kernel, []⟩).2⟩
theorem server_switch_effect (c : Consts) (t0 t1 cmd r p pid : Int) (a b : Nat)
    (hpid : 0 < pid) (r1 p1 : Int) (w : World)
    (h : switch_command c t0 t1 cmd r p ⟨server_side_kernel pid, []⟩ = .fallout r1 p1 w) :
    (gate_messages t1 w.trace = [] ∧ forked_children cmd a b w.trace = [⟨pid, cmd, a, b⟩]) ∨
    (gate_messages t1 w.trace = [0] ∧ forked_children cmd a b w.trace = []) ∨
    (gate_messages t1 w.trace = [] ∧ forked_children cmd a b w.trace = []) := by
  have h1 : ¬ pid < 0 := not_lt.mpr (le_of_lt hpid)
  have h2 : ¬ pid = 0 := ne_of_gt hpid
  simp only [switch_command, sys, server_side_kernel, h1, h2, if_false, List.nil_append,
    ne_eq, Nat.cast_ofNat, not_true_eq_false] at h
  split_ifs at h <;> cases h
  · left; simp [gate_messages, forked_children]
  · right; left; simp [gate_messages, forked_children]
  · right; right; simp [gate_messages, forked_children]
  · right; right; simp [gate_messages, forked_children]

theorem child_switch_effect (c : Consts) (t0 t1 cmd : Int) (gate : List Int)
    (o : Outcome) (w : World)
    (h : switch_command c t0 t1 cmd 0 0 ⟨child_side_kernel t0 gate, []⟩ = .leave o w) :
    (o = .returned →
      (cmd = c.FORK → gate ≠ [] ∧ w.trace.countP Event.is_full_read = 1) ∧
      (cmd ≠ c.FORK → w.trace.countP Event.is_full_read = 0)) ∧
    (o ≠ .returned → w.trace.countP Event.is_full_read = 0) := by
  cases gate with
  | nil =>
    simp only [switch_command, sys, child_side_kernel, if_false, List.nil_append,
      ne_eq, lt_self_iff_false, if_true, and_self, List.cons_append,
      show ¬ ((0 : Int) = 4) by decide, not_false_eq_true] at h
    split_ifs at h <;> cases h <;>
      simp_all [Event.is_full_read, List.countP_cons]
  | cons m rest =>
    simp only [switch_command, sys, child_side_kernel, if_false, List.nil_append,
      ne_eq, lt_self_iff_false, if_true, and_self, List.cons_append,
      not_true_eq_false] at h
    split_ifs at h <;> cases h <;>
      simp_all [Event.is_full_read, List.countP_cons]
theorem gate_inv_start (c : Consts) (t0 t1 uninit : Int) :
    gate_inv c (gate_start t0 t1 uninit) := by
  simp [gate_inv, gate_start, released_by_gate]

theorem gate_inv_step (c : Consts) (s s1 : GateSystem) (a : Action)
    (hs : gate_inv c s) (h : gate_step c s a = some s1) : gate_inv c s1 := by
  obtain ⟨i1, i2, i3⟩ := hs
  cases a with
  | server command pid =>
    simp only [gate_step] at h
    split_ifs at h with hcond
    simp only [not_or, not_le] at hcond
    split at h
    · cases h
      exact ⟨i1, i2, i3⟩
    · rename_i r1 p1 w heq
      cases h
      rcases server_switch_effect c s.t0 s.t1 command s.response s.child_pid pid
        s.runs s.gate.length hcond.2 r1 p1 w heq with ⟨hg, hf⟩ | ⟨hg, hf⟩ | ⟨hg, hf⟩
      · rw [hg, hf]
        refine ⟨by simpa [released_by_gate] using i1, ?_, i3⟩
        intro ch hch hz
        simp only [List.mem_append, List.mem_singleton] at hch
        rcases hch with hch | hch
        · exact i2 ch hch hz
        · subst hch
          simp only at hz
          simp only [released_by_gate] at i1 ⊢
          omega
      · rw [hg, hf]
        refine ⟨?_, by simpa [released_by_gate] using i2, i3⟩
        simp only [released_by_gate, List.length_append, List.length_singleton] at i1 ⊢
        omega
      · rw [hg, hf]
        exact ⟨by simpa [released_by_gate] using i1, by simpa [released_by_gate] using i2, i3⟩
  | child i =>
    simp only [gate_step] at h
    split at h
    · cases h
    · rename_i ch hget
      have hmem : ch ∈ s.pending := List.getElem?_mem hget
      split_ifs at h with hblocked
      split at h
      · rename_i w heq
        cases h
        have heff := (child_switch_effect c s.t0 s.t1 ch.command s.gate _ w heq).1 rfl
        by_cases hF : ch.command = c.FORK
        · obtain ⟨hne, hcnt⟩ := heff.1 hF
          have hlen : 0 < s.gate.length := List.length_pos.mpr hne
          have hrel : released_by_gate c
              { s with
                gate := s.gate.drop (w.trace.countP Event.is_full_read)
                pending := s.pending.eraseIdx i
                released := s.released ++ [(ch, s.runs)] } = released_by_gate c s + 1 := by
            simp [released_by_gate, List.filter_append, hF]
          refine ⟨?_, ?_, ?_⟩
          · rw [hrel]
            simp only [hcnt, List.length_drop]
            omega
          · intro ch1 hch1 hz
            rw [hrel]
            exact Nat.le_succ_of_le (i2 ch1 (List.mem_of_mem_eraseIdx hch1) hz)
          · intro r hr h1 h2
            simp only [List.mem_append, List.mem_singleton] at hr
            rcases hr with hr | hr
            · exact i3 r hr h1 h2
            · subst hr
              have := i2 ch hmem h2
              simp only
              omega
        · have hcnt := heff.2 hF
          have hrel : released_by_gate c
              { s with
                gate := s.gate.drop (w.trace.countP Event.is_full_read)
                pending := s.pending.eraseIdx i
                released := s.released ++ [(ch, s.runs)] } = released_by_gate c s := by
            simp [released_by_gate, List.filter_append, hF]
          refine ⟨?_, ?_, ?_⟩
          · rw [hrel]
            simpa [hcnt] using i1
          · intro ch1 hch1 hz
            rw [hrel]
            exact i2 ch1 (List.mem_of_mem_eraseIdx hch1) hz
          · intro r hr h1 h2
            simp only [List.mem_append, List.mem_singleton] at hr
            rcases hr with hr | hr
            · exact i3 r hr h1 h2
            · subst hr
              exact absurd h1 hF
      · rename_i o w hne heq
        cases h
        have hcnt := (child_switch_effect c s.t0 s.t1 ch.command s.gate o w heq).2 hne
        refine ⟨by simpa [hcnt, released_by_gate] using i1, ?_, i3⟩
        intro ch1 hch1 hz
        exact i2 ch1 (List.mem_of_mem_eraseIdx hch1) hz
      · cases h

theorem gate_inv_run (c : Consts) :
    ∀ (acts : List Action) (s s1 : GateSystem), gate_inv c s →
      gate_run c s acts = some s1 → gate_inv c s1 := by
  intro acts
  induction acts with
  | nil =>
    intro s s1 hs h
    simp only [gate_run, Option.some.injEq] at h
    exact h ▸ hs
  | cons a rest ih =>
    intro s s1 hs h
    simp only [gate_run] at h
    split at h
    · cases h
    · rename_i s2 hstep
      exact ih s2 s1 (gate_inv_step c s s2 a hs hstep) h

/-- Claim C5, as amended: for every schedule of the server's commands and its
children, a child created by `FORK` while the gate pipe was empty has
returned from `forkserver_init` to user code only after the server processed
a `RUN` command it received after that `FORK`; and every message a `RUN` put
into the gate is either still in the pipe or was consumed by exactly one
released `FORK` child, each such child consuming exactly one. -/
theorem gate_holds_child_until_run (c : Consts) (t0 t1 uninit : Int) (acts : List Action)
    (s : GateSystem) (h : gate_run c (gate_start t0 t1 uninit) acts = some s) :
    (∀ r ∈ s.released, r.1.command = c.FORK → r.1.gate_at_fork = 0 → r.1.forked_at < r.2) ∧
    s.gate.length + released_by_gate c s = s.runs := by
  have := gate_inv_run c acts _ s (gate_inv_start c t0 t1 uninit) h
  exact ⟨this.2.2, this.1⟩

/-- Two children created by `FORK` at an empty gate, one `RUN`, and the second
child released by it. -/
theorem gate_holds_child_until_run_witness :
    gate_run sample_consts (gate_start 3 4 0)
      [.server 1 1000, .server 1 1001, .server 3 1, .child 1] =
      some ⟨3, 4, true, 0, 1001, [], 1, [⟨1000, 1, 0, 0⟩], [(⟨1001, 1, 0, 0⟩, 1)]⟩ ∧
    (∀ r ∈ [((⟨1001, 1, 0, 0⟩ : Child), 1)],
      r.1.command = sample_consts.FORK → r.1.gate_at_fork = 0 → r.1.forked_at < r.2) :=
  ⟨by decide,
    (gate_holds_child_until_run sample_consts 3 4 0
      [.server 1 1000, .server 1 1001, .server 3 1, .child 1]
      ⟨3, 4, true, 0, 1001, [], 1, [⟨1000, 1, 0, 0⟩], [(⟨1001, 1, 0, 0⟩, 1)]⟩ (by decide)).1⟩

/-- Claim C5, as stated, fails: the server accepts `RUN` and then `FORK`; the
message of the earlier `RUN` is still in the gate pipe, so the child created
by the `FORK` reads it and returns to user code although the server has
processed no `RUN` since that `FORK` (one before the fork, one at the
release). -/
theorem stale_run_opens_gate :
    gate_run sample_consts (gate_start 3 4 0)
      [.server sample_consts.RUN 1, .server sample_consts.FORK 1000, .child 0] =
      some ⟨3, 4, true, 1000, 1000, [], 1, [],
        [(⟨1000, sample_consts.FORK, 1, 1⟩, 1)]⟩ := by
  decide

/-! ### Server termination codes -/

theorem switch_command_server (c : Consts) (t0 t1 cmd r p : Int) (w : World)
    (hne : (sys w .fork).1.ret ≠ 0) :
    switch_command c t0 t1 cmd r p w =
      if cmd = c.EXIT then .leave (.exited 0) w
      else if cmd = c.FORK ∨ cmd = c.FORK_RUN then
        if (sys w .fork).1.ret < 0 then .leave (.exited 1) (sys w .fork).2
        else .fallout (sys w .fork).1.ret (sys w .fork).1.ret (sys w .fork).2
      else if cmd = c.RUN then
        if (sys w (.write t1 0 4)).1.ret ≠ 4 then .leave (.exited 1) (sys w (.write t1 0 4)).2
        else .fallout 0 p (sys w (.write t1 0 4)).2
      else if cmd = c.GET_STATUS then
        if (sys w (.waitpid p)).1.ret < 0 then .leave (.exited 1) (sys w (.waitpid p)).2
        else .fallout (sys w (.waitpid p)).1.val p (sys w (.waitpid p)).2
      else .fallout r p w := by
  unfold switch_command
  simp only [hne, if_false]

theorem ends_as_prepend (c : Consts) (t1 : Int) (o : Outcome) (pre0 new : List Event)
    (hq : ∀ e ∈ pre0, e.is_quiet c t1 = true) (h : ends_as c t1 o new) :
    ends_as c t1 o (pre0 ++ new) := by
  rcases h with ⟨ho, hall⟩ | ⟨ho, pre, e, hnew, hpre, h1, h2⟩ | ⟨ho, pre, e, hnew, hpre, h1, h2⟩
  · left
    refine ⟨ho, ?_⟩
    intro e he
    rcases List.mem_append.mp he with he | he
    · exact hq e he
    · exact hall e he
  · right; left
    refine ⟨ho, pre0 ++ pre, e, by simp [hnew], ?_, h1, h2⟩
    intro x hx
    rcases List.mem_append.mp hx with hx | hx
    · exact hq x hx
    · exact hpre x hx
  · right; right
    refine ⟨ho, pre0 ++ pre, e, by simp [hnew], ?_, h1, h2⟩
    intro x hx
    rcases List.mem_append.mp hx with hx | hx
    · exact hq x hx
    · exact hpre x hx

theorem ends_as_failure (c : Consts) (t1 : Int) (pre : List Event) (e : Event)
    (hq : ∀ x ∈ pre, x.is_quiet c t1 = true)
    (h1 : e.is_server_failure c t1 = true) (h2 : e.is_exit_read c = false) :
    ends_as c t1 (.exited 1) (pre ++ [e]) :=
  Or.inr (Or.inr ⟨rfl, pre, e, rfl, hq, h1, h2⟩)

theorem server_loop_ends (c : Consts) (t0 t1 : Int) :
    ∀ (fuel : Nat) (r p : Int) (w : World), (∀ h, (w.kernel h .fork).ret ≠ 0) →
      ∃ new, (server_loop c t0 t1 fuel r p w).2.trace = w.trace ++ new ∧
        ends_as c t1 (server_loop c t0 t1 fuel r p w).1 new := by
  intro fuel
  induction fuel with
  | zero =>
    intro r p w _
    exact ⟨[], by simp [server_loop], Or.inl ⟨rfl, by simp⟩⟩
  | succ n ih =>
    intro r p w hk
    rw [server_loop]
    dsimp only
    generalize hrdw : sys w (.read c.FUZZER_TO_FORKSRV 1) = rd
    have hrt : rd.2.trace = w.trace ++ [⟨.read c.FUZZER_TO_FORKSRV 1, rd.1⟩] := by
      rw [← hrdw]; rfl
    have hrk : rd.2.kernel = w.kernel := by rw [← hrdw]; rfl
    by_cases hr1 : rd.1.ret = 1
    swap
    · rw [if_pos hr1]
      refine ⟨[⟨.read c.FUZZER_TO_FORKSRV 1, rd.1⟩], hrt, ?_⟩
      exact ends_as_failure c t1 [] _ (by simp)
        (by simp [Event.is_server_failure, hr1])
        (by simp [Event.is_exit_read, hr1])
    rw [if_neg (not_not.mpr hr1)]
    rw [switch_command_server c t0 t1 _ r p _ (by rw [sys_reply, hrk]; exact hk _)]
    by_cases hE : rd.1.val = c.EXIT
    · rw [if_pos hE]
      dsimp only
      refine ⟨[⟨.read c.FUZZER_TO_FORKSRV 1, rd.1⟩], hrt, Or.inr (Or.inl
        ⟨rfl, [], _, rfl, by simp, ?_, ?_⟩)⟩
      · simp [Event.is_exit_read, Event.is_command_read, hr1, hE]
      · simp [Event.is_server_failure, hr1]
    have hrq : ∀ x ∈ [(⟨.read c.FUZZER_TO_FORKSRV 1, rd.1⟩ : Event)],
        x.is_quiet c t1 = true := by
      intro x hx
      simp only [List.mem_singleton] at hx
      subst hx
      simp [Event.is_quiet, Event.is_exit_read, Event.is_server_failure, hr1, hE]
    rw [if_neg hE]
    -- the common tail: write the response and loop
    have tail : ∀ (r1 p1 : Int) (w1 : World) (mid : List Event),
        w1.kernel = w.kernel → w1.trace = rd.2.trace ++ mid →
        (∀ x ∈ mid, x.is_quiet c t1 = true) →
        ∃ new,
          (if (sys w1 (.write c.FORKSRV_TO_FUZZER r1 4)).1.ret ≠ 4 then
              ((Outcome.exited 1), (sys w1 (.write c.FORKSRV_TO_FUZZER r1 4)).2)
            else server_loop c t0 t1 n r1 p1 (sys w1 (.write c.FORKSRV_TO_FUZZER r1 4)).2).2.trace
            = w.trace ++ new ∧
          ends_as c t1
            (if (sys w1 (.write c.FORKSRV_TO_FUZZER r1 4)).1.ret ≠ 4 then
              ((Outcome.exited 1), (sys w1 (.write c.FORKSRV_TO_FUZZER r1 4)).2)
            else server_loop c t0 t1 n r1 p1 (sys w1 (.write c.FORKSRV_TO_FUZZER r1 4)).2).1
            new := by
      intro r1 p1 w1 mid hk1 ht1 hmid
      generalize hwv : sys w1 (.write c.FORKSRV_TO_FUZZER r1 4) = wr
      have hwt : wr.2.trace = w1.trace ++ [⟨.write c.FORKSRV_TO_FUZZER r1 4, wr.1⟩] := by
        rw [← hwv]; rfl
      have hwk : wr.2.kernel = w1.kernel := by rw [← hwv]; rfl
      have hpre : ∀ x ∈ (⟨.read c.FUZZER_TO_FORKSRV 1, rd.1⟩ : Event) :: mid,
          x.is_quiet c t1 = true := by
        intro x hx
        rcases List.mem_cons.mp hx with hx | hx
        · exact hrq x (by simp [hx])
        · exact hmid x hx
      by_cases hw4 : wr.1.ret = 4
      · rw [if_neg (not_not.mpr hw4)]
        obtain ⟨new, hn, he⟩ := ih r1 p1 wr.2 (by rw [hwk, hk1]; exact hk)
        refine ⟨((⟨.read c.FUZZER_TO_FORKSRV 1, rd.1⟩ : Event) :: mid ++
          [⟨.write c.FORKSRV_TO_FUZZER r1 4, wr.1⟩]) ++ new, ?_, ?_⟩
        · rw [hn, hwt, ht1, hrt]; simp
        · apply ends_as_prepend c t1 _ _ _ _ he
          intro x hx
          rcases List.mem_append.mp hx with hx | hx
          · exact hpre x hx
          · simp only [List.mem_singleton] at hx
            subst hx
            simp [Event.is_quiet, Event.is_exit_read, Event.is_command_read,
              Event.is_server_failure, hw4]
      · rw [if_pos hw4]
        refine ⟨((⟨.read c.FUZZER_TO_FORKSRV 1, rd.1⟩ : Event) :: mid) ++
          [⟨.write c.FORKSRV_TO_FUZZER r1 4, wr.1⟩], ?_, ?_⟩
        · rw [hwt, ht1, hrt]; simp
        · exact ends_as_failure c t1 _ _ hpre
            (by simp [Event.is_server_failure, hw4])
            (by simp [Event.is_exit_read, Event.is_command_read])
    -- one failing call inside the switch
    have fail1 : ∀ (call : Call) (rep : Reply) (w1 : World),
        w1.trace = rd.2.trace ++ [⟨call, rep⟩] →
        Event.is_server_failure c t1 ⟨call, rep⟩ = true →
        Event.is_exit_read c ⟨call, rep⟩ = false →
        ∃ new, w1.trace = w.trace ++ new ∧ ends_as c t1 (.exited 1) new := by
      intro call rep w1 ht1 hf he
      refine ⟨[⟨.read c.FUZZER_TO_FORKSRV 1, rd.1⟩] ++ [⟨call, rep⟩], ?_, ?_⟩
      · rw [ht1, hrt]; simp
      · exact ends_as_failure c t1 _ _ hrq hf he
    by_cases hF : rd.1.val = c.FORK ∨ rd.1.val = c.FORK_RUN
    · rw [if_pos hF]
      generalize hfk : sys rd.2 .fork = fk
      have hft : fk.2.trace = rd.2.trace ++ [⟨.fork, fk.1⟩] := by rw [← hfk]; rfl
      have hfkk : fk.2.kernel = w.kernel := by rw [← hfk]; exact hrk
      by_cases hneg : fk.1.ret < 0
      · rw [if_pos hneg]
        exact fail1 .fork _ _ hft (by simp [Event.is_server_failure, hneg])
          (by simp [Event.is_exit_read, Event.is_command_read])
      · rw [if_neg hneg]
        exact tail _ _ _ [⟨.fork, fk.1⟩] hfkk hft (by
          intro x hx
          simp only [List.mem_singleton] at hx
          subst hx
          simp [Event.is_quiet, Event.is_exit_read, Event.is_command_read,
            Event.is_server_failure, not_lt.mp hneg])
    rw [if_neg hF]
    by_cases hR : rd.1.val = c.RUN
    · rw [if_pos hR]
      generalize hgw : sys rd.2 (.write t1 0 4) = gw
      have hgt : gw.2.trace = rd.2.trace ++ [⟨.write t1 0 4, gw.1⟩] := by rw [← hgw]; rfl
      have hgk : gw.2.kernel = w.kernel := by rw [← hgw]; exact hrk
      by_cases hg : gw.1.ret = 4
      · rw [if_neg (not_not.mpr hg)]
        exact tail _ _ _ [⟨.write t1 0 4, gw.1⟩] hgk hgt (by
          intro x hx
          simp only [List.mem_singleton] at hx
          subst hx
          simp [Event.is_quiet, Event.is_exit_read, Event.is_command_read,
            Event.is_server_failure, hg])
      · rw [if_pos hg]
        exact fail1 (.write t1 0 4) _ _ hgt (by simp [Event.is_server_failure, hg])
          (by simp [Event.is_exit_read, Event.is_command_read])
    rw [if_neg hR]
    by_cases hG : rd.1.val = c.GET_STATUS
    · rw [if_pos hG]
      generalize hwp : sys rd.2 (.waitpid p) = wp
      have hwpt : wp.2.trace = rd.2.trace ++ [⟨.waitpid p, wp.1⟩] := by rw [← hwp]; rfl
      have hwpk : wp.2.kernel = w.kernel := by rw [← hwp]; exact hrk
      by_cases hneg : wp.1.ret < 0
      · rw [if_pos hneg]
        exact fail1 (.waitpid p) _ _ hwpt (by simp [Event.is_server_failure, hneg])
          (by simp [Event.is_exit_read, Event.is_command_read])
      · rw [if_neg hneg]
        exact tail _ _ _ [⟨.waitpid p, wp.1⟩] hwpk hwpt (by
          intro x hx
          simp only [List.mem_singleton] at hx
          subst hx
          simp [Event.is_quiet, Event.is_exit_read, Event.is_command_read,
            Event.is_server_failure, not_lt.mp hneg])
    rw [if_neg hG]
    exact tail _ _ _ [] hrk (by simp) (by simp)

theorem ends_as_facts (c : Consts) (t1 : Int) (o : Outcome) (tr : List Event)
    (h : ends_as c t1 o tr) :
    o ≠ .returned ∧
    (o = .exited 0 ↔ ∃ e ∈ tr, e.is_exit_read c = true) ∧
    (o = .exited 1 ↔ ∃ e ∈ tr, e.is_server_failure c t1 = true) ∧
    (∀ code, o = .exited code → code = 0 ∨ code = 1) := by
  have quiet_exit : ∀ x : Event, x.is_quiet c t1 = true → x.is_exit_read c = false := by
    intro x hx
    simp only [Event.is_quiet, Bool.and_eq_true, Bool.not_eq_true'] at hx
    exact hx.1
  have quiet_fail : ∀ x : Event, x.is_quiet c t1 = true → x.is_server_failure c t1 = false := by
    intro x hx
    simp only [Event.is_quiet, Bool.and_eq_true, Bool.not_eq_true'] at hx
    exact hx.2
  rcases h with ⟨ho, hall⟩ | ⟨ho, pre, e, hnew, hpre, h1, h2⟩ | ⟨ho, pre, e, hnew, hpre, h1, h2⟩
  · subst ho
    refine ⟨by simp, ⟨by simp, ?_⟩, ⟨by simp, ?_⟩, by simp⟩
    · rintro ⟨e, he, hx⟩
      rw [quiet_exit e (hall e he)] at hx
      exact absurd hx (by simp)
    · rintro ⟨e, he, hx⟩
      rw [quiet_fail e (hall e he)] at hx
      exact absurd hx (by simp)
  · subst ho hnew
    refine ⟨by simp, ⟨fun _ => ⟨e, by simp, h1⟩, fun _ => rfl⟩, ⟨by simp, ?_⟩, ?_⟩
    · rintro ⟨x, hx, hf⟩
      rcases List.mem_append.mp hx with hx | hx
      · rw [quiet_fail x (hpre x hx)] at hf
        exact absurd hf (by simp)
      · simp only [List.mem_singleton] at hx
        subst hx
        rw [h2] at hf
        exact absurd hf (by simp)
    · intro code hc
      left
      injection hc with hc
      exact hc.symm
  · subst ho hnew
    refine ⟨by simp, ⟨by simp, ?_⟩, ⟨fun _ => ⟨e, by simp, h1⟩, fun _ => rfl⟩, ?_⟩
    · rintro ⟨x, hx, hf⟩
      rcases List.mem_append.mp hx with hx | hx
      · rw [quiet_exit x (hpre x hx)] at hf
        exact absurd hf (by simp)
      · simp only [List.mem_singleton] at hx
        subst hx
        rw [h2] at hf
        exact absurd hf (by simp)
    · intro code hc
      right
      injection hc with hc
      exact hc.symm

/-- Claim C12: once the hello write has succeeded, `forkserver_init` never returns
in the server process (the side of every `fork()` that does not get 0); the
process exits with code 0 exactly when it has read the `EXIT` command, with
code 1 exactly when one of these has failed: creating the gate pipe, reading
one command byte, `fork()`, writing 4 bytes to the gate on `RUN`, `waitpid`
on `GET_STATUS`, writing the 4-byte response to the status pipe; and it exits
with no other code. -/
theorem server_termination_codes (c : Consts) (k : Kernel) (uninit : Int) (fuel : Nat)
    (hhello : (k [] (.write c.FORKSRV_TO_FUZZER 0x41414141 4)).ret = 4)
    (hparent : ∀ h, (k h .fork).ret ≠ 0) :
    (forkserver_init c uninit fuel ⟨k, []⟩).outcome ≠ .returned ∧
    ((forkserver_init c uninit fuel ⟨k, []⟩).outcome = .exited 0 ↔
      ∃ e ∈ (forkserver_init c uninit fuel ⟨k, []⟩).world.trace, e.is_exit_read c = true) ∧
    ((forkserver_init c uninit fuel ⟨k, []⟩).outcome = .exited 1 ↔
      ∃ e ∈ (forkserver_init c uninit fuel ⟨k, []⟩).world.trace,
        e.is_server_failure c
          (k [⟨.write c.FORKSRV_TO_FUZZER 0x41414141 4,
            k [] (.write c.FORKSRV_TO_FUZZER 0x41414141 4)⟩] .pipe).val2 = true) ∧
    (∀ code, (forkserver_init c uninit fuel ⟨k, []⟩).outcome = .exited code →
      code = 0 ∨ code = 1) := by
  apply ends_as_facts
  generalize ht1 : (k [⟨.write c.FORKSRV_TO_FUZZER 0x41414141 4,
    k [] (.write c.FORKSRV_TO_FUZZER 0x41414141 4)⟩] .pipe).val2 = t1
  unfold forkserver_init
  dsimp only
  generalize hh : sys ⟨k, []⟩ (.write c.FORKSRV_TO_FUZZER 0x41414141 4) = hello
  have hht : hello.2.trace = [⟨.write c.FORKSRV_TO_FUZZER 0x41414141 4, hello.1⟩] := by
    rw [← hh]; rfl
  have hhk : hello.2.kernel = k := by rw [← hh]; rfl
  have hh4 : hello.1.ret = 4 := by rw [← hh]; exact hhello
  rw [if_neg (not_not.mpr hh4)]
  generalize hp : sys hello.2 .pipe = pp
  have hpt : pp.2.trace = hello.2.trace ++ [⟨.pipe, pp.1⟩] := by rw [← hp]; rfl
  have hpk : pp.2.kernel = k := by rw [← hp]; exact hhk
  have hpv : pp.1.val2 = t1 := by
    rw [← ht1, ← hp, sys_reply, hhk, hht, ← hh]
    rfl
  subst hpv
  have hq : Event.is_quiet c pp.1.val2 ⟨.write c.FORKSRV_TO_FUZZER 0x41414141 4, hello.1⟩ = true := by
    simp [Event.is_quiet, Event.is_exit_read, Event.is_command_read, Event.is_server_failure,
      hh4]
  by_cases hp0 : pp.1.ret = 0
  · rw [if_neg (not_not.mpr hp0)]
    dsimp only
    obtain ⟨new, hn, he⟩ := server_loop_ends c pp.1.val pp.1.val2 fuel 0x41414141 uninit pp.2
      (by rw [hpk]; exact hparent)
    rw [hn, hpt, hht]
    have := ends_as_prepend c pp.1.val2 _
      [⟨.write c.FORKSRV_TO_FUZZER 0x41414141 4, hello.1⟩, ⟨.pipe, pp.1⟩] new (by
        intro x hx
        simp only [List.mem_cons, List.mem_singleton, List.not_mem_nil, or_false] at hx
        rcases hx with hx | hx
        · subst hx; exact hq
        · subst hx
          simp [Event.is_quiet, Event.is_exit_read, Event.is_command_read,
            Event.is_server_failure, hp0]) he
    simpa using this
  · rw [if_pos hp0]
    dsimp only
    rw [hpt, hht]
    exact ends_as_failure c pp.1.val2 [_] _ (by
        intro x hx
        simp only [List.mem_singleton] at hx
        subst hx; exact hq)
      (by simp [Event.is_server_failure, hp0])
      (by simp [Event.is_exit_read, Event.is_command_read])

/-- A server that is told to fork, to run and then to exit ends with code 0. -/
theorem server_termination_codes_witness :
    (scripted_kernel sample_consts [1, 3] []
      (.write sample_consts.FORKSRV_TO_FUZZER 0x41414141 4)).ret = 4 ∧
    (∀ h, (scripted_kernel sample_consts [1, 3] h .fork).ret ≠ 0) ∧
    (forkserver_init sample_consts 0 5 ⟨scripted_kernel sample_consts [1, 3], []⟩).outcome =
      .exited 0 ∧
    ∃ e ∈ (forkserver_init sample_consts 0 5
        ⟨scripted_kernel sample_consts [1, 3], []⟩).world.trace,
      e.is_exit_read sample_consts = true :=
  ⟨by decide, fun h => ne_of_gt ((scripted_kernel_succeeds [1, 3]).2.2.1 h), by decide,
    (server_termination_codes sample_consts (scripted_kernel sample_consts [1, 3]) 0 5
      (by decide) (fun h => ne_of_gt ((scripted_kernel_succeeds [1, 3]).2.2.1 h))).2.1.1
      (by decide)⟩

/-! ### Unrecognised command bytes -/

theorem echoes_nil (c : Consts) (o : Outcome) (last : Option Int) :
    echoes c o last false false [] = true := by
  simp [echoes]

theorem echoes_child_calls (c : Consts) (o : Outcome) (last : Option Int) :
    ∀ (mid : List Event), (∀ e ∈ mid, e.is_child_call = true) →
      echoes c o last false false mid = true := by
  intro mid
  induction mid with
  | nil => intro _; exact echoes_nil c o last
  | cons e es ih =>
    intro h
    have he := h e (by simp)
    have hes := ih (fun x hx => h x (List.mem_cons_of_mem _ hx))
    cases e with
    | mk call reply =>
      cases call <;> simp_all [Event.is_child_call, echoes]

theorem switch_command_child (c : Consts) (t0 t1 cmd r p : Int) (w : World)
    (h0 : (sys w .fork).1.ret = 0) (hE : cmd ≠ c.EXIT)
    (hF : cmd = c.FORK ∨ cmd = c.FORK_RUN) :
    ∃ o w1 mid, switch_command c t0 t1 cmd r p w = .leave o w1 ∧
      w1.trace = (sys w .fork).2.trace ++ mid ∧ ∀ e ∈ mid, e.is_child_call = true := by
  unfold switch_command
  rw [if_neg hE, if_pos hF]
  dsimp only
  rw [if_neg (by rw [h0]; decide), if_pos h0]
  split_ifs
  · exact ⟨_, _, [_, _, _, _], rfl, by simp; exact ⟨rfl, rfl, rfl, rfl⟩, by
      simp [Event.is_child_call]⟩
  · exact ⟨_, _, [_, _, _, _, _], rfl, by simp; exact ⟨rfl, rfl, rfl, rfl, rfl⟩, by
      simp [Event.is_child_call]⟩
  · exact ⟨_, _, [_, _, _, _], rfl, by simp; exact ⟨rfl, rfl, rfl, rfl⟩, by
      simp [Event.is_child_call]⟩

theorem switch_command_leaves_ended (c : Consts) (t0 t1 cmd r p : Int) (w : World)
    (o : Outcome) (w1 : World) (h : switch_command c t0 t1 cmd r p w = .leave o w1) :
    o ≠ .running := by
  simp only [switch_command] at h
  split_ifs at h <;> cases h <;> decide

theorem server_loop_iteration (c : Consts) (t0 t1 r p : Int) (w : World) :
    (∃ o w1, o ≠ .running ∧ ∀ m, server_loop c t0 t1 (m + 1) r p w = (o, w1)) ∨
    (∃ r1 p1 w1, ∀ m, server_loop c t0 t1 (m + 1) r p w = server_loop c t0 t1 m r1 p1 w1) := by
  by_cases hr1 : (sys w (.read c.FUZZER_TO_FORKSRV 1)).1.ret ≠ 1
  · refine Or.inl ⟨.exited 1, (sys w (.read c.FUZZER_TO_FORKSRV 1)).2, by decide, fun m => ?_⟩
    rw [server_loop]
    dsimp only
    rw [if_pos hr1]
  · cases hsw : switch_command c t0 t1 (sys w (.read c.FUZZER_TO_FORKSRV 1)).1.val r p
      (sys w (.read c.FUZZER_TO_FORKSRV 1)).2 with
    | leave o w1 =>
      refine Or.inl ⟨o, w1, switch_command_leaves_ended c t0 t1 _ r p _ o w1 hsw, fun m => ?_⟩
      rw [server_loop]
      dsimp only
      rw [if_neg hr1, hsw]
    | fallout r1 p1 w1 =>
      by_cases hw4 : (sys w1 (.write c.FORKSRV_TO_FUZZER r1 4)).1.ret ≠ 4
      · refine Or.inl ⟨.exited 1, (sys w1 (.write c.FORKSRV_TO_FUZZER r1 4)).2, by decide,
          fun m => ?_⟩
        rw [server_loop]
        dsimp only
        rw [if_neg hr1, hsw]
        dsimp only
        rw [if_pos hw4]
      · refine Or.inr ⟨r1, p1, (sys w1 (.write c.FORKSRV_TO_FUZZER r1 4)).2, fun m => ?_⟩
        rw [server_loop]
        dsimp only
        rw [if_neg hr1, hsw]
        dsimp only
        rw [if_neg hw4]

theorem server_loop_starts_with_read (c : Consts) (t0 t1 : Int) (n : Nat) (r p : Int)
    (w : World) :
    ∃ more, (server_loop c t0 t1 (n + 1) r p w).2.trace =
      w.trace ++ ⟨.read c.FUZZER_TO_FORKSRV 1, (sys w (.read c.FUZZER_TO_FORKSRV 1)).1⟩ ::
        more := by
  have key : ∀ w1 : World, (sys w (.read c.FUZZER_TO_FORKSRV 1)).2.evolves_to w1 →
      ∃ more, w1.trace =
        w.trace ++ ⟨.read c.FUZZER_TO_FORKSRV 1, (sys w (.read c.FUZZER_TO_FORKSRV 1)).1⟩ ::
          more := by
    intro w1 h
    obtain ⟨_, new, hn⟩ := h
    exact ⟨new, by rw [hn, sys_trace]; simp⟩
  apply key
  rw [server_loop]
  dsimp only
  split
  · exact evolves_refl _
  · split
    · rename_i o w1 heq
      exact (switch_command_evolves c t0 t1 _ r p _).1 o w1 heq
    · rename_i r1 p1 w1 heq
      have h1 := (switch_command_evolves c t0 t1 _ r p _).2 r1 p1 w1 heq
      split
      · exact evolves_sys h1 _
      · exact evolves_trans (evolves_sys h1 _) (server_loop_evolves c t0 t1 _ _ _ _)

theorem server_loop_continues (c : Consts) (t0 t1 : Int) :
    ∀ (n : Nat) (r p : Int) (w : World), (server_loop c t0 t1 n r p w).1 = .running →
      ∃ rd more, (server_loop c t0 t1 (n + 1) r p w).2.trace =
          (server_loop c t0 t1 n r p w).2.trace ++ rd :: more ∧
        rd.call = .read c.FUZZER_TO_FORKSRV 1 := by
  intro n
  induction n with
  | zero =>
    intro r p w _
    obtain ⟨more, hm⟩ := server_loop_starts_with_read c t0 t1 0 r p w
    exact ⟨⟨.read c.FUZZER_TO_FORKSRV 1, (sys w (.read c.FUZZER_TO_FORKSRV 1)).1⟩, more,
      by rw [hm]; simp [server_loop], rfl⟩
  | succ n ih =>
    intro r p w hrun
    rcases server_loop_iteration c t0 t1 r p w with ⟨o, w1, ho, hall⟩ | ⟨r1, p1, w1, hall⟩
    · rw [hall n] at hrun
      exact absurd hrun ho
    · rw [hall (n + 1), hall n]
      rw [hall n] at hrun
      exact ih r1 p1 w1 hrun

theorem server_loop_echoes (c : Consts) (t0 t1 : Int) :
    ∀ (fuel : Nat) (r p : Int) (w : World) (mr : Bool),
      ∃ new, (server_loop c t0 t1 fuel r p w).2.trace = w.trace ++ new ∧
        echoes c (server_loop c t0 t1 fuel r p w).1 (some r) false mr new = true := by
  intro fuel
  induction fuel with
  | zero =>
    intro r p w mr
    exact ⟨[], by simp [server_loop], by simp [server_loop, echoes]⟩
  | succ n ih =>
    intro r p w mr
    rw [server_loop]
    dsimp only
    generalize hrdw : sys w (.read c.FUZZER_TO_FORKSRV 1) = rd
    have hrt : rd.2.trace = w.trace ++ [⟨.read c.FUZZER_TO_FORKSRV 1, rd.1⟩] := by
      rw [← hrdw]; rfl
    by_cases hr1 : rd.1.ret = 1
    swap
    · rw [if_pos hr1]
      exact ⟨[⟨.read c.FUZZER_TO_FORKSRV 1, rd.1⟩], hrt, by simp [echoes, hr1]⟩
    rw [if_neg (not_not.mpr hr1)]
    -- the response write and the next iterations, after a recognised command
    have tail : ∀ (r1 p1 : Int) (w1 : World) (mid : List Event),
        w1.trace = rd.2.trace ++ mid →
        (∀ o rep rest, echoes c o (some r1) false false rest = true →
          echoes c o (some r) false mr
            ((⟨.read c.FUZZER_TO_FORKSRV 1, rd.1⟩ : Event) :: mid ++
              ⟨.write c.FORKSRV_TO_FUZZER r1 4, rep⟩ :: rest) = true) →
        ∃ new,
          (if (sys w1 (.write c.FORKSRV_TO_FUZZER r1 4)).1.ret ≠ 4 then
              ((Outcome.exited 1), (sys w1 (.write c.FORKSRV_TO_FUZZER r1 4)).2)
            else server_loop c t0 t1 n r1 p1 (sys w1 (.write c.FORKSRV_TO_FUZZER r1 4)).2).2.trace
            = w.trace ++ new ∧
          echoes c
            (if (sys w1 (.write c.FORKSRV_TO_FUZZER r1 4)).1.ret ≠ 4 then
              ((Outcome.exited 1), (sys w1 (.write c.FORKSRV_TO_FUZZER r1 4)).2)
            else server_loop c t0 t1 n r1 p1 (sys w1 (.write c.FORKSRV_TO_FUZZER r1 4)).2).1
            (some r) false mr new = true := by
      intro r1 p1 w1 mid ht1 hmid
      generalize hwv : sys w1 (.write c.FORKSRV_TO_FUZZER r1 4) = wr
      have hwt : wr.2.trace = w1.trace ++ [⟨.write c.FORKSRV_TO_FUZZER r1 4, wr.1⟩] := by
        rw [← hwv]; rfl
      by_cases hw4 : wr.1.ret = 4
      · rw [if_neg (not_not.mpr hw4)]
        obtain ⟨new, hn, he⟩ := ih r1 p1 wr.2 false
        refine ⟨(⟨.read c.FUZZER_TO_FORKSRV 1, rd.1⟩ : Event) :: mid ++
          (⟨.write c.FORKSRV_TO_FUZZER r1 4, wr.1⟩ :: new), ?_, ?_⟩
        · rw [hn, hwt, ht1, hrt]; simp
        · exact hmid _ wr.1 new he
      · rw [if_pos hw4]
        refine ⟨(⟨.read c.FUZZER_TO_FORKSRV 1, rd.1⟩ : Event) :: mid ++
          [⟨.write c.FORKSRV_TO_FUZZER r1 4, wr.1⟩], ?_, ?_⟩
        · rw [hwt, ht1, hrt]; simp
        · exact hmid _ wr.1 [] (echoes_nil c _ _)
    by_cases hE : rd.1.val = c.EXIT
    · unfold switch_command
      rw [if_pos hE]
      dsimp only
      exact ⟨[⟨.read c.FUZZER_TO_FORKSRV 1, rd.1⟩], hrt, by
        simp [echoes, unrecognised, hE]⟩
    by_cases hF : rd.1.val = c.FORK ∨ rd.1.val = c.FORK_RUN
    · have hun : unrecognised c rd.1.val = false := by
        rcases hF with hF | hF <;> simp [unrecognised, hF]
      by_cases h0 : (sys rd.2 .fork).1.ret = 0
      · obtain ⟨o, w1, mid, hsw, hw1, hmid⟩ :=
          switch_command_child c t0 t1 rd.1.val r p rd.2 h0 hE hF
        rw [hsw]
        dsimp only
        refine ⟨(⟨.read c.FUZZER_TO_FORKSRV 1, rd.1⟩ : Event) ::
          ⟨.fork, (sys rd.2 .fork).1⟩ :: mid, ?_, ?_⟩
        · rw [hw1, sys_trace, hrt]; simp
        · simp [echoes, hun, echoes_child_calls c _ (some r) mid hmid]
      · rw [switch_command_server c t0 t1 _ r p _ h0, if_neg hE, if_pos hF]
        generalize hfk : sys rd.2 .fork = fk
        have hft : fk.2.trace = rd.2.trace ++ [⟨.fork, fk.1⟩] := by rw [← hfk]; rfl
        by_cases hneg : fk.1.ret < 0
        · rw [if_pos hneg]
          dsimp only
          exact ⟨[⟨.read c.FUZZER_TO_FORKSRV 1, rd.1⟩, ⟨.fork, fk.1⟩],
            by rw [hft, hrt]; simp, by simp [echoes, hun]⟩
        · rw [if_neg hneg]
          dsimp only
          exact tail _ _ _ [⟨.fork, fk.1⟩] hft (by
            intro o rep rest hrest
            simp [echoes, hun, hrest])
    have hnf : ¬ (rd.1.val = c.FORK) ∧ ¬ (rd.1.val = c.FORK_RUN) := not_or.mp hF
    unfold switch_command
    rw [if_neg hE, if_neg hF]
    by_cases hR : rd.1.val = c.RUN
    · rw [if_pos hR]
      dsimp only
      have hun : unrecognised c rd.1.val = false := by simp [unrecognised, hR]
      generalize hgw : sys rd.2 (.write t1 0 4) = gw
      have hgt : gw.2.trace = rd.2.trace ++ [⟨.write t1 0 4, gw.1⟩] := by rw [← hgw]; rfl
      by_cases hg : gw.1.ret = 4
      · rw [if_neg (not_not.mpr hg)]
        dsimp only
        exact tail _ _ _ [⟨.write t1 0 4, gw.1⟩] hgt (by
          intro o rep rest hrest
          by_cases ht : t1 = c.FORKSRV_TO_FUZZER <;> simp [echoes, hun, hrest, ht])
      · rw [if_pos hg]
        dsimp only
        exact ⟨[⟨.read c.FUZZER_TO_FORKSRV 1, rd.1⟩, ⟨.write t1 0 4, gw.1⟩],
          by rw [hgt, hrt]; simp, by simp [echoes, hun]⟩
    rw [if_neg hR]
    by_cases hG : rd.1.val = c.GET_STATUS
    · rw [if_pos hG]
      dsimp only
      have hun : unrecognised c rd.1.val = false := by simp [unrecognised, hG]
      generalize hwp : sys rd.2 (.waitpid p) = wp
      have hwpt : wp.2.trace = rd.2.trace ++ [⟨.waitpid p, wp.1⟩] := by rw [← hwp]; rfl
      by_cases hneg : wp.1.ret < 0
      · rw [if_pos hneg]
        dsimp only
        exact ⟨[⟨.read c.FUZZER_TO_FORKSRV 1, rd.1⟩, ⟨.waitpid p, wp.1⟩],
          by rw [hwpt, hrt]; simp, by simp [echoes, hun]⟩
      · rw [if_neg hneg]
        dsimp only
        exact tail _ _ _ [⟨.waitpid p, wp.1⟩] hwpt (by
          intro o rep rest hrest
          simp [echoes, hun, hrest])
    rw [if_neg hG]
    dsimp only
    have hun : unrecognised c rd.1.val = true := by
      simp [unrecognised, hE, hnf.1, hnf.2, hR, hG]
    generalize hwv : sys rd.2 (.write c.FORKSRV_TO_FUZZER r 4) = wr
    have hwt : wr.2.trace = rd.2.trace ++ [⟨.write c.FORKSRV_TO_FUZZER r 4, wr.1⟩] := by
      rw [← hwv]; rfl
    by_cases hw4 : wr.1.ret = 4
    · rw [if_neg (not_not.mpr hw4)]
      obtain ⟨new, hn, he⟩ := ih r p wr.2 true
      refine ⟨(⟨.read c.FUZZER_TO_FORKSRV 1, rd.1⟩ : Event) ::
        ⟨.write c.FORKSRV_TO_FUZZER r 4, wr.1⟩ :: new, ?_, ?_⟩
      · rw [hn, hwt, hrt]; simp
      · simp [echoes, hun, hr1, hw4, he]
    · rw [if_pos hw4]
      refine ⟨[⟨.read c.FUZZER_TO_FORKSRV 1, rd.1⟩,
        ⟨.write c.FORKSRV_TO_FUZZER r 4, wr.1⟩], ?_, ?_⟩
      · rw [hwt, hrt]; simp
      · simp [echoes, hun, hr1, hw4]

/-- Claim C15: in every run of `forkserver_init`, after the hello, a command byte
that is none of `EXIT`, `FORK`, `FORK_RUN`, `RUN`, `GET_STATUS` is followed at
once (no fork, gate write or waitpid in between) by one 4-byte write to
`FORKSRV_TO_FUZZER` of the value the server last wrote to that pipe, which is
the hello 0x41414141 when no response was sent before; and when that write
succeeds the server continues the loop: its next call is the read of the next
command byte, and a run that the fuel cuts off right after the write has
neither exited nor returned.  Whenever the fuel cuts a run off, one more
iteration of fuel continues the same trace with the read of the next command
byte. -/
theorem unrecognised_command_echoes_last_response (c : Consts) (k : Kernel) (uninit : Int)
    (fuel : Nat) :
    (∃ hello rest,
      (forkserver_init c uninit fuel ⟨k, []⟩).world.trace = hello :: rest ∧
      hello.call = .write c.FORKSRV_TO_FUZZER 0x41414141 4 ∧
      echoes c (forkserver_init c uninit fuel ⟨k, []⟩).outcome
        (some 0x41414141) false false rest = true) ∧
    ((forkserver_init c uninit fuel ⟨k, []⟩).outcome = .running →
      ∃ rd more,
        (forkserver_init c uninit (fuel + 1) ⟨k, []⟩).world.trace =
          (forkserver_init c uninit fuel ⟨k, []⟩).world.trace ++ rd :: more ∧
        rd.call = .read c.FUZZER_TO_FORKSRV 1) := by
  unfold forkserver_init
  dsimp only
  generalize hh : sys ⟨k, []⟩ (.write c.FORKSRV_TO_FUZZER 0x41414141 4) = hello
  have hht : hello.2.trace = [⟨.write c.FORKSRV_TO_FUZZER 0x41414141 4, hello.1⟩] := by
    rw [← hh]; rfl
  by_cases h4 : hello.1.ret ≠ 4
  · simp only [if_pos h4]
    exact ⟨⟨⟨.write c.FORKSRV_TO_FUZZER 0x41414141 4, hello.1⟩, [], hht, rfl,
      echoes_nil c _ _⟩, fun h => absurd h (by decide)⟩
  · simp only [if_neg h4]
    by_cases hp : (sys hello.2 .pipe).1.ret ≠ 0
    · simp only [if_pos hp]
      exact ⟨⟨⟨.write c.FORKSRV_TO_FUZZER 0x41414141 4, hello.1⟩,
        [⟨.pipe, (sys hello.2 .pipe).1⟩], by simp [hht], rfl, by simp [echoes]⟩,
        fun h => absurd h (by decide)⟩
    · simp only [if_neg hp]
      refine ⟨?_, fun hrun => server_loop_continues c _ _ fuel _ _ _ hrun⟩
      obtain ⟨new, hn, he⟩ := server_loop_echoes c (sys hello.2 .pipe).1.val
        (sys hello.2 .pipe).1.val2 fuel 0x41414141 uninit (sys hello.2 .pipe).2 false
      refine ⟨⟨.write c.FORKSRV_TO_FUZZER 0x41414141 4, hello.1⟩,
        ⟨.pipe, (sys hello.2 .pipe).1⟩ :: new, ?_, rfl, ?_⟩
      · rw [hn]; simp [hht]
      · simp [echoes, he]

/-- A server that reads the bytes 9, `FORK`, 9 and then `EXIT`: it echoes the hello
for the first 9 and the pid 1000 for the second; cut off after the first
echo it is still running, and goes on with the read of the next byte. -/
theorem unrecognised_command_echoes_last_response_witness :
    (forkserver_init sample_consts 0 4
        ⟨scripted_kernel sample_consts [9, 1, 9], []⟩).world.trace.map (fun e => e.call) =
      [.write 199 0x41414141 4, .pipe,
        .read 198 1, .write 199 0x41414141 4,
        .read 198 1, .fork, .write 199 1000 4,
        .read 198 1, .write 199 1000 4,
        .read 198 1] ∧
    (forkserver_init sample_consts 0 4
      ⟨scripted_kernel sample_consts [9, 1, 9], []⟩).outcome = .exited 0 ∧
    (forkserver_init sample_consts 0 1
      ⟨scripted_kernel sample_consts [9, 1, 9], []⟩).outcome = .running ∧
    ∃ rd more,
      (forkserver_init sample_consts 0 2
          ⟨scripted_kernel sample_consts [9, 1, 9], []⟩).world.trace =
        (forkserver_init sample_consts 0 1
          ⟨scripted_kernel sample_consts [9, 1, 9], []⟩).world.trace ++ rd :: more ∧
      rd.call = .read sample_consts.FUZZER_TO_FORKSRV 1 :=
  ⟨by decide, by decide, by decide,
    (unrecognised_command_echoes_last_response sample_consts
      (scripted_kernel sample_consts [9, 1, 9]) 0 1).2 (by decide)⟩

/-! ### Handshake failure classification -/

theorem setup_not_waitpid (e : Event) (h : e.is_setup = true) : e.is_waitpid = false := by
  cases e with
  | mk call reply => cases call <;> simp_all [Event.is_setup, Event.is_waitpid]

theorem fork_server_init_spawn_outcomes (fs : forkserver_t) (needs dev : Int) (window : Nat)
    (k : Kernel) :
    ((fork_server_init fs needs dev window ⟨k, []⟩).world.trace.all Event.is_setup = true ∧
      ((fork_server_init fs needs dev window ⟨k, []⟩).outcome = .fatal_open_dev_null ∨
        (fork_server_init fs needs dev window ⟨k, []⟩).outcome = .fatal_mkstemp ∨
        (fork_server_init fs needs dev window ⟨k, []⟩).outcome = .fatal_pipe ∨
        (fork_server_init fs needs dev window ⟨k, []⟩).outcome = .fatal_fork ∨
        (fork_server_init fs needs dev window ⟨k, []⟩).outcome = .target_child)) ∨
    (∃ w2 pid, w2.trace.all Event.is_setup = true ∧
      (fork_server_init fs needs dev window ⟨k, []⟩).outcome =
        (handshake (fork_server_init fs needs dev window ⟨k, []⟩).fs pid window w2).1 ∧
      (fork_server_init fs needs dev window ⟨k, []⟩).world =
        (handshake (fork_server_init fs needs dev window ⟨k, []⟩).fs pid window w2).2) := by
  have h0 : (⟨k, []⟩ : World).trace.all Event.is_setup = true := rfl
  unfold fork_server_init
  by_cases hd : dev < 0 <;> by_cases hn : needs ≠ 0 <;>
    simp only [hd, hn, if_true, if_false, true_and, false_and] <;>
    split_ifs <;>
    first
    | (left
       refine ⟨?_, ?_⟩
       · repeat (first | exact h0 | (apply setup_sys _ _ rfl))
       · simp)
    | (right
       refine ⟨_, _, ?_, rfl, rfl⟩
       repeat (first | exact h0 | (apply setup_sys _ _ rfl)))

theorem poll_hello_idle (fd : Int) :
    ∀ (window : Nat) (rlen : Int) (w : World),
      ∃ new, (poll_hello fd window rlen w).2.2.trace = w.trace ++ new ∧
        (∀ e ∈ new, e.is_waitpid = false) ∧
        (((poll_hello fd window rlen w).2.1 = 1 ∧
            (rlen ≠ 4 → (poll_hello fd window rlen w).1 ≠ 4)) ∨
          ∃ e ∈ new, e.polled 4 = true) := by
  intro window
  induction window with
  | zero =>
    intro rlen w
    exact ⟨[], by simp [poll_hello], by simp, Or.inl ⟨rfl, fun h => h⟩⟩
  | succ n ih =>
    intro rlen w
    rw [poll_hello_succ]
    generalize hio : sys w (.ioctl_FIONREAD fd) = io
    have hiot : io.2.trace = w.trace ++ [⟨.ioctl_FIONREAD fd, io.1⟩] := by rw [← hio]; rfl
    split
    · rename_i hready
      refine ⟨[⟨.ioctl_FIONREAD fd, io.1⟩, ⟨.read fd 4, (sys io.2 (.read fd 4)).1⟩],
        by simp [hiot], by simp [Event.is_waitpid],
        Or.inr ⟨⟨.ioctl_FIONREAD fd, io.1⟩, by simp, ?_⟩⟩
      simp [Event.polled, Event.is_poll, hready.1, hready.2]
    · rename_i hnot
      generalize hus : sys io.2 (.usleep 5) = us
      have hust : us.2.trace = io.2.trace ++ [⟨.usleep 5, us.1⟩] := by rw [← hus]; rfl
      obtain ⟨new, hn, hw, hcase⟩ := ih (if io.1.ret = 0 then io.1.val else rlen) us.2
      refine ⟨⟨.ioctl_FIONREAD fd, io.1⟩ :: ⟨.usleep 5, us.1⟩ :: new,
        by rw [hn, hust, hiot]; simp, ?_, ?_⟩
      · intro e he
        simp only [List.mem_cons] at he
        rcases he with he | he | he
        · subst he; rfl
        · subst he; rfl
        · exact hw e he
      · rcases hcase with ⟨ht, hkeep⟩ | ⟨e, he, hp⟩
        · refine Or.inl ⟨ht, fun hr => hkeep ?_⟩
          by_cases h0 : io.1.ret = 0
          · rw [if_pos h0]
            exact fun h4 => hnot ⟨h0, h4⟩
          · rw [if_neg h0]
            exact hr
        · exact Or.inr ⟨e, by simp [he], hp⟩

/-- Claim C11 on the code: in a run of `fork_server_init` in which no FIONREAD poll
reports exactly 4 bytes, as when the server has terminated without writing
its hello, the driver never calls `waitpid`, so it does not reap the server,
and it reports neither a crash nor "Fork server handshake failed": unless it
ended before the handshake in one of the spawn errors (or is the forked
child), it ends in "Timeout while initializing fork server", whatever the
wait status of the server is. -/
theorem silent_server_death_is_reported_as_timeout (fs : forkserver_t)
    (needs_stdin_fd dev_null_fd : Int) (window : Nat) (k : Kernel)
    (hpoll : ∀ e ∈ (fork_server_init fs needs_stdin_fd dev_null_fd window ⟨k, []⟩).world.trace,
      e.polled 4 = false) :
    (∀ e ∈ (fork_server_init fs needs_stdin_fd dev_null_fd window ⟨k, []⟩).world.trace,
      e.is_waitpid = false) ∧
    ((fork_server_init fs needs_stdin_fd dev_null_fd window ⟨k, []⟩).outcome = .fatal_timeout ∨
      (fork_server_init fs needs_stdin_fd dev_null_fd window ⟨k, []⟩).outcome =
        .fatal_open_dev_null ∨
      (fork_server_init fs needs_stdin_fd dev_null_fd window ⟨k, []⟩).outcome = .fatal_mkstemp ∨
      (fork_server_init fs needs_stdin_fd dev_null_fd window ⟨k, []⟩).outcome = .fatal_pipe ∨
      (fork_server_init fs needs_stdin_fd dev_null_fd window ⟨k, []⟩).outcome = .fatal_fork ∨
      (fork_server_init fs needs_stdin_fd dev_null_fd window ⟨k, []⟩).outcome = .target_child) := by
  rcases fork_server_init_spawn_outcomes fs needs_stdin_fd dev_null_fd window k with
    ⟨hs, ho⟩ | ⟨w2, pid, hs, ho, hw⟩
  · exact ⟨fun e he => setup_not_waitpid e (List.all_eq_true.mp hs e he), Or.inr ho⟩
  · generalize fork_server_init fs needs_stdin_fd dev_null_fd window ⟨k, []⟩ = R at *
    rw [hw] at hpoll ⊢
    rw [ho]
    clear ho hw
    obtain ⟨new, hn, hnw, hcase⟩ := poll_hello_idle R.fs.forksrv_to_fuzzer window (-1) w2
    unfold handshake at hpoll ⊢
    dsimp only at hpoll ⊢
    generalize poll_hello R.fs.forksrv_to_fuzzer window (-1) w2 = p at *
    rcases hcase with ⟨ht, hkeep⟩ | ⟨e, he, hp⟩
    · have h4 : p.1 ≠ 4 := hkeep (by decide)
      rw [if_neg h4]
      have h1 : p.2.1 ≠ 0 := by rw [ht]; decide
      rw [if_pos h1]
      refine ⟨?_, Or.inl rfl⟩
      intro e he
      rw [sys_trace, hn] at he
      simp only [List.mem_append, List.mem_singleton] at he
      rcases he with (he | he) | he
      · exact setup_not_waitpid e (List.all_eq_true.mp hs e he)
      · exact hnw e he
      · subst he; rfl
    · exfalso
      have hmem : e ∈ p.2.2.trace := by rw [hn]; simp [he]
      have hsub : ∀ x ∈ p.2.2.trace, x.polled 4 = false := by
        intro x hx
        apply hpoll x
        split
        · exact hx
        · have hk : x ∈ (sys p.2.2 (.kill pid SIGKILL)).2.trace := by
            rw [sys_trace]; simp [hx]
          split
          · exact hk
          · have hwt : x ∈ (sys (sys p.2.2 (.kill pid SIGKILL)).2 (.waitpid pid)).2.trace := by
              rw [sys_trace]
              exact List.mem_append_left _ hk
            split
            · exact hwt
            · split
              · exact hwt
              · exact hwt
      rw [hsub e hmem] at hp
      exact absurd hp (by simp)

/-- A server killed by signal 11 before its hello is reported as a timeout and is
not reaped. -/
theorem silent_server_death_is_reported_as_timeout_witness :
    (∀ e ∈ (fork_server_init sample_handle 0 (-1) 3 ⟨silent_death_kernel 11, []⟩).world.trace,
      e.polled 4 = false) ∧
    WIFSIGNALED 11 = true ∧
    (fork_server_init sample_handle 0 (-1) 3 ⟨silent_death_kernel 11, []⟩).outcome =
      .fatal_timeout ∧
    ∀ e ∈ (fork_server_init sample_handle 0 (-1) 3 ⟨silent_death_kernel 11, []⟩).world.trace,
      e.is_waitpid = false :=
  ⟨by decide, by decide, by decide,
    (silent_server_death_is_reported_as_timeout sample_handle 0 (-1) 3 (silent_death_kernel 11)
      (by decide)).1⟩

/-! ### The result of `fork_server_run` -/

/-- Claim C13: with `FORKSERVER_ERROR` different from 0, `fork_server_run` returns 0 if
and only if the 1-byte write of `RUN` to the command pipe succeeds and the read
that follows it delivers all 4 bytes of a response whose value is 0; in every
other case it returns `FORKSERVER_ERROR`; when the write fails the write is
the only system call it makes, so no read of the status pipe happens, and
when the write succeeds it makes exactly one 4-byte read of the status pipe. -/
theorem fork_server_run_result (c : Consts) (fs : forkserver_t) (w : World)
    (herr : c.FORKSERVER_ERROR ≠ 0) :
    ((fork_server_run c fs w).1 = 0 ↔
      (sys w (.write fs.fuzzer_to_forksrv c.RUN 1)).1.ret = 1 ∧
      (sys (sys w (.write fs.fuzzer_to_forksrv c.RUN 1)).2
        (.read fs.forksrv_to_fuzzer 4)).1.ret = 4 ∧
      (sys (sys w (.write fs.fuzzer_to_forksrv c.RUN 1)).2
        (.read fs.forksrv_to_fuzzer 4)).1.val = 0) ∧
    ((fork_server_run c fs w).1 ≠ 0 → (fork_server_run c fs w).1 = c.FORKSERVER_ERROR) ∧
    ((sys w (.write fs.fuzzer_to_forksrv c.RUN 1)).1.ret ≠ 1 →
      new_events w (fork_server_run c fs w).2 =
        [⟨.write fs.fuzzer_to_forksrv c.RUN 1,
          (sys w (.write fs.fuzzer_to_forksrv c.RUN 1)).1⟩]) ∧
    ((sys w (.write fs.fuzzer_to_forksrv c.RUN 1)).1.ret = 1 →
      new_events w (fork_server_run c fs w).2 =
        [⟨.write fs.fuzzer_to_forksrv c.RUN 1,
            (sys w (.write fs.fuzzer_to_forksrv c.RUN 1)).1⟩,
          ⟨.read fs.forksrv_to_fuzzer 4,
            (sys (sys w (.write fs.fuzzer_to_forksrv c.RUN 1)).2
              (.read fs.forksrv_to_fuzzer 4)).1⟩]) := by
  unfold fork_server_run send_command read_response
  dsimp only
  generalize hwr : sys w (.write fs.fuzzer_to_forksrv c.RUN 1) = wr
  have hwt : wr.2.trace = w.trace ++ [⟨.write fs.fuzzer_to_forksrv c.RUN 1, wr.1⟩] := by
    rw [← hwr]; rfl
  by_cases h1 : wr.1.ret = 1
  · simp only [h1, ne_eq, not_true_eq_false, if_false, true_and, not_false_eq_true,
      true_implies, false_implies, and_true]
    generalize hrd : sys wr.2 (.read fs.forksrv_to_fuzzer 4) = rd
    have hrt : rd.2.trace = wr.2.trace ++ [⟨.read fs.forksrv_to_fuzzer 4, rd.1⟩] := by
      rw [← hrd]; rfl
    by_cases h4 : rd.1.ret = 4
    · by_cases h0 : rd.1.val = 0
      · simp [h4, h0, new_events, hrt, hwt]
      · simp [h4, h0, herr, new_events, hrt, hwt]
    · simp [h4, herr, new_events, hrt, hwt]
  · simp [h1, herr, new_events, hwt]

/-- A run against a live server returns 0; a run whose write fails returns
`FORKSERVER_ERROR` after that one write. -/
theorem fork_server_run_result_witness :
    sample_consts.FORKSERVER_ERROR ≠ 0 ∧
    (fork_server_run sample_consts sample_handle
      ⟨live_server_kernel sample_consts, [⟨.read 7 4, ⟨4, 0x41414141, 0⟩⟩]⟩).1 = 0 ∧
    (fork_server_run sample_consts sample_handle ⟨failing_kernel, []⟩).1 = -1 ∧
    new_events ⟨failing_kernel, []⟩
        (fork_server_run sample_consts sample_handle ⟨failing_kernel, []⟩).2 =
      [⟨.write 10 3 1, ⟨-1, 0, 0⟩⟩] :=
  ⟨by decide, by decide, by decide,
    (fork_server_run_result sample_consts sample_handle ⟨failing_kernel, []⟩
      (by decide)).2.2.1 (by decide)⟩

/-! ### Sanitizer defaults in the environment of the target -/

theorem setenv_other (env : Env) (name value : String) (overwrite : Int) (m : String)
    (h : m ≠ name) : setenv env name value overwrite m = env m := by
  unfold setenv
  split_ifs
  · simp [h]
  · rfl

theorem setenv_default (env : Env) (name value : String) :
    setenv env name value 0 name = some ((env name).getD value) := by
  unfold setenv
  cases h : env name <;> simp [h]

theorem linked_keeps (PERSIST_MAX_VAR : String) (cnt : Int)
    (path : String) (env : Env) (m : String)
    (h1 : m ≠ "DYLD_INSERT_LIBRARIES") (h2 : m ≠ "LD_PRELOAD") (h3 : m ≠ PERSIST_MAX_VAR)
    (h4 : m ≠ "LD_BIND_NOW") (env0 : Env)
    (he : env0 = env ∨ env0 = setenv env "DYLD_INSERT_LIBRARIES" path 1 ∨
      env0 = setenv env "LD_PRELOAD" path 1) :
    (if getenv (if cnt ≠ 0 then setenv env0 PERSIST_MAX_VAR (toString cnt) 1 else env0)
          "LD_BIND_LAZY" = none then
        setenv (if cnt ≠ 0 then setenv env0 PERSIST_MAX_VAR (toString cnt) 1 else env0)
          "LD_BIND_NOW" "1" 0
      else (if cnt ≠ 0 then setenv env0 PERSIST_MAX_VAR (toString cnt) 1 else env0)) m
      = env m := by
  have h0 : env0 m = env m := by
    rcases he with he | he | he <;> subst he
    · rfl
    · exact setenv_other _ _ _ _ _ h1
    · exact setenv_other _ _ _ _ _ h2
  split_ifs <;> simp [setenv_other, h3, h4, h0]

theorem run_target_setenv_keeps (PERSIST_MAX_VAR : String) (apple fs : Bool)
    (use_forkserver_library persistence_max_cnt : Int) (library : Option String)
    (env env3 : Env) (m : String)
    (h1 : m ≠ "DYLD_INSERT_LIBRARIES") (h2 : m ≠ "LD_PRELOAD") (h3 : m ≠ PERSIST_MAX_VAR)
    (h4 : m ≠ "LD_BIND_NOW")
    (h : (if fs then
        Option.map (fun env1 =>
          if getenv (if persistence_max_cnt ≠ 0 then
                setenv env1 PERSIST_MAX_VAR (toString persistence_max_cnt) 1 else env1)
              "LD_BIND_LAZY" = none then
            setenv (if persistence_max_cnt ≠ 0 then
                setenv env1 PERSIST_MAX_VAR (toString persistence_max_cnt) 1 else env1)
              "LD_BIND_NOW" "1" 0
          else (if persistence_max_cnt ≠ 0 then
                setenv env1 PERSIST_MAX_VAR (toString persistence_max_cnt) 1 else env1))
          (if use_forkserver_library ≠ 0 then
            match library with
            | none => none
            | some fork_server_library_path =>
              if apple then
                some (setenv env "DYLD_INSERT_LIBRARIES" fork_server_library_path 1)
              else some (setenv env "LD_PRELOAD" fork_server_library_path 1)
          else some env)
      else some env) = some env3) :
    env3 m = env m := by
  cases fs
  · simp at h
    rw [← h]
  · simp only [if_true] at h
    by_cases hu : use_forkserver_library ≠ 0
    · rw [if_pos hu] at h
      cases library with
      | none => simp at h
      | some path =>
        cases apple
        · simp only [Bool.false_eq_true, if_false, Option.map_some', Option.some.injEq] at h
          rw [← h]
          exact linked_keeps PERSIST_MAX_VAR persistence_max_cnt
            path env m h1 h2 h3 h4 _ (Or.inr (Or.inr rfl))
        · simp only [if_true, Option.map_some', Option.some.injEq] at h
          rw [← h]
          exact linked_keeps PERSIST_MAX_VAR persistence_max_cnt
            path env m h1 h2 h3 h4 _ (Or.inr (Or.inl rfl))
    · rw [if_neg hu] at h
      simp only [Option.map_some', Option.some.injEq] at h
      rw [← h]
      exact linked_keeps PERSIST_MAX_VAR persistence_max_cnt
        "" env m h1 h2 h3 h4 _ (Or.inl rfl)

/-- Claim C14: for every initial environment `env`, the child-side configuration of
`run_target` reaches `execv` unless the forkserver library has to be preloaded
and cannot be found, and the environment `execv` then gets has `ASAN_OPTIONS`
equal to its initial value if it was set and to
`abort_on_error=1:detect_leaks=0:symbolize=0:allocator_may_return_null=1`
otherwise, and `MSAN_OPTIONS` equal to its initial value if it was set and
otherwise to a value with the options `exit_code=86`, `symbolize=0` and
`msan_track_origins=0`, which has `abort_on_error=1` and
`allocator_may_return_null=1` exactly when a forkserver handle is in use. The
name `PERSIST_MAX_VAR` of the missing header is assumed to be neither of the
two sanitizer variables. -/
theorem sanitizer_environment_defaults (PERSIST_MAX_VAR : String) (apple fs : Bool)
    (use_forkserver_library persistence_max_cnt : Int) (library : Option String) (env : Env)
    (hasan : PERSIST_MAX_VAR ≠ "ASAN_OPTIONS") (hmsan : PERSIST_MAX_VAR ≠ "MSAN_OPTIONS") :
    (run_target_setenv PERSIST_MAX_VAR apple fs use_forkserver_library persistence_max_cnt
        library env = none ↔
      fs = true ∧ use_forkserver_library ≠ 0 ∧ library = none) ∧
    ∀ env', run_target_setenv PERSIST_MAX_VAR apple fs use_forkserver_library
        persistence_max_cnt library env = some env' →
      env' "ASAN_OPTIONS" = some ((env "ASAN_OPTIONS").getD
        "abort_on_error=1:detect_leaks=0:symbolize=0:allocator_may_return_null=1") ∧
      (∀ v, env "MSAN_OPTIONS" = some v → env' "MSAN_OPTIONS" = some v) ∧
      (env "MSAN_OPTIONS" = none →
        ∃ v, env' "MSAN_OPTIONS" = some v ∧
          has_option v "exit_code=86" = true ∧ has_option v "symbolize=0" = true ∧
          has_option v "msan_track_origins=0" = true ∧
          has_option v "abort_on_error=1" = fs ∧
          has_option v "allocator_may_return_null=1" = fs) := by
  refine ⟨?_, ?_⟩
  · unfold run_target_setenv
    cases fs
    · simp
    · by_cases hu : use_forkserver_library ≠ 0
      · cases library with
        | none => simp [hu]
        | some path => cases apple <;> simp [hu]
      · simp [hu]
  · intro env' h
    unfold run_target_setenv at h
    simp only [Option.map_eq_some'] at h
    obtain ⟨env3, h3, h⟩ := h
    have ha : env3 "ASAN_OPTIONS" = env "ASAN_OPTIONS" :=
      run_target_setenv_keeps PERSIST_MAX_VAR apple fs use_forkserver_library
        persistence_max_cnt library env env3 "ASAN_OPTIONS" (by decide) (by decide)
        (Ne.symm hasan) (by decide) h3
    have hm : env3 "MSAN_OPTIONS" = env "MSAN_OPTIONS" :=
      run_target_setenv_keeps PERSIST_MAX_VAR apple fs use_forkserver_library
        persistence_max_cnt library env env3 "MSAN_OPTIONS" (by decide) (by decide)
        (Ne.symm hmsan) (by decide) h3
    have hma : ∀ (e : Env) (v : String), setenv e "ASAN_OPTIONS" v 0 "MSAN_OPTIONS"
        = e "MSAN_OPTIONS" := fun e v => setenv_other e _ v 0 _ (by decide)
    have ham : ∀ (e : Env) (v : String), setenv e "MSAN_OPTIONS" v 0 "ASAN_OPTIONS"
        = e "ASAN_OPTIONS" := fun e v => setenv_other e _ v 0 _ (by decide)
    have hstr : "abort_on_error=1:" ++ "detect_leaks=0:" ++ "symbolize=0:" ++
        "allocator_may_return_null=1" =
        "abort_on_error=1:detect_leaks=0:symbolize=0:allocator_may_return_null=1" := by decide
    cases fs
    · simp only [Bool.false_eq_true, if_false] at h
      subst h
      refine ⟨?_, ?_, ?_⟩
      · rw [ham, setenv_default, ha, hstr]
      · intro v hv
        rw [setenv_default, hma, hm, hv]
        rfl
      · intro hn
        refine ⟨"exit_code=86:symbolize=0:msan_track_origins=0", ?_, ?_⟩
        · rw [setenv_default, hma, hm, hn]
          decide
        · decide
    · simp only [if_true] at h
      subst h
      refine ⟨?_, ?_, ?_⟩
      · rw [ham, setenv_default, ha, hstr]
      · intro v hv
        rw [setenv_default, hma, hm, hv]
        rfl
      · intro hn
        refine ⟨"exit_code=86:symbolize=0:abort_on_error=1:allocator_may_return_null=1:" ++
          "msan_track_origins=0", ?_, ?_⟩
        · rw [setenv_default, hma, hm, hn]
          decide
        · decide

/-- A child with a forkserver handle whose caller had set `MSAN_OPTIONS` only. -/
theorem sanitizer_environment_defaults_witness :
    "KILLERBEEZ_PERSIST_MAX" ≠ "ASAN_OPTIONS" ∧ "KILLERBEEZ_PERSIST_MAX" ≠ "MSAN_OPTIONS" ∧
    ∃ env', run_target_setenv "KILLERBEEZ_PERSIST_MAX" false true 1 1000
        (some "/usr/lib/libforkserver.so")
        (fun n => if n = "MSAN_OPTIONS" then some "poison_in_free=1" else none) = some env' ∧
      env' "ASAN_OPTIONS" =
        some "abort_on_error=1:detect_leaks=0:symbolize=0:allocator_may_return_null=1" ∧
      env' "MSAN_OPTIONS" = some "poison_in_free=1" :=
  ⟨by decide, by decide, _, rfl,
    ((sanitizer_environment_defaults "KILLERBEEZ_PERSIST_MAX" false true 1 1000
      (some "/usr/lib/libforkserver.so")
      (fun n => if n = "MSAN_OPTIONS" then some "poison_in_free=1" else none)
      (by decide) (by decide)).2 _ rfl).1,
    ((sanitizer_environment_defaults "KILLERBEEZ_PERSIST_MAX" false true 1 1000
      (some "/usr/lib/libforkserver.so")
      (fun n => if n = "MSAN_OPTIONS" then some "poison_in_free=1" else none)
      (by decide) (by decide)).2 _ rfl).2.1 _ rfl⟩

end Killerbeez
